import Mathlib

/-! # 3DShell: directory entry store and texture decode adapter

A shallow embedding of `source/file/dirlist.c` (the directory listing kept in the
globals `files`, `fileCount`, `position`) and of `source/textures.cpp` (reading an
image file, dispatching it to a decoder and repacking the pixels into a tiled
texture), followed by theorems about them.

Conventions of the embedding
* a NUL-terminated C string is the `List Char` of the characters before the NUL;
* the singly linked list hanging off `files` is a `List File` (the `next` link is
  the list structure itself, `NULL` is `[]`);
* every call into the platform SDK or into a third-party library is answered from
  a script that is an argument of the embedded function, and the calls made are
  recorded in a trace that is part of the result;
* `int` counters (`fileCount`, `position`, the loop counter of `getFileIndex`) are
  `Int`: they count list nodes, and a list of `2^31` heap nodes cannot exist in the
  32-bit address space, so they never wrap. `u32` arithmetic that can wrap is
  written with an explicit `% 2^32`.
-/

namespace Shell

/-! ## Platform result codes (libctru `result.h`) -/

/-- The libctru macro `R_SUCCEEDED(res)`, which is `((res) >= 0)`. -/
def R_SUCCEEDED (res : Int) : Bool := decide (0 ≤ res)

/-- The libctru macro `R_FAILED(res)`, which is `((res) < 0)`. -/
def R_FAILED (res : Int) : Bool := decide (res < 0)

/-! ## dirlist.c: data model -/

/-- One node of the list `files` (`struct File` of `dirlist.h`, the `next` link
left to the enclosing `List`). The three flags are C `int`s holding the masked
attribute word, so any non-zero value means "set". -/
structure File where
  isDir : Nat
  isReadOnly : Nat
  isHidden : Nat
  name : List Char
  ext : List Char
  size : Nat
deriving DecidableEq, Repr

/-- The SDK record `FS_DirectoryEntry` as far as `updateList` reads it: the
UTF-16 name, the short extension, the attribute word and the size. -/
structure FS_DirectoryEntry where
  name : List Nat
  shortExt : List Char
  attributes : Nat
  fileSize : Nat
deriving DecidableEq, Repr

/-- What one call `FSDIR_Read(dirHandle, &entriesRead, 1, &entries)` answers: the
result code and the two out-parameters. -/
structure DirRead where
  ret : Int
  entriesRead : Nat
  entries : FS_DirectoryEntry
deriving DecidableEq, Repr

/-- The platform's answers during one `updateList`: the code of
`FSUSER_OpenDirectory`, the answers of the successive `FSDIR_Read` calls, and the
code of `FSDIR_Close`. -/
structure DirScript where
  openRet : Int
  reads : List DirRead
  closeRet : Int
deriving DecidableEq, Repr

/-- A platform call made by `updateList`, with the code it returned. -/
inductive FsCall where
  | OpenDirectory (ret : Int)
  | Read (ret : Int)
  | Close (ret : Int)
deriving DecidableEq, Repr

/-- What `dirlist.c` takes from headers that are not part of the listing file:
the macro `ROOT_PATH`, the SDK attribute masks and the helper `u16_to_u8`
(called as `u16_to_u8 dname entries.name 0xFF`; the value is the C string left
in `dname`). -/
structure Env where
  ROOT_PATH : List Char
  FS_ATTRIBUTE_DIRECTORY : Nat
  FS_ATTRIBUTE_READ_ONLY : Nat
  FS_ATTRIBUTE_HIDDEN : Nat
  u16_to_u8 : List Nat → Nat → List Char

/-- The globals `updateList` reads and writes: `cwd`, `isHiddenEnabled`,
`position`, `fileCount` and the list `files`. -/
structure Globals where
  cwd : List Char
  isHiddenEnabled : Bool
  position : Int
  fileCount : Int
  files : List File
deriving DecidableEq, Repr

/-- How the `do ... while (entriesRead)` loop of `updateList` is left: through
`return ret` inside the loop, or by the loop condition becoming false. -/
inductive LoopExit where
  | returned (ret : Int)
  | done
deriving DecidableEq, Repr

/-- The result of `updateList`: the returned code, the globals afterwards and the
platform calls made, in order. -/
structure Outcome where
  ret : Int
  g : Globals
  calls : List FsCall
deriving DecidableEq, Repr

/-! ## dirlist.c: updateList, getFileIndex -/

/-- The fake `..` entry: a zeroed node with name `..` and `isDir = 1`. -/
def dotdot : File :=
  { isDir := 1, isReadOnly := 0, isHidden := 0, name := ['.', '.'], ext := [], size := 0 }

/-- The node `item` that the loop body of `updateList` fills from `entries` and
the converted name `dname`. -/
def mkItem (env : Env) (dname : List Char) (e : FS_DirectoryEntry) : File :=
  { isDir := e.attributes &&& env.FS_ATTRIBUTE_DIRECTORY
    isReadOnly := e.attributes &&& env.FS_ATTRIBUTE_READ_ONLY
    isHidden := e.attributes &&& env.FS_ATTRIBUTE_HIDDEN
    name := dname
    ext := e.shortExt
    size := e.fileSize }

/-- The `do { ... } while (entriesRead)` loop of `updateList`, one `FSDIR_Read`
answer per iteration. `none` means the script ran out while the loop was still
running. The three `continue` statements and the hidden-file `continue` go on
with the next answer (their `entriesRead` is non-zero, so the loop condition
holds); appending walks to the last node, which is `++ [item]`. -/
def readLoop (env : Env) : List DirRead → Globals → List FsCall →
    Option (LoopExit × Globals × List FsCall)
  | [], _, _ => none
  | r :: rest, g, calls =>
    let calls1 := calls ++ [FsCall.Read r.ret]
    if R_SUCCEEDED r.ret then
      if r.entriesRead ≠ 0 then
        let dname := env.u16_to_u8 r.entries.name 0xFF
        if dname.head? = none then
          readLoop env rest g calls1
        else if dname.take 1 = ['.'] then
          readLoop env rest g calls1
        else if g.cwd = env.ROOT_PATH ∧ dname.take 2 = ['.', '.'] then
          readLoop env rest g calls1
        else
          let item := mkItem env dname r.entries
          if (!g.isHiddenEnabled) && (item.isHidden != 0) then
            readLoop env rest g calls1
          else
            readLoop env rest
              { g with files := g.files ++ [item], fileCount := g.fileCount + 1 } calls1
      else
        some (LoopExit.done, g, calls1)
    else
      some (LoopExit.returned r.ret, g, calls1)

/-- Embedding of `Result updateList(int clearindex)`. -/
def updateList (env : Env) (p : DirScript) (clearindex : Int) (g0 : Globals) :
    Option Outcome :=
  -- recursiveFree(files); files = NULL; fileCount = 0;
  let g1 : Globals := { g0 with files := [], fileCount := 0 }
  if R_SUCCEEDED p.openRet then
    let g2 : Globals :=
      if g1.cwd ≠ env.ROOT_PATH then
        { g1 with files := [dotdot], fileCount := g1.fileCount + 1 }
      else g1
    match readLoop env p.reads g2 [FsCall.OpenDirectory p.openRet] with
    | none => none
    | some (LoopExit.returned ret, g3, calls) => some { ret := ret, g := g3, calls := calls }
    | some (LoopExit.done, g3, calls) =>
      let calls1 := calls ++ [FsCall.Close p.closeRet]
      if R_FAILED p.closeRet then
        some { ret := p.closeRet, g := g3, calls := calls1 }
      else
        let g4 : Globals :=
          if clearindex = 0 then
            if g3.position ≥ g3.fileCount then { g3 with position := g3.fileCount - 1 }
            else g3
          else { g3 with position := 0 }
        some { ret := 0, g := g4, calls := calls1 }
  else
    some { ret := p.openRet, g := g1, calls := [FsCall.OpenDirectory p.openRet] }

/-- The loop of `getFileIndex`: `for(; file != NULL && i != index; file = file->next) i++;`
followed by `return file`, started at node list `file` with counter `i`. -/
def getFileIndexFrom : List File → Int → Int → Option File
  | [], _, _ => none
  | f :: rest, i, index => if i ≠ index then getFileIndexFrom rest (i + 1) index else some f

/-- Embedding of `File * getFileIndex(int index)`; `none` is `NULL`. -/
def getFileIndex (files : List File) (index : Int) : Option File :=
  getFileIndexFrom files 0 index

/-! ## textures.cpp: data model -/

/-- The macro `MAX_IMAGE_BYTES`. -/
def MAX_IMAGE_BYTES : Nat := 48 * 1024 * 1024

/-- The constant `BYTES_PER_PIXEL`. -/
def BYTES_PER_PIXEL : Nat := 4

/-- The constant `TRANSPARENT_COLOR`. -/
def TRANSPARENT_COLOR : Nat := 0xFFFFFFFF

/-- The enum `ImageType`. -/
inductive ImageType where
  | ImageTypeBMP
  | ImageTypeGIF
  | ImageTypeJPEG
  | ImageTypePNG
  | ImageTypeWEBP
  | ImageTypeOther
deriving DecidableEq, Repr

/-- The result codes of libnsbmp. -/
inductive bmp_result where
  | BMP_OK
  | BMP_INSUFFICIENT_MEMORY
  | BMP_INSUFFICIENT_DATA
  | BMP_DATA_ERROR
deriving DecidableEq, Repr

/-- The result codes of libnsgif. -/
inductive gif_result where
  | GIF_WORKING
  | GIF_OK
  | GIF_INSUFFICIENT_FRAME_DATA
  | GIF_FRAME_DATA_ERROR
  | GIF_INSUFFICIENT_DATA
  | GIF_DATA_ERROR
  | GIF_INSUFFICIENT_MEMORY
  | GIF_FRAME_NO_DISPLAY
  | GIF_END_OF_FRAME
deriving DecidableEq, Repr

/-- The sub-texture record `Tex3DS_SubTexture`: `u16` extents and four `float`
coordinates. The coordinates are kept as rationals: `C3DTexToC2DImage` only ever
stores `0`, `1`, `w / P` and `1 - h / P` with `w, h < 1024` and `P` a power of
two between 64 and 1024, and on such operands the float division, the double
subtraction and the narrowing back to float are all exact. -/
structure Tex3DS_SubTexture where
  width : Nat
  height : Nat
  left : ℚ
  top : ℚ
  right : ℚ
  bottom : ℚ
deriving DecidableEq

/-- The texture record `C3D_Tex` as far as the adapter touches it: the extents
given to `C3D_TexInit`, the bytes at `tex->data` (there are `tex->size` of them)
and the border colour. -/
structure C3D_Tex where
  width : Nat
  height : Nat
  data : List Nat
  border : Nat
deriving DecidableEq

/-- The caller's `C2D_Image`: two pointers, `none` when not set. -/
structure C2D_Image where
  tex : Option C3D_Tex
  subtex : Option Tex3DS_SubTexture
deriving DecidableEq

/-- A call of a third-party decoder entry point. -/
inductive LibCall where
  | bmp_analyse
  | bmp_decode
  | gif_initialise
  | gif_decode_frame
  | tjDecompressHeader2
  | tjDecompress2
  | png_image_begin_read_from_memory
  | png_image_finish_read
deriving DecidableEq, Repr

/-- What `textures.cpp` does to the outside world, in order: file-system calls
with their result codes, `new u8[n]` for the file contents, reads (with the
number of bytes asked for), decoder calls and `C3D_TexInit` with the extents of
the texture it creates. -/
inductive Effect where
  | OpenFile (ret : Int)
  | GetSize (ret : Int)
  | NewBuffer (bytes : Nat)
  | FileRead (ret : Int) (bytes : Nat)
  | CloseFile
  | Lib (call : LibCall)
  | TexInit (width height : Nat)
deriving DecidableEq, Repr

/-- The platform's answers during one `ReadFile`: the codes of `FSUSER_OpenFile`,
`FSFILE_GetSize` (with the size it reports) and `FSFILE_Read` (with the count it
reports and the bytes it leaves in the buffer). -/
structure FileScript where
  openRet : Int
  getSizeRet : Int
  size : Nat
  readRet : Int
  bytes_read : Nat
  data : List Nat

/-- What `textures.cpp` calls but does not define: `FS::GetFileExt` and the
decoder entry points of libnsbmp, libnsgif, turbojpeg and libpng. Each decoder
function is applied to `*size` and `*data` and yields its return value together
with the fields of the decoder state that the adapter reads afterwards
(width, height, pixel buffer). `gif_initialise` yields the codes of its
successive calls. -/
structure Libs where
  GetFileExt : List Char → List Char
  bmp_analyse : Nat → List Nat → bmp_result × Nat × Nat
  bmp_decode : Nat → List Nat → bmp_result × List Nat
  gif_initialise : Nat → List Nat → List gif_result × Nat × Nat
  gif_decode_frame : Nat → List Nat → gif_result × List Nat
  tjDecompressHeader2 : Nat → List Nat → Int × Nat × Nat
  tjDecompress2 : Nat → List Nat → Nat → Nat → Int × List Nat
  png_image_begin_read_from_memory : Nat → List Nat → Nat × Nat × Nat
  png_image_finish_read : Nat → List Nat → Nat × List Nat

/-- The result of `ReadFile`: the code, the out-parameters `*buffer` (`none` while
still `nullptr`) and `*size`, and the effects. -/
structure ReadOutcome where
  ret : Int
  buffer : Option (List Nat)
  size : Nat
  effects : List Effect

/-- The result of a loader: the returned `bool`, the caller's `C2D_Image`
afterwards, and the effects. -/
structure TexOutcome where
  ret : Bool
  texture : C2D_Image
  effects : List Effect
deriving DecidableEq

/-! ## textures.cpp: functions -/

/-- Embedding of `ReadFile`. The read asks for `static_cast<u32>(*size)` bytes. -/
def ReadFile (p : FileScript) : ReadOutcome :=
  if R_FAILED p.openRet then
    { ret := p.openRet, buffer := none, size := 0, effects := [Effect.OpenFile p.openRet] }
  else if R_FAILED p.getSizeRet then
    { ret := p.getSizeRet, buffer := none, size := p.size
      effects := [Effect.OpenFile p.openRet, Effect.GetSize p.getSizeRet, Effect.CloseFile] }
  else
    let pre := [Effect.OpenFile p.openRet, Effect.GetSize p.getSizeRet, Effect.NewBuffer p.size,
      Effect.FileRead p.readRet (p.size % 2 ^ 32)]
    if R_FAILED p.readRet then
      { ret := p.readRet, buffer := some p.data, size := p.size
        effects := pre ++ [Effect.CloseFile] }
    else if p.bytes_read ≠ p.size % 2 ^ 32 then
      { ret := -1, buffer := some p.data, size := p.size, effects := pre ++ [Effect.CloseFile] }
    else
      { ret := 0, buffer := some p.data, size := p.size, effects := pre ++ [Effect.CloseFile] }

/-- Embedding of `GetNextPowerOf2` on `u32`: the decrement and the increment
wrap modulo `2^32`. -/
def GetNextPowerOf2 (v0 : Nat) : Nat :=
  let v1 := (v0 + (2 ^ 32 - 1)) % 2 ^ 32
  let v2 := v1 ||| (v1 >>> 1)
  let v3 := v2 ||| (v2 >>> 2)
  let v4 := v3 ||| (v3 >>> 4)
  let v5 := v4 ||| (v4 >>> 8)
  let v6 := v5 ||| (v5 >>> 16)
  let v7 := (v6 + 1) % 2 ^ 32
  if v7 ≥ 64 then v7 else 64

/-- The body of the `RGBA -> ABGR` loop at byte offset `z`: the four bytes of one
pixel are reversed in place. -/
def swapPixel (buf : List Nat) (z : Nat) : List Nat :=
  let r := buf.getD z 0
  let g := buf.getD (z + 1) 0
  let b := buf.getD (z + 2) 0
  let a := buf.getD (z + 3) 0
  (((buf.set z a).set (z + 1) b).set (z + 2) g).set (z + 3) r

/-- The `RGBA -> ABGR` loop nest: `row` runs over the width, `col` over the
height, `z = (row + col * width) * BYTES_PER_PIXEL`. -/
def swapLoop (width height : Nat) (buf : List Nat) : List Nat :=
  (List.range width).foldl
    (fun b row => (List.range height).foldl
      (fun b1 col => swapPixel b1 ((row + col * width) * BYTES_PER_PIXEL)) b) buf

/-- The expression `dst_pos` of the tiling loop. -/
def dstPos (w_pow2 x y : Nat) : Nat :=
  ((((y >>> 3) * (w_pow2 >>> 3) + (x >>> 3)) <<< 6) +
    ((x &&& 1) ||| ((y &&& 1) <<< 1) ||| ((x &&& 2) <<< 1) ||| ((y &&& 2) <<< 2) |||
      ((x &&& 4) <<< 2) ||| ((y &&& 4) <<< 3))) * BYTES_PER_PIXEL

/-- The expression `src_pos` of the tiling loop. -/
def srcPos (width x y : Nat) : Nat := (y * width + x) * BYTES_PER_PIXEL

/-- The call `memcpy(&dst[dst_pos], &src[src_pos], BYTES_PER_PIXEL)`. -/
def memcpy4 (dst src : List Nat) (dst_pos src_pos : Nat) : List Nat :=
  (((dst.set dst_pos (src.getD src_pos 0)).set (dst_pos + 1) (src.getD (src_pos + 1) 0)).set
    (dst_pos + 2) (src.getD (src_pos + 2) 0)).set (dst_pos + 3) (src.getD (src_pos + 3) 0)

/-- The tiling loop nest: `x` runs over the width, `y` over the height. -/
def tileLoop (width height w_pow2 : Nat) (buf data : List Nat) : List Nat :=
  (List.range width).foldl
    (fun d x => (List.range height).foldl
      (fun d1 y => memcpy4 d1 buf (dstPos w_pow2 x y) (srcPos width x y)) d) data

/-- Embedding of `C3DTexToC2DImage`. After the guard every index is below `2^22`,
so the `u32` index arithmetic does not wrap. `C3D_TexInit` with `GPU_RGBA8` gives
the texture `width * height * 4` bytes, which the `memset` clears. `new` does not
return null, so the final test `tex && subtex` holds. -/
def C3DTexToC2DImage (texture : C2D_Image) (width height : Nat) (buf : List Nat) :
    TexOutcome :=
  if width ≥ 1024 ∨ height ≥ 1024 then
    { ret := false, texture := texture, effects := [] }
  else
    let sw := width % 2 ^ 16
    let sh := height % 2 ^ 16
    let buf1 := swapLoop sw sh buf
    let w_pow2 := GetNextPowerOf2 sw
    let h_pow2 := GetNextPowerOf2 sh
    let subtex : Tex3DS_SubTexture :=
      { width := sw, height := sh, left := 0, top := 1
        right := (sw : ℚ) / (w_pow2 : ℚ)
        bottom := 1 - (sh : ℚ) / (h_pow2 : ℚ) }
    let tw := w_pow2 % 2 ^ 16
    let th := h_pow2 % 2 ^ 16
    let data0 := List.replicate (tw * th * BYTES_PER_PIXEL) 0
    let data1 := tileLoop sw sh w_pow2 buf1 data0
    let tex : C3D_Tex := { width := tw, height := th, data := data1, border := TRANSPARENT_COLOR }
    { ret := true, texture := { tex := some tex, subtex := some subtex }
      effects := [Effect.TexInit tw th] }

/-- Embedding of `LoadImageBMP`; `bmp.width * bmp.height` is a `u32` product. -/
def LoadImageBMP (L : Libs) (data : List Nat) (size : Nat) (texture : C2D_Image) :
    TexOutcome :=
  let a := L.bmp_analyse size data
  if a.1 ≠ bmp_result.BMP_OK then
    { ret := false, texture := texture, effects := [Effect.Lib LibCall.bmp_analyse] }
  else
    let d := L.bmp_decode size data
    let pre := [Effect.Lib LibCall.bmp_analyse, Effect.Lib LibCall.bmp_decode]
    if d.1 ≠ bmp_result.BMP_OK ∧
        (d.1 ≠ bmp_result.BMP_INSUFFICIENT_DATA ∧ d.1 ≠ bmp_result.BMP_DATA_ERROR) then
      { ret := false, texture := texture, effects := pre }
    else if d.1 ≠ bmp_result.BMP_OK ∧ (a.2.1 * a.2.2) % 2 ^ 32 > 200000 then
      { ret := false, texture := texture, effects := pre }
    else
      let t := C3DTexToC2DImage texture a.2.1 a.2.2 d.2
      { t with effects := pre ++ t.effects }

/-- The loop `do { code = gif_initialise(...); ... } while (code != GIF_OK)` over
the codes of the successive calls: `some true` when a call answers `GIF_OK`,
`some false` when one answers neither `GIF_OK` nor `GIF_WORKING`, `none` when
the codes run out while the loop is still running. The second component counts
the calls made. -/
def gifInitLoop : List gif_result → Nat → Option (Bool × Nat)
  | [], _ => none
  | code :: rest, n =>
    if code ≠ gif_result.GIF_OK ∧ code ≠ gif_result.GIF_WORKING then some (false, n + 1)
    else if code ≠ gif_result.GIF_OK then gifInitLoop rest (n + 1)
    else some (true, n + 1)

/-- Embedding of `LoadImageGIF`. -/
def LoadImageGIF (L : Libs) (data : List Nat) (size : Nat) (texture : C2D_Image) :
    Option TexOutcome :=
  let i := L.gif_initialise size data
  match gifInitLoop i.1 0 with
  | none => none
  | some (false, n) =>
    some { ret := false, texture := texture
           effects := List.replicate n (Effect.Lib LibCall.gif_initialise) }
  | some (true, n) =>
    let pre := List.replicate n (Effect.Lib LibCall.gif_initialise) ++
      [Effect.Lib LibCall.gif_decode_frame]
    let d := L.gif_decode_frame size data
    if d.1 ≠ gif_result.GIF_OK then
      some { ret := false, texture := texture, effects := pre }
    else
      let t := C3DTexToC2DImage texture i.2.1 i.2.2 d.2
      some { t with effects := pre ++ t.effects }

/-- Embedding of `LoadImageJPEG`. Neither return value of turbojpeg is looked at;
`width` and `height` are what `tjDecompressHeader2` leaves in the two `int`s
(initialised to 0), seen as `u32`. -/
def LoadImageJPEG (L : Libs) (data : List Nat) (size : Nat) (texture : C2D_Image) :
    TexOutcome :=
  let h := L.tjDecompressHeader2 size data
  let width := h.2.1
  let height := h.2.2
  let d := L.tjDecompress2 size data width height
  let t := C3DTexToC2DImage texture width height d.2
  { t with effects :=
      [Effect.Lib LibCall.tjDecompressHeader2,
        Effect.NewBuffer ((width * height * BYTES_PER_PIXEL) % 2 ^ 32),
        Effect.Lib LibCall.tjDecompress2] ++ t.effects }

/-- Embedding of `LoadImagePNG`; `new` does not return null, so
`buffer != nullptr` holds. The pixel buffer `new png_byte[PNG_IMAGE_SIZE(image)]`
is not listed among the effects: its size is a libpng macro of the image
header. -/
def LoadImagePNG (L : Libs) (data : List Nat) (size : Nat) (texture : C2D_Image) :
    TexOutcome :=
  let b := L.png_image_begin_read_from_memory size data
  if b.1 ≠ 0 then
    let f := L.png_image_finish_read size data
    let pre := [Effect.Lib LibCall.png_image_begin_read_from_memory,
      Effect.Lib LibCall.png_image_finish_read]
    if f.1 ≠ 0 then
      let t := C3DTexToC2DImage texture b.2.1 b.2.2 f.2
      { t with effects := pre ++ t.effects }
    else
      { ret := false, texture := texture, effects := pre }
  else
    { ret := false, texture := texture
      effects := [Effect.Lib LibCall.png_image_begin_read_from_memory] }

/-- Embedding of `GetImageType`. -/
def GetImageType (L : Libs) (filename : List Char) : ImageType :=
  let ext := L.GetFileExt filename
  if ext = ['.', 'B', 'M', 'P'] then ImageType.ImageTypeBMP
  else if ext = ['.', 'G', 'I', 'F'] then ImageType.ImageTypeGIF
  else if ext = ['.', 'J', 'P', 'G'] ∨ ext = ['.', 'J', 'P', 'E', 'G'] then
    ImageType.ImageTypeJPEG
  else if ext = ['.', 'P', 'N', 'G'] then ImageType.ImageTypePNG
  else if ext = ['.', 'W', 'E', 'B', 'P'] then ImageType.ImageTypeWEBP
  else ImageType.ImageTypeOther

/-- The `switch (type)` of `LoadImageFile`. -/
def dispatch (L : Libs) (type : ImageType) (data : List Nat) (size : Nat)
    (texture : C2D_Image) : Option TexOutcome :=
  match type with
  | ImageType.ImageTypeBMP => some (LoadImageBMP L data size texture)
  | ImageType.ImageTypeGIF => LoadImageGIF L data size texture
  | ImageType.ImageTypeJPEG => some (LoadImageJPEG L data size texture)
  | ImageType.ImageTypePNG => some (LoadImagePNG L data size texture)
  | _ => some { ret := false, texture := texture, effects := [] }

/-- Embedding of `LoadImageFile`. `none` only when the GIF initialisation loop
outruns its script. -/
def LoadImageFile (L : Libs) (p : FileScript) (path : List Char) (texture : C2D_Image) :
    Option TexOutcome :=
  let r := ReadFile p
  if R_FAILED r.ret then
    some { ret := false, texture := texture, effects := r.effects }
  else
    match dispatch L (GetImageType L path) (r.buffer.getD []) r.size texture with
    | none => none
    | some t => some { t with effects := r.effects ++ t.effects }

/-! ## Specification-side vocabulary for the directory listing -/

/-- The items a directory enumeration yields: the entries of the reads that come
before the first read reporting zero entries. -/
def enumerated (reads : List DirRead) : List FS_DirectoryEntry :=
  (reads.takeWhile (fun r => r.entriesRead != 0)).map (fun r => r.entries)

/-- An enumerated item is visible: its converted name is non-empty, does not
start with a dot, and the item is not hidden unless hidden files are enabled. -/
def visible (env : Env) (isHiddenEnabled : Bool) (e : FS_DirectoryEntry) : Bool :=
  (env.u16_to_u8 e.name 0xFF != []) &&
    ((env.u16_to_u8 e.name 0xFF).head? != some '.') &&
      (isHiddenEnabled || (e.attributes &&& env.FS_ATTRIBUTE_HIDDEN == 0))

/-- The list entry that stands for an enumerated item: its converted name, its
extension, its size and its three attribute flags. -/
def entryOf (env : Env) (e : FS_DirectoryEntry) : File :=
  { isDir := e.attributes &&& env.FS_ATTRIBUTE_DIRECTORY
    isReadOnly := e.attributes &&& env.FS_ATTRIBUTE_READ_ONLY
    isHidden := e.attributes &&& env.FS_ATTRIBUTE_HIDDEN
    name := env.u16_to_u8 e.name 0xFF
    ext := e.shortExt
    size := e.fileSize }

/-- The listing the specification describes for a working directory, a
hidden-files flag and the items of an enumeration. -/
def listing (env : Env) (cwd : List Char) (isHiddenEnabled : Bool)
    (items : List FS_DirectoryEntry) : List File :=
  (if cwd ≠ env.ROOT_PATH then [dotdot] else []) ++
    (items.filter (visible env isHiddenEnabled)).map (entryOf env)

/-- The loop of `updateList` goes round again after this read: the read
succeeded and reported an entry. -/
def running (r : DirRead) : Bool := R_SUCCEEDED r.ret && (r.entriesRead != 0)

/-- The selection fix-up at the end of `updateList`, as the specification words
it: reset when `clearindex` is non-zero, else clamp to the last entry. -/
def clampPosition (clearindex position fileCount : Int) : Int :=
  if clearindex ≠ 0 then 0 else if position < fileCount then position else fileCount - 1

/-- The globals after one more accepted or skipped item. -/
def accept (env : Env) (g : Globals) (r : DirRead) : Globals :=
  if visible env g.isHiddenEnabled r.entries then
    { g with files := g.files ++ [entryOf env r.entries], fileCount := g.fileCount + 1 }
  else g

/-- The globals after a run of reads that all kept the loop going. -/
def acceptAll (env : Env) (g : Globals) (rs : List DirRead) : Globals :=
  rs.foldl (accept env) g

/-! ## Specification-side vocabulary for the decode adapter -/

/-- The code that ends the `gif_initialise` loop: the first one that is not
`GIF_WORKING`, if there is one. -/
def gifInitCode (codes : List gif_result) : Option gif_result :=
  (codes.dropWhile (fun c => c == gif_result.GIF_WORKING)).head?

/-- The decoder reports an error that the loader acts on, for the three types
whose loader looks at the decoder's result. BMP: the analysis fails, or the
decode ends with a code other than `BMP_OK`, `BMP_INSUFFICIENT_DATA` and
`BMP_DATA_ERROR`, or with one of the latter two on an image of more than 200000
pixels (`u32` product). GIF: initialisation ends with a code other than
`GIF_OK`, or the first frame does not decode. PNG: either libpng call
returns 0. -/
def decoderRejects (L : Libs) (type : ImageType) (data : List Nat) (size : Nat) : Prop :=
  match type with
  | ImageType.ImageTypeBMP =>
    (L.bmp_analyse size data).1 ≠ bmp_result.BMP_OK ∨
      ((L.bmp_decode size data).1 ≠ bmp_result.BMP_OK ∧
        (L.bmp_decode size data).1 ≠ bmp_result.BMP_INSUFFICIENT_DATA ∧
        (L.bmp_decode size data).1 ≠ bmp_result.BMP_DATA_ERROR) ∨
      (((L.bmp_decode size data).1 = bmp_result.BMP_INSUFFICIENT_DATA ∨
          (L.bmp_decode size data).1 = bmp_result.BMP_DATA_ERROR) ∧
        ((L.bmp_analyse size data).2.1 * (L.bmp_analyse size data).2.2) % 2 ^ 32 > 200000)
  | ImageType.ImageTypeGIF =>
    (∃ c, gifInitCode (L.gif_initialise size data).1 = some c ∧ c ≠ gif_result.GIF_OK) ∨
      (gifInitCode (L.gif_initialise size data).1 = some gif_result.GIF_OK ∧
        (L.gif_decode_frame size data).1 ≠ gif_result.GIF_OK)
  | ImageType.ImageTypePNG =>
    (L.png_image_begin_read_from_memory size data).1 = 0 ∨
      (L.png_image_finish_read size data).1 = 0
  | _ => False

/-! ## Concrete inputs used to instantiate the theorems -/

/-- A concrete environment: `/` as root, the libctru attribute bits, and a name
conversion that maps each UTF-16 unit to the character with that code. -/
def sampleEnv : Env :=
  { ROOT_PATH := ['/']
    FS_ATTRIBUTE_DIRECTORY := 1
    FS_ATTRIBUTE_READ_ONLY := 0x1000000
    FS_ATTRIBUTE_HIDDEN := 0x100
    u16_to_u8 := fun input _ => input.map Char.ofNat }

/-- A read that yields one entry with the given name units and attributes. -/
def sampleRead (name : List Nat) (attributes : Nat) : DirRead :=
  { ret := 0, entriesRead := 1
    entries := { name := name, shortExt := ['T', 'X', 'T'], attributes := attributes, fileSize := 7 } }

/-- The read that ends an enumeration: success, zero entries. -/
def endRead : DirRead :=
  { ret := 0, entriesRead := 0
    entries := { name := [], shortExt := [], attributes := 0, fileSize := 0 } }

/-- A directory holding `a`, `.b` (dotted), `c` (hidden) and the directory `d`. -/
def sampleScript : DirScript :=
  { openRet := 0
    reads := [sampleRead [97] 0, sampleRead [46, 98] 0, sampleRead [99] 0x100,
      sampleRead [100] 1, endRead]
    closeRet := 0 }

/-- Globals before the call: in `/x/`, hidden files off, selection on row 5, a
stale one-entry list. -/
def sampleGlobals : Globals :=
  { cwd := ['/', 'x', '/'], isHiddenEnabled := false, position := 5, fileCount := 1
    files := [dotdot] }

/-- The list entry of the sample item called `name` with attribute flags. -/
def sampleFile (name : Char) (isDir isHidden : Nat) : File :=
  { isDir := isDir, isReadOnly := 0, isHidden := isHidden, name := [name]
    ext := ['T', 'X', 'T'], size := 7 }

/-- The platform calls of a successful run over `sampleScript`. -/
def sampleCalls : List FsCall :=
  [FsCall.OpenDirectory 0, FsCall.Read 0, FsCall.Read 0, FsCall.Read 0, FsCall.Read 0,
    FsCall.Read 0, FsCall.Close 0]

/-- The outcome of `updateList` on the sample with hidden files off. -/
def sampleOutcome : Outcome :=
  { ret := 0
    g := { cwd := ['/', 'x', '/'], isHiddenEnabled := false, position := 2, fileCount := 3
           files := [dotdot, sampleFile 'a' 0 0, sampleFile 'd' 1 0] }
    calls := sampleCalls }

/-- The outcome of `updateList` on the sample with hidden files on. -/
def sampleOutcomeHidden : Outcome :=
  { ret := 0
    g := { cwd := ['/', 'x', '/'], isHiddenEnabled := true, position := 3, fileCount := 4
           files := [dotdot, sampleFile 'a' 0 0, sampleFile 'c' 0 0x100, sampleFile 'd' 1 0] }
    calls := sampleCalls }

/-- A file extension helper for the concrete inputs: the part of the name from
its last dot on, in upper case (empty when there is no dot). -/
def sampleGetFileExt (filename : List Char) : List Char :=
  if '.' ∈ filename then
    ('.' :: (filename.reverse.takeWhile (fun c => c != '.')).reverse).map Char.toUpper
  else []

/-- Concrete decoders: every file analyses as a 1x1 image with one pixel
`[10, 20, 30, 40]`; the BMP decode reports `BMP_DATA_ERROR`, the JPEG header
call fails and leaves the extents at 0, GIF and PNG decode without error. -/
def sampleLibs : Libs :=
  { GetFileExt := sampleGetFileExt
    bmp_analyse := fun _ _ => (bmp_result.BMP_OK, 1, 1)
    bmp_decode := fun _ _ => (bmp_result.BMP_DATA_ERROR, [10, 20, 30, 40])
    gif_initialise := fun _ _ => ([gif_result.GIF_OK], 1, 1)
    gif_decode_frame := fun _ _ => (gif_result.GIF_OK, [10, 20, 30, 40])
    tjDecompressHeader2 := fun _ _ => (-1, 0, 0)
    tjDecompress2 := fun _ _ _ _ => (-1, [])
    png_image_begin_read_from_memory := fun _ _ => (1, 1, 1)
    png_image_finish_read := fun _ _ => (1, [10, 20, 30, 40]) }

/-- Concrete decoders that reject: the PNG header read returns 0. -/
def rejectingLibs : Libs :=
  { sampleLibs with png_image_begin_read_from_memory := fun _ _ => (0, 0, 0) }

/-- A file of `MAX_IMAGE_BYTES + 1` bytes that opens and reads without error. -/
def bigFile : FileScript :=
  { openRet := 0, getSizeRet := 0, size := MAX_IMAGE_BYTES + 1, readRet := 0
    bytes_read := MAX_IMAGE_BYTES + 1, data := List.replicate (MAX_IMAGE_BYTES + 1) 0 }

/-- A four-byte file that opens and reads without error. -/
def smallFile : FileScript :=
  { openRet := 0, getSizeRet := 0, size := 4, readRet := 0, bytes_read := 4
    data := [1, 2, 3, 4] }

/-- An unset `C2D_Image`. -/
def noTexture : C2D_Image := { tex := none, subtex := none }

/-! ## Specification-side vocabulary for the tiling transform -/

/-- Bit `k` of `v`, as 0 or 1. -/
def bitOf (v k : Nat) : Nat := (v / 2 ^ k) % 2

/-- The 6-bit Morton interleave of the low 3 bits of `x` and `y`: for
`k = 0, 1, 2`, bit `k` of `x` goes to bit `2k` and bit `k` of `y` goes to bit
`2k + 1`. -/
def morton (x y : Nat) : Nat :=
  ((List.range 3).map
    (fun k => bitOf x k * 2 ^ (2 * k) + bitOf y k * 2 ^ (2 * k + 1))).sum

/-- The tiled byte offset as the specification words it: 64 pixels per 8 x 8
tile, tiles in rows of `W div 8`, the Morton index inside the tile, 4 bytes per
pixel. -/
def tiledOffset (W x y : Nat) : Nat :=
  4 * (64 * ((y / 8) * (W / 8) + x / 8) + morton x y)

/-- The bit-interleaving operand of `dst_pos` (what is added to the tile base). -/
def interleave (x y : Nat) : Nat :=
  (x &&& 1) ||| ((y &&& 1) <<< 1) ||| ((x &&& 2) <<< 1) ||| ((y &&& 2) <<< 2) |||
    ((x &&& 4) <<< 2) ||| ((y &&& 4) <<< 3)

/-- The five or-shift steps of `GetNextPowerOf2`, applied to the decremented
value: every bit below the highest set bit gets set. -/
def smear (v1 : Nat) : Nat :=
  let v2 := v1 ||| (v1 >>> 1)
  let v3 := v2 ||| (v2 >>> 2)
  let v4 := v3 ||| (v3 >>> 4)
  let v5 := v4 ||| (v4 >>> 8)
  v5 ||| (v5 >>> 16)

/-! ## textures.cpp: the bitmap allocation callbacks -/

/-- A request `calloc(nmemb, size)`. -/
structure CallocRequest where
  nmemb : Nat
  size : Nat
deriving DecidableEq, Repr

/-- Embedding of `BMP::bitmap_create`: `none` is the `nullptr` returned by the
guard, `some r` the `calloc` request made otherwise. The guard compares the
64-bit product with `MAX_IMAGE_BYTES / BYTES_PER_PIXEL`; the `calloc` count is
the 32-bit `int` product `width * height` converted to `size_t` (32 bits). -/
def BMP.bitmap_create (width height : Int) ( _state : Nat) : Option CallocRequest :=
  if width * height > ((MAX_IMAGE_BYTES / BYTES_PER_PIXEL : Nat) : Int) then none
  else some { nmemb := ((width * height) % 2 ^ 32).toNat, size := BYTES_PER_PIXEL }

/-- Embedding of `GIF::bitmap_create`, which has the same body. -/
def GIF.bitmap_create (width height : Int) : Option CallocRequest :=
  if width * height > ((MAX_IMAGE_BYTES / BYTES_PER_PIXEL : Nat) : Int) then none
  else some { nmemb := ((width * height) % 2 ^ 32).toNat, size := BYTES_PER_PIXEL }

/-- The root directory while it is empty: the first read reports zero entries. -/
def emptyScript : DirScript := { openRet := 0, reads := [endRead], closeRet := 0 }

/-- Globals while browsing the root `/`, selection on row 0. -/
def rootGlobals : Globals :=
  { cwd := ['/'], isHiddenEnabled := false, position := 0, fileCount := 0, files := [] }

/-- A directory whose second read fails with code `-5`, after the item `a`. -/
def failingScript : DirScript :=
  { openRet := 0
    reads := [sampleRead [97] 0,
      { ret := -5, entriesRead := 0
        entries := { name := [], shortExt := [], attributes := 0, fileSize := 0 } },
      sampleRead [100] 1, endRead]
    closeRet := 0 }

/-! ## dirlist.c: the delete confirmation dialog -/

/-- What `drawDeletionDialog` takes from headers that are not part of the
listing file: the libctru key masks, the macro `CLEAR` given to `updateList`,
and the macro `touchInRect(x1, x2, y1, y2)`, here applied to the touch position
`(px, py)` first. -/
structure DialogEnv where
  KEY_A : Nat
  KEY_B : Nat
  KEY_L : Nat
  KEY_R : Nat
  KEY_TOUCH : Nat
  CLEAR : Int
  touchInRect : Nat → Nat → Nat → Nat → Nat → Nat → Bool

/-- The input polled in one pass of the dialog loop (`hidScanInput`,
`hidTouchRead`): the held keys, the newly pressed keys, the touch position. -/
structure Frame where
  kHeld : Nat
  kPressed : Nat
  px : Nat
  py : Nat
deriving DecidableEq, Repr

/-- The globals `drawDeletionDialog` reads and writes, with the listing globals
that `updateList` changes. -/
structure DialogGlobals where
  deleteDialog : Bool
  selectionX : Int
  selectionY : Int
  copyF : Bool
  cutF : Bool
  g : Globals
deriving DecidableEq, Repr

/-- What the dialog does besides drawing, in order: polling a frame of input,
taking a screenshot, calling `delete()` (with its result code), calling
`updateList(CLEAR)` (with its result code) and `displayFiles()`. -/
inductive DialogEvent where
  | Poll (f : Frame)
  | Screenshot
  | Delete (ret : Int)
  | UpdateList (ret : Int)
  | DisplayFiles
deriving DecidableEq, Repr

/-- The outside world's answers during one `drawDeletionDialog`: the input of the
successive frames, the result code of `delete()`, and the platform's answers to
the `updateList` that follows a successful delete. -/
structure DialogScript where
  frames : List Frame
  deleteRet : Int
  dir : DirScript
deriving DecidableEq, Repr

/-- The result of `drawDeletionDialog`. -/
structure DialogOutcome where
  ret : Int
  s : DialogGlobals
  events : List DialogEvent
deriving DecidableEq, Repr

/-- The condition of the first `if` after drawing:
`(kPressed & KEY_A) || (touchInRect(240, 320, 142, 185) && (kPressed & KEY_TOUCH))`. -/
def confirmInput (E : DialogEnv) (f : Frame) : Bool :=
  (f.kPressed &&& E.KEY_A != 0) ||
    (E.touchInRect f.px f.py 240 320 142 185 && (f.kPressed &&& E.KEY_TOUCH != 0))

/-- The condition of the `else if`:
`(kPressed & KEY_B) || (touchInRect(136, 239, 142, 185) && (kPressed & KEY_TOUCH))`. -/
def cancelInput (E : DialogEnv) (f : Frame) : Bool :=
  (f.kPressed &&& E.KEY_B != 0) ||
    (E.touchInRect f.px f.py 136 239 142 185 && (f.kPressed &&& E.KEY_TOUCH != 0))

/-- The events of one pass up to the input test: the poll, and a screenshot when
L and R are both held. The drawing calls in between change nothing but the
screen and are left out. -/
def frameEvents (E : DialogEnv) (f : Frame) : List DialogEvent :=
  if (f.kHeld &&& E.KEY_L != 0) && (f.kHeld &&& E.KEY_R != 0) then
    [DialogEvent.Poll f, DialogEvent.Screenshot]
  else [DialogEvent.Poll f]

/-- The loop `while (deleteDialog == true) { ... }` of `drawDeletionDialog`, one
frame of input per pass. `none` means the frames ran out while the loop was
still running, or the `updateList` inside did not finish. -/
def dialogLoop (E : DialogEnv) (env : Env) (deleteRet : Int) (dir : DirScript) :
    List Frame → DialogGlobals → List DialogEvent → Option (DialogGlobals × List DialogEvent)
  | [], s, ev => if s.deleteDialog = true then none else some (s, ev)
  | f :: rest, s, ev =>
    if s.deleteDialog = true then
      let ev1 := ev ++ frameEvents E f
      if confirmInput E f then
        if R_SUCCEEDED deleteRet then
          match updateList env dir E.CLEAR s.g with
          | none => none
          | some out =>
            some ({ s with g := out.g },
              ev1 ++ [DialogEvent.Delete deleteRet, DialogEvent.UpdateList out.ret,
                DialogEvent.DisplayFiles])
        else some (s, ev1 ++ [DialogEvent.Delete deleteRet])
      else if cancelInput E f then some (s, ev1)
      else dialogLoop E env deleteRet dir rest s ev1
    else some (s, ev)

/-- Embedding of `int drawDeletionDialog(void)`. -/
def drawDeletionDialog (E : DialogEnv) (env : Env) (sc : DialogScript) (s : DialogGlobals) :
    Option DialogOutcome :=
  match dialogLoop E env sc.deleteRet sc.dir sc.frames s [] with
  | none => none
  | some (s1, ev) =>
    some { ret := 0
           s := { s1 with deleteDialog := false, selectionX := 0, selectionY := 0
                          copyF := false, cutF := false }
           events := ev }

/-- The number of `delete()` calls among the events. -/
def deleteAttempts (ev : List DialogEvent) : Nat :=
  (ev.filter (fun e => match e with
    | DialogEvent.Delete _ => true
    | _ => false)).length

/-- A frame that leaves the dialog open: neither confirm nor cancel input. -/
def undecided (E : DialogEnv) (f : Frame) : Bool := !confirmInput E f && !cancelInput E f

/-- Concrete dialog environment: the libctru key bits, `CLEAR = 1`, and the
inclusive rectangle test. -/
def sampleDialogEnv : DialogEnv :=
  { KEY_A := 1, KEY_B := 2, KEY_L := 512, KEY_R := 256, KEY_TOUCH := 0x100000, CLEAR := 1
    touchInRect := fun px py x1 x2 y1 y2 =>
      decide (x1 ≤ px) && decide (px ≤ x2) && decide (y1 ≤ py) && decide (py ≤ y2) }

/-- Two frames: nothing pressed while L and R are held, then A pressed. -/
def confirmScript : DialogScript :=
  { frames := [{ kHeld := 768, kPressed := 0, px := 0, py := 0 },
      { kHeld := 0, kPressed := 1, px := 0, py := 0 }]
    deleteRet := 0
    dir := sampleScript }

/-- Two frames: nothing pressed, then B pressed. -/
def cancelScript : DialogScript :=
  { frames := [{ kHeld := 0, kPressed := 0, px := 0, py := 0 },
      { kHeld := 0, kPressed := 2, px := 0, py := 0 }]
    deleteRet := 0
    dir := sampleScript }

/-- The dialog is open, with the second option cell selected and a copy
pending. -/
def openDialog : DialogGlobals :=
  { deleteDialog := true, selectionX := 1, selectionY := 2, copyF := true, cutF := false
    g := sampleGlobals }

/-! ## dirlist.c: navigate and the list loop of displayFiles -/

/-- The result of `navigate`: the returned code, the globals afterwards, and the
values of `cwd` at each call of `saveLastDirectory()`. -/
structure NavOutcome where
  ret : Int
  g : Globals
  saved : List (List Char)
deriving DecidableEq, Repr

/-- The loop `int i = strlen(cwd) - 2; for(; i >= 0; i--) if (cwd[i] == '/') ...`
of `navigate`. The argument is `i + 1` (so 0 means the loop is over); the value
is the index `i` at which the loop breaks, `none` when it runs out with `slash`
still `NULL`. -/
def findSlash (cwd : List Char) : Nat → Option Nat
  | 0 => none
  | i + 1 => if cwd[i]? = some '/' then some i else findSlash cwd i

/-- Embedding of `int navigate(int _case)`. `browseNand` is the test
`BROWSE_STATE == STATE_NAND`. `strlen(cwd) - 2` is negative for a `cwd` shorter
than two characters, so the scan starts at `cwd.length - 1` passes at most.
`none` is the write through `slash` while it is still `NULL`. The buffer behind
`cwd` is taken to be long enough for the appended name. -/
def navigate (browseNand : Bool) ( _case : Int) (g : Globals) : Option NavOutcome :=
  match getFileIndex g.files g.position with
  | none => some { ret := -1, g := g, saved := [] }
  | some file =>
    if file.isDir = 0 then some { ret := -1, g := g, saved := [] }
    else if _case = -1 ∨ file.name.take 2 = ['.', '.'] then
      match findSlash g.cwd (g.cwd.length - 1) with
      | none => none
      | some i =>
        let cwd1 := g.cwd.take (i + 1)
        some { ret := 0, g := { g with cwd := cwd1 }
               saved := if browseNand then [] else [cwd1] }
    else
      let cwd1 := g.cwd ++ file.name ++ ['/']
      some { ret := 0, g := { g with cwd := cwd1 }
             saved := if browseNand then [] else [cwd1] }

/-- One entry drawn by the list loop of `displayFiles`: the screen row
(`printed`), the list index (`i`), the entry, and whether the selector texture
was drawn on that row. -/
structure DrawnRow where
  row : Int
  index : Int
  file : File
  selector : Bool
deriving DecidableEq, Repr

/-- The loop `for(; file != NULL; file = file->next)` of `displayFiles`, started
at node list `file` with counters `i` and `printed`; `FILES_PER_PAGE` is a macro
from a header and is taken as a parameter. -/
def displayLoop (FILES_PER_PAGE position : Int) : List File → Int → Int → List DrawnRow
  | [], _, _ => []
  | file :: rest, i, printed =>
    if printed = FILES_PER_PAGE then []
    else if position < FILES_PER_PAGE ∨ i > position - FILES_PER_PAGE then
      { row := printed, index := i, file := file, selector := decide (i = position) } ::
        displayLoop FILES_PER_PAGE position rest (i + 1) (printed + 1)
    else displayLoop FILES_PER_PAGE position rest (i + 1) printed

/-- Embedding of the file list part of `displayFiles` (from `int i = 0;` to the
end of the loop): the entries it draws, in drawing order. What is drawn before
the loop (bars, icons, the storage gauge) does not depend on the list. -/
def displayFiles (FILES_PER_PAGE : Int) (g : Globals) : List DrawnRow :=
  displayLoop FILES_PER_PAGE g.position g.files 0 0

/-- The index of the first entry of the page that the specification describes:
0 while the selection is on the first page, else `position - FILES_PER_PAGE + 1`. -/
def windowStart (FILES_PER_PAGE position : Int) : Nat :=
  if position < FILES_PER_PAGE then 0 else (position - FILES_PER_PAGE + 1).toNat

/-- Globals while browsing `/x/` with the directory `d` of the sample listing
selected (row 2). -/
def browseGlobals : Globals :=
  { cwd := ['/', 'x', '/'], isHiddenEnabled := false, position := 2, fileCount := 3
    files := [dotdot, sampleFile 'a' 0 0, sampleFile 'd' 1 0] }

/-- Globals after entering `d`: in `/x/d/`, the `..` entry selected. -/
def enteredGlobals : Globals :=
  { cwd := ['/', 'x', '/', 'd', '/'], isHiddenEnabled := false, position := 0, fileCount := 1
    files := [dotdot] }

/-- A list of five plain files named `a` to `e`. -/
def fiveFiles : List File :=
  [sampleFile 'a' 0 0, sampleFile 'b' 0 0, sampleFile 'c' 0 0, sampleFile 'd' 0 0,
    sampleFile 'e' 0 0]

/-- Globals with the five files listed and the fourth one selected. -/
def pageGlobals : Globals :=
  { cwd := ['/'], isHiddenEnabled := false, position := 3, fileCount := 5, files := fiveFiles }

/-- Globals inside `/x/d/` with a regular file selected (row 1). -/
def enteredFileGlobals : Globals :=
  { cwd := ['/', 'x', '/', 'd', '/'], isHiddenEnabled := false, position := 1, fileCount := 2
    files := [dotdot, sampleFile 'a' 0 0] }

/-! ## Theorems on the directory listing -/

theorem take_two_dots {l : List Char} (h : l.take 2 = ['.', '.']) : l.take 1 = ['.'] := by
  match l, h with
  | a :: b :: t, h => simp at h; simp [h.1]

theorem take_one_dot (l : List Char) : l.take 1 = ['.'] ↔ l.head? = some '.' := by
  cases l <;> simp

theorem readLoop_running (env : Env) (r : DirRead) (rest : List DirRead) (g : Globals)
    (calls : List FsCall) (h : running r = true) :
    readLoop env (r :: rest) g calls
      = readLoop env rest (accept env g r) (calls ++ [FsCall.Read r.ret]) := by
  simp only [running, Bool.and_eq_true, bne_iff_ne, ne_eq] at h
  obtain ⟨ha, hb⟩ := h
  rw [readLoop]
  simp only [ha, hb, ne_eq, not_false_eq_true, if_true]
  by_cases h1 : (env.u16_to_u8 r.entries.name 0xFF).head? = none
  · have : env.u16_to_u8 r.entries.name 0xFF = [] := by simpa using h1
    simp [accept, visible, this]
  · have hne : env.u16_to_u8 r.entries.name 0xFF ≠ [] := by simpa using h1
    simp only [h1, if_false]
    by_cases h2 : (env.u16_to_u8 r.entries.name 0xFF).take 1 = ['.']
    · have := (take_one_dot _).1 h2
      simp [accept, visible, h2, this]
    · have hh : (env.u16_to_u8 r.entries.name 0xFF).head? ≠ some '.' :=
        fun hc => h2 ((take_one_dot _).2 hc)
      have h3 : ¬ (g.cwd = env.ROOT_PATH ∧
          (env.u16_to_u8 r.entries.name 0xFF).take 2 = ['.', '.']) :=
        fun hc => h2 (take_two_dots hc.2)
      simp only [h2, h3, if_false]
      cases hE : g.isHiddenEnabled <;>
        by_cases h4 : r.entries.attributes &&& env.FS_ATTRIBUTE_HIDDEN = 0 <;>
        simp [accept, visible, mkItem, entryOf, hne, hh, hE, h4]

theorem acceptAll_eq (env : Env) (rs : List DirRead) (g : Globals) :
    acceptAll env g rs =
      { g with
        files := g.files ++
          ((rs.map (fun r => r.entries)).filter (visible env g.isHiddenEnabled)).map (entryOf env)
        fileCount := g.fileCount +
          (((rs.map (fun r => r.entries)).filter (visible env g.isHiddenEnabled)).length : Int) } := by
  induction rs generalizing g with
  | nil => simp [acceptAll]
  | cons r rest ih =>
    have ih1 := ih (accept env g r)
    simp only [acceptAll, List.foldl_cons] at ih1 ⊢
    rw [ih1]
    by_cases hv : visible env g.isHiddenEnabled r.entries = true
    · simp [accept, hv, add_assoc, add_comm]
    · simp [accept, hv]

theorem readLoop_eq (env : Env) (reads : List DirRead) (g : Globals) (calls : List FsCall) :
    readLoop env reads g calls =
      match reads.dropWhile running with
      | [] => none
      | s :: _ =>
        some (if R_SUCCEEDED s.ret then LoopExit.done else LoopExit.returned s.ret,
          acceptAll env g (reads.takeWhile running),
          calls ++ ((reads.takeWhile running) ++ [s]).map (fun r => FsCall.Read r.ret)) := by
  induction reads generalizing g calls with
  | nil => simp [readLoop]
  | cons r rest ih =>
    by_cases hr : running r = true
    · rw [readLoop_running env r rest g calls hr, ih]
      simp only [List.dropWhile_cons, List.takeWhile_cons, hr, if_true]
      cases hd : rest.dropWhile running with
      | nil => rfl
      | cons s t => simp [acceptAll]
    · simp only [List.dropWhile_cons, List.takeWhile_cons, hr]
      simp only [running, Bool.and_eq_true, bne_iff_ne, ne_eq, not_and, not_not] at hr
      rw [readLoop]
      by_cases hs : R_SUCCEEDED r.ret = true
      · simp [hs, hr hs, acceptAll]
      · simp [hs, acceptAll]

theorem listing_length (env : Env) (cwd : List Char) (hid : Bool)
    (items : List FS_DirectoryEntry) :
    ((listing env cwd hid items).length : Int) =
      (if cwd ≠ env.ROOT_PATH then 1 else 0) + ((items.filter (visible env hid)).length : Int) := by
  unfold listing
  split <;> simp [add_comm]

/-- Closed form of `updateList` in terms of the reads that kept the loop going
and the first read that did not. -/
theorem updateList_eq (env : Env) (p : DirScript) (clearindex : Int) (g : Globals) :
    updateList env p clearindex g =
      if p.openRet < 0 then
        some { ret := p.openRet, g := { g with files := [], fileCount := 0 }
               calls := [FsCall.OpenDirectory p.openRet] }
      else
        match p.reads.dropWhile running with
        | [] => none
        | s :: _ =>
          let items := (p.reads.takeWhile running).map (fun r => r.entries)
          let fs := listing env g.cwd g.isHiddenEnabled items
          let calls := FsCall.OpenDirectory p.openRet ::
            ((p.reads.takeWhile running) ++ [s]).map (fun r => FsCall.Read r.ret)
          if s.ret < 0 then
            some { ret := s.ret, g := { g with files := fs, fileCount := (fs.length : Int) }
                   calls := calls }
          else if p.closeRet < 0 then
            some { ret := p.closeRet, g := { g with files := fs, fileCount := (fs.length : Int) }
                   calls := calls ++ [FsCall.Close p.closeRet] }
          else
            some { ret := 0
                   g := { g with files := fs, fileCount := (fs.length : Int)
                                 position := clampPosition clearindex g.position (fs.length : Int) }
                   calls := calls ++ [FsCall.Close p.closeRet] } := by
  unfold updateList
  by_cases ho : p.openRet < 0
  · have : R_SUCCEEDED p.openRet = false := by simp [R_SUCCEEDED, ho]
    simp [this, ho]
  · have hs : R_SUCCEEDED p.openRet = true := by simp [R_SUCCEEDED]; omega
    simp only [hs, if_true, ho, if_false]
    rw [readLoop_eq]
    cases hd : p.reads.dropWhile running with
    | nil => rfl
    | cons s t =>
      simp only [acceptAll_eq, listing_length]
      by_cases hsr : s.ret < 0
      · have : R_SUCCEEDED s.ret = false := by simp [R_SUCCEEDED, hsr]
        by_cases hc : g.cwd = env.ROOT_PATH <;> simp [this, hsr, hc, listing]
      · have hsr1 : R_SUCCEEDED s.ret = true := by simp [R_SUCCEEDED]; omega
        by_cases hcl : p.closeRet < 0
        · have : R_FAILED p.closeRet = true := by simp [R_FAILED, hcl]
          by_cases hc : g.cwd = env.ROOT_PATH <;> simp [this, hsr, hsr1, hcl, hc, listing]
        · have : R_FAILED p.closeRet = false := by simp [R_FAILED]; omega
          by_cases hc : g.cwd = env.ROOT_PATH <;> by_cases hci : clearindex = 0 <;>
            simp [this, hsr, hsr1, hcl, hc, hci, listing, clampPosition] <;>
            split <;> simp_all <;> omega

theorem not_running_head (reads : List DirRead) (s : DirRead) (t : List DirRead)
    (hd : reads.dropWhile running = s :: t) : running s = false := by
  have h := List.head_dropWhile_not running reads (by simp [hd])
  simpa [hd] using h

theorem reads_split (reads : List DirRead) (s : DirRead) (t : List DirRead)
    (hd : reads.dropWhile running = s :: t) :
    reads = reads.takeWhile running ++ s :: t := by
  have h := List.takeWhile_append_dropWhile running reads
  rw [hd] at h
  exact h.symm

theorem running_of_mem_takeWhile (reads : List DirRead) (r : DirRead)
    (hr : r ∈ reads.takeWhile running) : 0 ≤ r.ret ∧ r.entriesRead ≠ 0 := by
  have h := List.mem_takeWhile_imp hr
  simpa [running, R_SUCCEEDED] using h

theorem split_unique (reads pre : List DirRead) (s : DirRead) (post : List DirRead)
    (h : reads = pre ++ s :: post) (hpre : ∀ r ∈ pre, running r = true)
    (hs : running s = false) :
    reads.takeWhile running = pre ∧ reads.dropWhile running = s :: post := by
  subst h
  constructor
  · rw [List.takeWhile_append_of_pos hpre]
    simp [List.takeWhile_cons, hs]
  · rw [List.dropWhile_append_of_pos hpre]
    simp [List.dropWhile_cons, hs]

theorem enumerated_of_stop (reads : List DirRead) (s : DirRead) (t : List DirRead)
    (hd : reads.dropWhile running = s :: t) (hs : ¬ s.ret < 0) :
    enumerated reads = (reads.takeWhile running).map (fun r => r.entries) := by
  have hsplit := reads_split reads s t hd
  have hns := not_running_head reads s t hd
  have hz : s.entriesRead = 0 := by
    simp only [running, R_SUCCEEDED, Bool.and_eq_false_iff, decide_eq_false_iff_not, not_le,
      bne_eq_false_iff_eq] at hns
    rcases hns with h | h
    · exact absurd h hs
    · simpa using h
  unfold enumerated
  congr 1
  conv_lhs => rw [hsplit]
  rw [List.takeWhile_append_of_pos]
  · simp [List.takeWhile_cons, hz]
  · intro r hr
    have := (running_of_mem_takeWhile reads r hr).2
    simpa using this

/-- A successful `updateList`, read off the closed form. -/
theorem updateList_success (env : Env) (p : DirScript) (clearindex : Int) (g : Globals)
    (out : Outcome) (h : updateList env p clearindex g = some out) (h0 : out.ret = 0) :
    ∃ s t, p.reads.dropWhile running = s :: t ∧ 0 ≤ p.openRet ∧ 0 ≤ s.ret ∧ 0 ≤ p.closeRet ∧
      out =
        { ret := 0
          g := { g with
                 files := listing env g.cwd g.isHiddenEnabled (enumerated p.reads)
                 fileCount := ((listing env g.cwd g.isHiddenEnabled (enumerated p.reads)).length : Int)
                 position := clampPosition clearindex g.position
                   ((listing env g.cwd g.isHiddenEnabled (enumerated p.reads)).length : Int) }
          calls := FsCall.OpenDirectory p.openRet ::
            ((p.reads.takeWhile running) ++ [s]).map (fun r => FsCall.Read r.ret) ++
              [FsCall.Close p.closeRet] } := by
  rw [updateList_eq] at h
  by_cases ho : p.openRet < 0
  · simp only [ho, if_true, Option.some.injEq] at h
    subst h
    simp at h0
    omega
  · simp only [ho, if_false] at h
    cases hd : p.reads.dropWhile running with
    | nil => simp [hd] at h
    | cons s t =>
      simp only [hd] at h
      by_cases hsr : s.ret < 0
      · simp only [hsr, if_true, Option.some.injEq] at h
        subst h
        simp at h0
        omega
      · simp only [hsr, if_false] at h
        by_cases hcl : p.closeRet < 0
        · simp only [hcl, if_true, Option.some.injEq] at h
          subst h
          simp at h0
          omega
        · simp only [hcl, if_false, Option.some.injEq] at h
          refine ⟨s, t, rfl, by omega, by omega, by omega, ?_⟩
          rw [enumerated_of_stop p.reads s t hd hsr]
          rw [← h]

/-- C1. Whenever `updateList` succeeds (returns 0), the list it leaves is the
synthesized `..` entry exactly when `cwd` differs from `ROOT_PATH`, followed by
one entry per visible enumerated item, in enumeration order, each carrying the
item's converted name, extension, size and attribute flags; `fileCount` is
`N + 1` away from the root and `N` at the root, `N` the number of visible items. -/
theorem updateList_builds_listing (env : Env) (p : DirScript) (clearindex : Int)
    (g : Globals) (out : Outcome)
    (h : updateList env p clearindex g = some out) (h0 : out.ret = 0) :
    out.g.files =
        (if g.cwd ≠ env.ROOT_PATH then [dotdot] else []) ++
          ((enumerated p.reads).filter (visible env g.isHiddenEnabled)).map (entryOf env) ∧
      out.g.fileCount =
        (if g.cwd ≠ env.ROOT_PATH then
          (((enumerated p.reads).filter (visible env g.isHiddenEnabled)).length : Int) + 1
        else (((enumerated p.reads).filter (visible env g.isHiddenEnabled)).length : Int)) := by
  obtain ⟨s, t, _, _, _, _, hout⟩ := updateList_success env p clearindex g out h h0
  subst hout
  refine ⟨rfl, ?_⟩
  simp only [listing_length]
  split <;> simp [add_comm]

theorem visible_off (env : Env) (e : FS_DirectoryEntry) :
    visible env false e = (visible env true e && ((entryOf env e).isHidden == 0)) := by
  simp [visible, entryOf]

theorem listing_off (env : Env) (cwd : List Char) (items : List FS_DirectoryEntry) :
    listing env cwd false items =
      (listing env cwd true items).filter (fun f => f.isHidden == 0) := by
  unfold listing
  rw [List.filter_append, List.filter_map, List.filter_filter]
  congr 1
  · split <;> simp [dotdot]
  · congr 1
    apply List.filter_congr
    intro e _
    simp [visible_off, Bool.and_comm]

/-- C2. When `updateList` succeeds with hidden files enabled, it also succeeds on
the same path and enumeration with hidden files disabled, and the list built
with the flag off is the list built with the flag on with exactly the entries
whose `isHidden` flag is set deleted (the remaining entries in the same order). -/
theorem updateList_hidden_toggle (env : Env) (p : DirScript) (c1 c2 : Int)
    (g : Globals) (onOut : Outcome)
    (h : updateList env p c1 { g with isHiddenEnabled := true } = some onOut)
    (h0 : onOut.ret = 0) :
    ∃ off, updateList env p c2 { g with isHiddenEnabled := false } = some off ∧
      off.ret = 0 ∧
      off.g.files = onOut.g.files.filter (fun f => f.isHidden == 0) := by
  obtain ⟨s, t, hd, ho, hs, hc, hout⟩ := updateList_success env p c1 _ onOut h h0
  subst hout
  rw [updateList_eq]
  simp only [hd, not_lt.2 ho, not_lt.2 hs, not_lt.2 hc, if_false]
  refine ⟨_, rfl, rfl, ?_⟩
  simp only
  rw [enumerated_of_stop p.reads s t hd (not_lt.2 hs)]
  exact listing_off env g.cwd _

/-- C3. After a successful `updateList`: a non-zero `clearindex` sets `position`
to 0; with `clearindex` zero, `position` is unchanged when it is below the new
`fileCount` and is `fileCount - 1` otherwise. -/
theorem updateList_position (env : Env) (p : DirScript) (clearindex : Int)
    (g : Globals) (out : Outcome)
    (h : updateList env p clearindex g = some out) (h0 : out.ret = 0) :
    (clearindex ≠ 0 → out.g.position = 0) ∧
      (clearindex = 0 → g.position < out.g.fileCount → out.g.position = g.position) ∧
      (clearindex = 0 → ¬ g.position < out.g.fileCount →
        out.g.position = out.g.fileCount - 1) := by
  obtain ⟨s, t, _, _, _, _, hout⟩ := updateList_success env p clearindex g out h h0
  subst hout
  simp only [clampPosition]
  refine ⟨?_, ?_, ?_⟩
  · intro hc; simp [hc]
  · intro hc hlt; simp [hc, hlt]
  · intro hc hlt; simp [hc, hlt]

theorem entriesRead_of_stop (s : DirRead) (hns : running s = false) (hs : 0 ≤ s.ret) :
    s.entriesRead = 0 := by
  simp only [running, R_SUCCEEDED, Bool.and_eq_false_iff, decide_eq_false_iff_not, not_le,
    bne_eq_false_iff_eq] at hns
  rcases hns with h | h
  · omega
  · simpa using h

/-- C4. `updateList` returns 0 exactly when the open, every read up to and
including the first read reporting zero entries, and the close all succeed.
When it returns a non-zero code, that code is the code of the first failing
call (open, read or close), and that call is the last one made. It returns
whenever the open fails or some read fails or reports zero entries. -/
theorem updateList_result_code (env : Env) (p : DirScript) (clearindex : Int) (g : Globals) :
    ((∃ out, updateList env p clearindex g = some out ∧ out.ret = 0) ↔
      (0 ≤ p.openRet ∧
        (∃ pre s post, p.reads = pre ++ s :: post ∧ (∀ r ∈ pre, r.entriesRead ≠ 0) ∧
          s.entriesRead = 0 ∧ ∀ r ∈ pre ++ [s], 0 ≤ r.ret) ∧
        0 ≤ p.closeRet)) ∧
    (∀ out, updateList env p clearindex g = some out → out.ret ≠ 0 →
      (p.openRet < 0 ∧ out.ret = p.openRet ∧
          out.calls = [FsCall.OpenDirectory p.openRet]) ∨
        (0 ≤ p.openRet ∧ ∃ pre s post, p.reads = pre ++ s :: post ∧
          (∀ r ∈ pre, 0 ≤ r.ret ∧ r.entriesRead ≠ 0) ∧
          ((s.ret < 0 ∧ out.ret = s.ret ∧
              out.calls = FsCall.OpenDirectory p.openRet ::
                (pre ++ [s]).map (fun r => FsCall.Read r.ret)) ∨
            (0 ≤ s.ret ∧ s.entriesRead = 0 ∧ p.closeRet < 0 ∧ out.ret = p.closeRet ∧
              out.calls = FsCall.OpenDirectory p.openRet ::
                (pre ++ [s]).map (fun r => FsCall.Read r.ret) ++
                  [FsCall.Close p.closeRet])))) ∧
    ((p.openRet < 0 ∨ ∃ r ∈ p.reads, r.ret < 0 ∨ r.entriesRead = 0) →
      ∃ out, updateList env p clearindex g = some out) := by
  refine ⟨⟨?_, ?_⟩, ?_, ?_⟩
  · rintro ⟨out, h, h0⟩
    obtain ⟨s, t, hd, ho, hs, hc, _⟩ := updateList_success env p clearindex g out h h0
    refine ⟨ho, ⟨p.reads.takeWhile running, s, t, reads_split p.reads s t hd, ?_, ?_, ?_⟩, hc⟩
    · intro r hr
      exact (running_of_mem_takeWhile p.reads r hr).2
    · exact entriesRead_of_stop s (not_running_head p.reads s t hd) hs
    · intro r hr
      rcases List.mem_append.1 hr with hr | hr
      · exact (running_of_mem_takeWhile p.reads r hr).1
      · simp only [List.mem_singleton] at hr
        rw [hr]
        exact hs
  · rintro ⟨ho, ⟨pre, s, post, hsplit, hpre, hz, hall⟩, hc⟩
    have hrun : ∀ r ∈ pre, running r = true := by
      intro r hr
      have h1 := hall r (List.mem_append_left _ hr)
      have h2 := hpre r hr
      simp [running, R_SUCCEEDED, h1, h2]
    have hstop : running s = false := by simp [running, hz]
    obtain ⟨_, hd⟩ := split_unique p.reads pre s post hsplit hrun hstop
    have hs : 0 ≤ s.ret := hall s (by simp)
    rw [updateList_eq]
    simp only [hd, not_lt.2 ho, not_lt.2 hs, not_lt.2 hc, if_false]
    exact ⟨_, rfl, rfl⟩
  · intro out h hne
    rw [updateList_eq] at h
    by_cases ho : p.openRet < 0
    · simp only [ho, if_true, Option.some.injEq] at h
      subst h
      exact Or.inl ⟨ho, rfl, rfl⟩
    · simp only [ho, if_false] at h
      right
      refine ⟨by omega, ?_⟩
      cases hd : p.reads.dropWhile running with
      | nil => simp [hd] at h
      | cons s t =>
        simp only [hd] at h
        refine ⟨p.reads.takeWhile running, s, t, reads_split p.reads s t hd,
          fun r hr => running_of_mem_takeWhile p.reads r hr, ?_⟩
        by_cases hsr : s.ret < 0
        · simp only [hsr, if_true, Option.some.injEq] at h
          subst h
          exact Or.inl ⟨hsr, rfl, rfl⟩
        · simp only [hsr, if_false] at h
          by_cases hcl : p.closeRet < 0
          · simp only [hcl, if_true, Option.some.injEq] at h
            subst h
            exact Or.inr ⟨by omega,
              entriesRead_of_stop s (not_running_head p.reads s t hd) (by omega), hcl, rfl, rfl⟩
          · simp only [hcl, if_false, Option.some.injEq] at h
            subst h
            simp at hne
  · intro h
    rw [updateList_eq]
    by_cases ho : p.openRet < 0
    · simp [ho]
    · simp only [ho, if_false]
      rcases h with h | ⟨r, hr, hstop⟩
      · exact absurd h ho
      · cases hd : p.reads.dropWhile running with
        | nil =>
          have hall := List.dropWhile_eq_nil_iff.1 hd r hr
          simp only [running, R_SUCCEEDED, Bool.and_eq_true, decide_eq_true_eq, bne_iff_ne,
            ne_eq] at hall
          rcases hstop with h1 | h1
          · omega
          · exact absurd h1 hall.2
        | cons s t =>
          simp only
          split
          · exact ⟨_, rfl⟩
          · split
            · exact ⟨_, rfl⟩
            · exact ⟨_, rfl⟩

/-- C5. The list, `fileCount` and result code left by `updateList` do not depend
on the previous `files`, `fileCount` or `position` (nor on `clearindex`): two
runs over the same `cwd`, hidden-files flag and platform answers agree on them.
Hence a second `updateList` right after a first one, on an unchanged directory,
ends with the same result code, the same list and the same entry count. -/
theorem updateList_ignores_previous_list (env : Env) (p : DirScript)
    (cwd : List Char) (hidden : Bool) (c1 c2 pos1 pos2 count1 count2 : Int)
    (files1 files2 : List File) :
    ((updateList env p c1 ⟨cwd, hidden, pos1, count1, files1⟩).map
        (fun o => (o.ret, o.g.files, o.g.fileCount)) =
      (updateList env p c2 ⟨cwd, hidden, pos2, count2, files2⟩).map
        (fun o => (o.ret, o.g.files, o.g.fileCount))) ∧
    (∀ out, updateList env p c1 ⟨cwd, hidden, pos1, count1, files1⟩ = some out →
      ∃ out2, updateList env p c2 out.g = some out2 ∧ out2.ret = out.ret ∧
        out2.g.files = out.g.files ∧ out2.g.fileCount = out.g.fileCount) := by
  constructor
  · simp only [updateList_eq]
    split
    · rfl
    · cases hd : p.reads.dropWhile running with
      | nil => rfl
      | cons s t =>
        simp only
        split
        · rfl
        · split <;> rfl
  · intro out h
    rw [updateList_eq] at h
    rw [updateList_eq]
    by_cases ho : p.openRet < 0
    · simp only [ho, if_true, Option.some.injEq] at h
      subst h
      simp [ho]
    · simp only [ho, if_false] at h ⊢
      cases hd : p.reads.dropWhile running with
      | nil => simp [hd] at h
      | cons s t =>
        simp only [hd] at h
        simp only
        by_cases hsr : s.ret < 0
        · simp only [hsr, if_true, Option.some.injEq] at h
          subst h
          simp [hsr]
        · simp only [hsr, if_false] at h ⊢
          by_cases hcl : p.closeRet < 0
          · simp only [hcl, if_true, Option.some.injEq] at h
            subst h
            simp [hcl]
          · simp only [hcl, if_false, Option.some.injEq] at h
            subst h
            simp [hcl]

theorem getFileIndexFrom_eq (files : List File) (i index : Int) :
    getFileIndexFrom files i index =
      if i ≤ index ∧ index - i < files.length then files[(index - i).toNat]? else none := by
  induction files generalizing i with
  | nil => simp [getFileIndexFrom]
  | cons f rest ih =>
    rw [getFileIndexFrom]
    by_cases hi : i = index
    · subst hi
      simp
    · simp only [ne_eq, hi, not_false_eq_true, if_true, ih]
      by_cases hle : i ≤ index
      · have hlt : i + 1 ≤ index := by omega
        have e1 : (index - i).toNat = (index - (i + 1)).toNat + 1 := by omega
        simp only [hlt, hle, true_and, List.length_cons, e1, List.getElem?_cons_succ]
        have : (index - (i + 1) < (rest.length : Int)) ↔
            (index - i < ((rest.length + 1 : Nat) : Int)) := by
          constructor <;> intro h <;> omega
        simp only [this]
      · have : ¬ i + 1 ≤ index := by omega
        simp [hle, this]

/-- C6. `getFileIndex index` returns the entry at zero-based position `index`
counted from the head when `0 <= index < n`, and `NULL` when `index >= n` or
`index < 0`, `n` being the length of the list. -/
theorem getFileIndex_spec (files : List File) :
    (∀ (k : Nat) (hk : k < files.length), getFileIndex files (k : Int) = some (files.get ⟨k, hk⟩)) ∧
    (∀ index : Int, (index < 0 ∨ (files.length : Int) ≤ index) →
      getFileIndex files index = none) := by
  constructor
  · intro k hk
    rw [getFileIndex, getFileIndexFrom_eq]
    have : (0 : Int) ≤ k ∧ (k : Int) - 0 < files.length := by constructor <;> omega
    simp [this, hk]
  · intro index h
    rw [getFileIndex, getFileIndexFrom_eq]
    have : ¬ ((0 : Int) ≤ index ∧ index - 0 < files.length) := by
      intro hc
      omega
    simp only [this, if_false]

/-- Witness for C1: the sample directory, listed from `/x/` with hidden files
off. -/
theorem updateList_builds_listing_witness :
    updateList sampleEnv sampleScript 0 sampleGlobals = some sampleOutcome ∧
    sampleOutcome.ret = 0 ∧
    (sampleOutcome.g.files =
        (if sampleGlobals.cwd ≠ sampleEnv.ROOT_PATH then [dotdot] else []) ++
          ((enumerated sampleScript.reads).filter
            (visible sampleEnv sampleGlobals.isHiddenEnabled)).map (entryOf sampleEnv) ∧
      sampleOutcome.g.fileCount =
        (if sampleGlobals.cwd ≠ sampleEnv.ROOT_PATH then
          (((enumerated sampleScript.reads).filter
            (visible sampleEnv sampleGlobals.isHiddenEnabled)).length : Int) + 1
        else (((enumerated sampleScript.reads).filter
            (visible sampleEnv sampleGlobals.isHiddenEnabled)).length : Int))) :=
  ⟨by decide, by decide,
    updateList_builds_listing sampleEnv sampleScript 0 sampleGlobals sampleOutcome
      (by decide) (by decide)⟩

/-- Witness for C2: the sample directory, which holds one hidden item. -/
theorem updateList_hidden_toggle_witness :
    updateList sampleEnv sampleScript 0 { sampleGlobals with isHiddenEnabled := true } =
      some sampleOutcomeHidden ∧
    sampleOutcomeHidden.ret = 0 ∧
    ∃ off, updateList sampleEnv sampleScript 0
        { sampleGlobals with isHiddenEnabled := false } = some off ∧
      off.ret = 0 ∧
      off.g.files = sampleOutcomeHidden.g.files.filter (fun f => f.isHidden == 0) :=
  ⟨by decide, by decide,
    updateList_hidden_toggle sampleEnv sampleScript 0 0 sampleGlobals sampleOutcomeHidden
      (by decide) (by decide)⟩

/-- Witness for C3: the selection was on row 5 and the new list has 3 rows. -/
theorem updateList_position_witness :
    updateList sampleEnv sampleScript 0 sampleGlobals = some sampleOutcome ∧
    sampleOutcome.ret = 0 ∧
    (((0 : Int) ≠ 0 → sampleOutcome.g.position = 0) ∧
      ((0 : Int) = 0 → sampleGlobals.position < sampleOutcome.g.fileCount →
        sampleOutcome.g.position = sampleGlobals.position) ∧
      ((0 : Int) = 0 → ¬ sampleGlobals.position < sampleOutcome.g.fileCount →
        sampleOutcome.g.position = sampleOutcome.g.fileCount - 1)) :=
  ⟨by decide, by decide,
    updateList_position sampleEnv sampleScript 0 sampleGlobals sampleOutcome
      (by decide) (by decide)⟩

/-! ## Theorems on the decode adapter -/

set_option maxRecDepth 1000000 in
/-- Below 1024 the padded extent is one of five powers of two and is not smaller
than the extent it pads. -/
theorem GetNextPowerOf2_small :
    ∀ w, w < 1024 → w ≤ GetNextPowerOf2 w ∧ GetNextPowerOf2 w ∈ [64, 128, 256, 512, 1024] := by
  decide

theorem GetNextPowerOf2_pos (w : Nat) (hw : w < 1024) : 0 < GetNextPowerOf2 w := by
  have h := (GetNextPowerOf2_small w hw).2
  simp only [List.mem_cons, List.mem_singleton, List.not_mem_nil, or_false] at h
  omega

/-- C7. `C3DTexToC2DImage` returns false exactly when `width >= 1024` or
`height >= 1024`; in that case the caller's texture is returned as it was and no
texture is created (no `C3D_TexInit`). For `width < 1024` and `height < 1024` it
returns true. -/
theorem C3DTexToC2DImage_guard (texture : C2D_Image) (width height : Nat) (buf : List Nat) :
    ((C3DTexToC2DImage texture width height buf).ret = false ↔
      (width ≥ 1024 ∨ height ≥ 1024)) ∧
    ((width ≥ 1024 ∨ height ≥ 1024) →
      (C3DTexToC2DImage texture width height buf).texture = texture ∧
        (C3DTexToC2DImage texture width height buf).effects = []) ∧
    (width < 1024 → height < 1024 →
      (C3DTexToC2DImage texture width height buf).ret = true) := by
  unfold C3DTexToC2DImage
  by_cases h : width ≥ 1024 ∨ height ≥ 1024
  · simp only [h, if_true, true_and, and_self, implies_true, iff_true]
    intro hw hh
    omega
  · simp only [h, if_false, false_iff, Bool.true_eq_false, not_false_eq_true, true_and,
      implies_true, and_true, false_imp_iff]

/-- C10. For `width < 1024` and `height < 1024` the sub-texture produced by
`C3DTexToC2DImage` has the width and height of the source image, `left = 0`,
`top = 1`, `right = width / P(width)` and `bottom = 1 - height / P(height)` as
exact rationals, `P` being `GetNextPowerOf2`; `right` and `bottom` lie in
`[0, 1]`. -/
theorem C3DTexToC2DImage_subtex (texture : C2D_Image) (width height : Nat) (buf : List Nat)
    (hw : width < 1024) (hh : height < 1024) :
    ∃ sub, (C3DTexToC2DImage texture width height buf).texture.subtex = some sub ∧
      sub.width = width ∧ sub.height = height ∧ sub.left = 0 ∧ sub.top = 1 ∧
      sub.right = (width : ℚ) / (GetNextPowerOf2 width : ℚ) ∧
      sub.bottom = 1 - (height : ℚ) / (GetNextPowerOf2 height : ℚ) ∧
      0 ≤ sub.right ∧ sub.right ≤ 1 ∧ 0 ≤ sub.bottom ∧ sub.bottom ≤ 1 := by
  have hg : ¬ (width ≥ 1024 ∨ height ≥ 1024) := by omega
  have hwm : width % 2 ^ 16 = width := Nat.mod_eq_of_lt (by omega)
  have hhm : height % 2 ^ 16 = height := Nat.mod_eq_of_lt (by omega)
  have hpw : (0 : ℚ) < (GetNextPowerOf2 width : ℚ) := by
    exact_mod_cast GetNextPowerOf2_pos width hw
  have hph : (0 : ℚ) < (GetNextPowerOf2 height : ℚ) := by
    exact_mod_cast GetNextPowerOf2_pos height hh
  have hlw : (width : ℚ) ≤ (GetNextPowerOf2 width : ℚ) := by
    exact_mod_cast (GetNextPowerOf2_small width hw).1
  have hlh : (height : ℚ) ≤ (GetNextPowerOf2 height : ℚ) := by
    exact_mod_cast (GetNextPowerOf2_small height hh).1
  have h1 : (0 : ℚ) ≤ (width : ℚ) / (GetNextPowerOf2 width : ℚ) :=
    div_nonneg (by positivity) hpw.le
  have h2 : (width : ℚ) / (GetNextPowerOf2 width : ℚ) ≤ 1 := (div_le_one hpw).2 hlw
  have h3 : (0 : ℚ) ≤ (height : ℚ) / (GetNextPowerOf2 height : ℚ) :=
    div_nonneg (by positivity) hph.le
  have h4 : (height : ℚ) / (GetNextPowerOf2 height : ℚ) ≤ 1 := (div_le_one hph).2 hlh
  unfold C3DTexToC2DImage
  simp only [hg, if_false, hwm, hhm]
  refine ⟨_, rfl, rfl, rfl, rfl, rfl, rfl, rfl, h1, h2, ?_, ?_⟩
  · simp only; linarith
  · simp only; linarith

/-- Witness for C10: a 3 x 5 image. -/
theorem C3DTexToC2DImage_subtex_witness :
    3 < 1024 ∧ 5 < 1024 ∧
    ∃ sub, (C3DTexToC2DImage noTexture 3 5 []).texture.subtex = some sub ∧
      sub.width = 3 ∧ sub.height = 5 ∧ sub.left = 0 ∧ sub.top = 1 ∧
      sub.right = ((3 : Nat) : ℚ) / (GetNextPowerOf2 3 : ℚ) ∧
      sub.bottom = 1 - ((5 : Nat) : ℚ) / (GetNextPowerOf2 5 : ℚ) ∧
      0 ≤ sub.right ∧ sub.right ≤ 1 ∧ 0 ≤ sub.bottom ∧ sub.bottom ≤ 1 :=
  ⟨by decide, by decide, C3DTexToC2DImage_subtex noTexture 3 5 [] (by decide) (by decide)⟩

theorem ReadFile_ret_zero_iff (p : FileScript) :
    (ReadFile p).ret = 0 ↔
      (0 ≤ p.openRet ∧ 0 ≤ p.getSizeRet ∧ 0 ≤ p.readRet ∧ p.bytes_read = p.size % 2 ^ 32) := by
  unfold ReadFile
  split_ifs with h1 h2 h3 h4 <;> simp only [R_FAILED, decide_eq_true_eq, not_lt, not_not] at * <;>
    constructor <;> intro h <;> simp only at * <;> omega

theorem ReadFile_ret_nonpos (p : FileScript) : (ReadFile p).ret ≤ 0 := by
  unfold ReadFile
  split_ifs with h1 h2 h3 h4 <;> simp only [R_FAILED, decide_eq_true_eq, not_lt, not_not] at * <;>
    omega

theorem ReadFile_success (p : FileScript) (h : (ReadFile p).ret = 0) :
    ReadFile p =
      { ret := 0, buffer := some p.data, size := p.size
        effects := [Effect.OpenFile p.openRet, Effect.GetSize p.getSizeRet,
          Effect.NewBuffer p.size, Effect.FileRead p.readRet (p.size % 2 ^ 32),
          Effect.CloseFile] } := by
  obtain ⟨h1, h2, h3, h4⟩ := (ReadFile_ret_zero_iff p).1 h
  unfold ReadFile
  have e1 : R_FAILED p.openRet = false := by simp [R_FAILED, h1]
  have e2 : R_FAILED p.getSizeRet = false := by simp [R_FAILED, h2]
  have e3 : R_FAILED p.readRet = false := by simp [R_FAILED, h3]
  have e4 : ¬ (p.bytes_read ≠ p.size % 2 ^ 32) := by simp [h4]
  simp only [e1, e2, e3, e4, Bool.false_eq_true, if_false, List.cons_append, List.nil_append]

theorem ReadFile_no_TexInit (p : FileScript) (w h : Nat) :
    Effect.TexInit w h ∉ (ReadFile p).effects := by
  unfold ReadFile
  split
  · simp
  · split
    · simp
    · split
      · simp
      · split <;> simp

theorem ReadFile_no_Lib (p : FileScript) (c : LibCall) :
    Effect.Lib c ∉ (ReadFile p).effects := by
  unfold ReadFile
  split
  · simp
  · split
    · simp
    · split
      · simp
      · split <;> simp

theorem LoadImageFile_of_read (L : Libs) (p : FileScript) (path : List Char)
    (texture : C2D_Image) (h : (ReadFile p).ret = 0) :
    LoadImageFile L p path texture =
      (dispatch L (GetImageType L path) p.data p.size texture).map
        (fun t => { t with effects := (ReadFile p).effects ++ t.effects }) := by
  unfold LoadImageFile
  have hf : R_FAILED (ReadFile p).ret = false := by simp [R_FAILED, h]
  simp only [hf, Bool.false_eq_true, if_false]
  have hb : (ReadFile p).buffer = some p.data := by rw [ReadFile_success p h]
  have hsz : (ReadFile p).size = p.size := by rw [ReadFile_success p h]
  rw [hb, hsz]
  simp only [Option.getD_some]
  cases dispatch L (GetImageType L path) p.data p.size texture <;> rfl

/-- C8, counterexample. A file of `MAX_IMAGE_BYTES + 1` bytes named `a.png`, with
a decoder that finds a 1 x 1 image in it: `LoadImageFile` returns true, having
allocated and read all `50331649` bytes and created a 64 x 64 texture. -/
theorem LoadImageFile_big_file_accepted :
    bigFile.size > MAX_IMAGE_BYTES ∧
    (LoadImageFile sampleLibs bigFile ['a', '.', 'p', 'n', 'g'] noTexture).map
        (fun o => (o.ret, o.effects)) =
      some (true,
        [Effect.OpenFile 0, Effect.GetSize 0, Effect.NewBuffer 50331649,
          Effect.FileRead 0 50331649, Effect.CloseFile,
          Effect.Lib LibCall.png_image_begin_read_from_memory,
          Effect.Lib LibCall.png_image_finish_read, Effect.TexInit 64 64]) := by
  decide

/-- C8, amended. `LoadImageFile` has no cap on the file size. (a) When `ReadFile`
fails, it returns false, leaves the texture alone, and neither calls a decoder
nor creates a texture. (b) `ReadFile` succeeds exactly when open, get-size and
read succeed and the count read equals the size truncated to `u32`: the size is
compared with nothing else. (c) When `ReadFile` succeeds, for a file of any
size, the whole file has been allocated and read and the result is that of the
loader selected by the file type. -/
theorem LoadImageFile_no_size_cap (L : Libs) (p : FileScript) (path : List Char)
    (texture : C2D_Image) :
    ((ReadFile p).ret ≠ 0 →
      LoadImageFile L p path texture =
          some { ret := false, texture := texture, effects := (ReadFile p).effects } ∧
        (∀ w h, Effect.TexInit w h ∉ (ReadFile p).effects) ∧
        (∀ c, Effect.Lib c ∉ (ReadFile p).effects)) ∧
    ((ReadFile p).ret = 0 ↔
      (0 ≤ p.openRet ∧ 0 ≤ p.getSizeRet ∧ 0 ≤ p.readRet ∧
        p.bytes_read = p.size % 2 ^ 32)) ∧
    ((ReadFile p).ret = 0 →
      (ReadFile p).effects =
          [Effect.OpenFile p.openRet, Effect.GetSize p.getSizeRet, Effect.NewBuffer p.size,
            Effect.FileRead p.readRet (p.size % 2 ^ 32), Effect.CloseFile] ∧
        LoadImageFile L p path texture =
          (dispatch L (GetImageType L path) p.data p.size texture).map
            (fun t => { t with effects := (ReadFile p).effects ++ t.effects })) := by
  refine ⟨?_, ReadFile_ret_zero_iff p, ?_⟩
  · intro hne
    refine ⟨?_, ReadFile_no_TexInit p, ReadFile_no_Lib p⟩
    have hlt : (ReadFile p).ret < 0 := lt_of_le_of_ne (ReadFile_ret_nonpos p) hne
    unfold LoadImageFile
    simp [R_FAILED, hlt]
  · intro h
    refine ⟨?_, LoadImageFile_of_read L p path texture h⟩
    rw [ReadFile_success p h]

theorem gifInitLoop_of_code (codes : List gif_result) (n : Nat) (c : gif_result)
    (h : gifInitCode codes = some c) :
    ∃ m, gifInitLoop codes n = some (decide (c = gif_result.GIF_OK), m) := by
  induction codes generalizing n with
  | nil => simp [gifInitCode] at h
  | cons a rest ih =>
    by_cases ha : a = gif_result.GIF_WORKING
    · subst ha
      have h1 : gifInitCode rest = some c := by
        simpa [gifInitCode, List.dropWhile_cons] using h
      obtain ⟨m, hm⟩ := ih (n + 1) h1
      exact ⟨m, by simp [gifInitLoop, hm]⟩
    · have hc : a = c := by
        have : (a == gif_result.GIF_WORKING) = false := by simpa using ha
        simpa [gifInitCode, List.dropWhile_cons, this] using h
      subst hc
      by_cases hok : a = gif_result.GIF_OK
      · exact ⟨n + 1, by simp [gifInitLoop, hok]⟩
      · exact ⟨n + 1, by simp [gifInitLoop, hok, ha]⟩

theorem TexInit_not_mem_replicate (n : Nat) (c : LibCall) (w h : Nat) :
    Effect.TexInit w h ∉ List.replicate n (Effect.Lib c) := by
  intro hm
  have := List.eq_of_mem_replicate hm
  cases this

/-- C9, counterexample. (1) A BMP whose decode reports `BMP_DATA_ERROR` on a
1 x 1 image: `LoadImageFile` returns true and sets the caller's texture. (2) A
JPEG whose header call fails (return value -1): `LoadImageFile` returns true
and sets the caller's texture to an empty 64 x 64 one. -/
theorem LoadImageFile_decoder_error_accepted :
    ((sampleLibs.bmp_decode smallFile.size smallFile.data).1 = bmp_result.BMP_DATA_ERROR ∧
      (LoadImageFile sampleLibs smallFile ['a', '.', 'b', 'm', 'p'] noTexture).map
          (fun o => (o.ret, o.texture.tex.isSome, o.texture.subtex.isSome)) =
        some (true, true, true)) ∧
    ((sampleLibs.tjDecompressHeader2 smallFile.size smallFile.data).1 = -1 ∧
      (sampleLibs.tjDecompress2 smallFile.size smallFile.data 0 0).1 = -1 ∧
      (LoadImageFile sampleLibs smallFile ['a', '.', 'j', 'p', 'g'] noTexture).map
          (fun o => (o.ret, o.texture.tex.isSome, o.texture.subtex.isSome)) =
        some (true, true, true)) := by
  decide

/-- For a file that was read and whose type is BMP, GIF or PNG, when the decoder
reports an error that the loader acts on (`decoderRejects`), `LoadImageFile`
returns false, leaves the caller's texture as it was and creates no texture. -/
theorem LoadImageFile_rejects (L : Libs) (p : FileScript) (path : List Char)
    (texture : C2D_Image) (hread : (ReadFile p).ret = 0)
    (hrej : decoderRejects L (GetImageType L path) p.data p.size) :
    ∃ out, LoadImageFile L p path texture = some out ∧ out.ret = false ∧
      out.texture = texture ∧ ∀ w h, Effect.TexInit w h ∉ out.effects := by
  rw [LoadImageFile_of_read L p path texture hread]
  have hnt := ReadFile_no_TexInit p
  cases hty : GetImageType L path <;> rw [hty] at hrej <;> simp only [decoderRejects] at hrej
  · -- BMP
    simp only [dispatch, LoadImageBMP, Option.map_some']
    rcases hrej with h | h | h
    · refine ⟨_, rfl, ?_⟩
      simp [h, hnt]
    · refine ⟨_, rfl, ?_⟩
      by_cases ha : (L.bmp_analyse p.size p.data).1 = bmp_result.BMP_OK
      · simp [ha, h.1, h.2.1, h.2.2, hnt]
      · simp [ha, hnt]
    · refine ⟨_, rfl, ?_⟩
      by_cases ha : (L.bmp_analyse p.size p.data).1 = bmp_result.BMP_OK
      · have hne : (L.bmp_decode p.size p.data).1 ≠ bmp_result.BMP_OK := by
          rcases h.1 with h1 | h1 <;> rw [h1] <;> decide
        by_cases hm : (L.bmp_decode p.size p.data).1 ≠ bmp_result.BMP_INSUFFICIENT_DATA ∧
            (L.bmp_decode p.size p.data).1 ≠ bmp_result.BMP_DATA_ERROR
        · simp [ha, hne, hm, hnt]
        · have h2 := h.2
          simp only [gt_iff_lt, Nat.reducePow] at h2
          simp [ha, hne, hm, h2, hnt]
      · simp [ha, hnt]
  · -- GIF
    simp only [dispatch, LoadImageGIF]
    rcases hrej with ⟨c, hc, hne⟩ | ⟨hc, hd⟩
    · obtain ⟨m, hm⟩ := gifInitLoop_of_code _ 0 c hc
      have : decide (c = gif_result.GIF_OK) = false := by simp [hne]
      rw [this] at hm
      simp only [hm, Option.map_some']
      refine ⟨_, rfl, rfl, rfl, ?_⟩
      intro w h
      simp [hnt, TexInit_not_mem_replicate]
    · obtain ⟨m, hm⟩ := gifInitLoop_of_code _ 0 _ hc
      simp only [decide_True] at hm
      simp only [hm, hd, ne_eq, not_false_eq_true, if_true, Option.map_some']
      refine ⟨_, rfl, rfl, rfl, ?_⟩
      intro w h
      simp [hnt, TexInit_not_mem_replicate]
  · -- PNG
    simp only [dispatch, LoadImagePNG, Option.map_some']
    refine ⟨_, rfl, ?_⟩
    rcases hrej with h | h
    · simp [h, hnt]
    · by_cases hb : (L.png_image_begin_read_from_memory p.size p.data).1 = 0
      · simp [hb, hnt]
      · simp [hb, h, hnt]

/-! ## Theorems on the tiling transform -/

theorem land_low (x c : Nat) (hc : 7 &&& c = c) : x &&& c = (x % 8) &&& c := by
  have h7 : x &&& 7 = x % 8 := Nat.and_pow_two_sub_one_eq_mod x 3
  rw [← h7, Nat.and_assoc, hc]

theorem interleave_mod (x y : Nat) : interleave x y = interleave (x % 8) (y % 8) := by
  unfold interleave
  rw [land_low x 1 (by decide), land_low x 2 (by decide), land_low x 4 (by decide),
    land_low y 1 (by decide), land_low y 2 (by decide), land_low y 4 (by decide)]

theorem morton_unfold (x y : Nat) :
    morton x y = x % 2 + y % 2 * 2 + x / 2 % 2 * 4 + y / 2 % 2 * 8 + x / 4 % 2 * 16 +
      y / 4 % 2 * 32 := by
  simp [morton, bitOf, List.range_succ]
  omega

theorem morton_mod (x y : Nat) : morton x y = morton (x % 8) (y % 8) := by
  rw [morton_unfold, morton_unfold]
  omega

theorem interleave_small : ∀ a, a < 8 → ∀ b, b < 8 → interleave a b = morton a b := by
  decide

theorem interleave_eq_morton (x y : Nat) : interleave x y = morton x y := by
  rw [interleave_mod, morton_mod]
  exact interleave_small _ (Nat.mod_lt _ (by decide)) _ (Nat.mod_lt _ (by decide))

theorem dstPos_eq (W x y : Nat) :
    dstPos W x y = 4 * (64 * ((y / 8) * (W / 8) + x / 8) + morton x y) := by
  have h : dstPos W x y =
      ((((y >>> 3) * (W >>> 3) + (x >>> 3)) <<< 6) + interleave x y) * BYTES_PER_PIXEL := rfl
  rw [h, interleave_eq_morton]
  simp only [Nat.shiftRight_eq_div_pow, Nat.shiftLeft_eq, BYTES_PER_PIXEL]
  ring

theorem morton_lt (x y : Nat) : morton x y < 64 := by
  rw [morton_unfold]
  omega

theorem morton_bits_small : ∀ a, a < 8 → ∀ b, b < 8 → ∀ k, k < 3 →
    (morton a b).testBit (2 * k) = a.testBit k ∧
      (morton a b).testBit (2 * k + 1) = b.testBit k := by
  decide

/-- C11. For every pixel coordinate `(x, y)` and padded width `W`, the
destination byte offset `dst_pos` equals
`4 * (64 * ((y div 8) * (W div 8) + (x div 8)) + m)`, where `m` is the 6-bit
Morton interleave of the low 3 bits of `x` and `y`: for `k = 0, 1, 2`, bit `2k`
of `m` is bit `k` of `x` and bit `2k + 1` of `m` is bit `k` of `y`, and `m` has
no other bits. -/
theorem dstPos_is_tiledOffset (W x y : Nat) :
    dstPos W x y = tiledOffset W x y ∧
    morton x y < 64 ∧
    (∀ k, k < 3 → (morton x y).testBit (2 * k) = x.testBit k ∧
      (morton x y).testBit (2 * k + 1) = y.testBit k) := by
  refine ⟨dstPos_eq W x y, morton_lt x y, ?_⟩
  intro k hk
  have hx : (x % 8).testBit k = x.testBit k := by
    have := Nat.testBit_mod_two_pow x 3 k
    simpa [hk] using this
  have hy : (y % 8).testBit k = y.testBit k := by
    have := Nat.testBit_mod_two_pow y 3 k
    simpa [hk] using this
  rw [morton_mod, ← hx, ← hy]
  exact morton_bits_small _ (Nat.mod_lt _ (by decide)) _ (Nat.mod_lt _ (by decide)) k hk

/-! ## Theorems on `GetNextPowerOf2` -/

theorem GetNextPowerOf2_unfold (v : Nat) :
    GetNextPowerOf2 v =
      if (smear ((v + (2 ^ 32 - 1)) % 2 ^ 32) + 1) % 2 ^ 32 ≥ 64 then
        (smear ((v + (2 ^ 32 - 1)) % 2 ^ 32) + 1) % 2 ^ 32
      else 64 := rfl

theorem smear_step (n s m : Nat)
    (h : ∀ i, s.testBit i = true ↔ ∃ j, j < m ∧ n.testBit (i + j) = true) :
    ∀ i, (s ||| (s >>> m)).testBit i = true ↔ ∃ j, j < 2 * m ∧ n.testBit (i + j) = true := by
  intro i
  rw [Nat.testBit_lor, Nat.testBit_shiftRight, Bool.or_eq_true, h, h]
  constructor
  · rintro (⟨j, hj, hb⟩ | ⟨j, hj, hb⟩)
    · exact ⟨j, by omega, hb⟩
    · exact ⟨m + j, by omega, by rwa [show i + (m + j) = m + i + j by omega]⟩
  · rintro ⟨j, hj, hb⟩
    by_cases hjm : j < m
    · exact Or.inl ⟨j, hjm, hb⟩
    · exact Or.inr ⟨j - m, by omega, by rwa [show m + i + (j - m) = i + j by omega]⟩

theorem smear_testBit (n i : Nat) :
    (smear n).testBit i = true ↔ ∃ j, j < 32 ∧ n.testBit (i + j) = true := by
  have h0 : ∀ i, n.testBit i = true ↔ ∃ j, j < 1 ∧ n.testBit (i + j) = true := by
    intro i
    constructor
    · intro h; exact ⟨0, by omega, by simpa using h⟩
    · rintro ⟨j, hj, hb⟩
      have : j = 0 := by omega
      subst this
      simpa using hb
  have h1 := smear_step n _ 1 h0
  have h2 := smear_step n _ 2 h1
  have h3 := smear_step n _ 4 h2
  have h4 := smear_step n _ 8 h3
  have h5 := smear_step n _ 16 h4
  exact h5 i

/-- When `n` has exactly `L` significant bits (`L <= 32`), smearing gives the
`L` low bits all set. -/
theorem smear_eq (n L : Nat) (hL : L ≤ 32) (hlo : L = 0 ∨ 2 ^ (L - 1) ≤ n) (hhi : n < 2 ^ L) :
    smear n = 2 ^ L - 1 := by
  apply Nat.eq_of_testBit_eq
  intro i
  rw [Nat.testBit_two_pow_sub_one]
  by_cases hi : i < L
  · have hL1 : L ≠ 0 := by omega
    have hge : 2 ^ (L - 1) ≤ n := by
      rcases hlo with h | h
      · exact absurd h hL1
      · exact h
    obtain ⟨t, ht, hbit⟩ := Nat.ge_two_pow_implies_high_bit_true hge
    have htL : t < L := by
      by_contra hc
      have hle : 2 ^ L ≤ 2 ^ t := Nat.pow_le_pow_right (by decide) (by omega)
      have := Nat.testBit_lt_two_pow (lt_of_lt_of_le hhi hle)
      rw [this] at hbit
      exact absurd hbit (by decide)
    have : (smear n).testBit i = true :=
      (smear_testBit n i).2 ⟨t - i, by omega, by rwa [show i + (t - i) = t by omega]⟩
    simp [this, hi]
  · have : (smear n).testBit i = false := by
      rw [Bool.eq_false_iff]
      intro hc
      obtain ⟨j, _, hb⟩ := (smear_testBit n i).1 hc
      have hle : 2 ^ L ≤ 2 ^ (i + j) := Nat.pow_le_pow_right (by decide) (by omega)
      have := Nat.testBit_lt_two_pow (lt_of_lt_of_le hhi hle)
      rw [this] at hb
      exact absurd hb (by decide)
    simp [this, hi]

/-- For `1 <= v <= 2^31` the value before the final comparison with 64 is the
least power of two that is `>= v`, given with its exponent. -/
theorem GetNextPowerOf2_core (v : Nat) (h1 : 1 ≤ v) (hv : v ≤ 2 ^ 31) :
    ∃ L, L ≤ 31 ∧ (L = 0 ∨ 2 ^ (L - 1) < v) ∧ v ≤ 2 ^ L ∧
      GetNextPowerOf2 v = if 2 ^ L ≥ 64 then 2 ^ L else 64 := by
  have hdec : (v + (2 ^ 32 - 1)) % 2 ^ 32 = v - 1 := by
    have : v + (2 ^ 32 - 1) = (v - 1) + 2 ^ 32 := by omega
    rw [this, Nat.add_mod_right]
    exact Nat.mod_eq_of_lt (by omega)
  refine ⟨Nat.size (v - 1), ?_, ?_, ?_, ?_⟩
  · exact Nat.size_le.2 (by omega)
  · by_cases hz : Nat.size (v - 1) = 0
    · exact Or.inl hz
    · right
      have : Nat.size (v - 1) - 1 < Nat.size (v - 1) := by omega
      have := Nat.lt_size.1 this
      omega
  · have := Nat.lt_size_self (v - 1)
    omega
  · have hL : Nat.size (v - 1) ≤ 31 := Nat.size_le.2 (by omega)
    have hsm : smear (v - 1) = 2 ^ Nat.size (v - 1) - 1 := by
      apply smear_eq _ _ (by omega) _ (Nat.lt_size_self _)
      by_cases hz : Nat.size (v - 1) = 0
      · exact Or.inl hz
      · right
        have : Nat.size (v - 1) - 1 < Nat.size (v - 1) := by omega
        exact Nat.lt_size.1 this
    have hpos : 0 < 2 ^ Nat.size (v - 1) := Nat.two_pow_pos _
    have hlt : 2 ^ Nat.size (v - 1) ≤ 2 ^ 31 := Nat.pow_le_pow_right (by decide) hL
    have hinc : (smear (v - 1) + 1) % 2 ^ 32 = 2 ^ Nat.size (v - 1) := by
      rw [hsm, Nat.sub_add_cancel hpos]
      exact Nat.mod_eq_of_lt (by omega)
    rw [GetNextPowerOf2_unfold, hdec, hinc]

/-- C13. For every `v <= 2^31`, `GetNextPowerOf2 v` is a power of two, is `>= v`
and `>= 64`, and is the least such power of two; `v = 0` yields 64. For every
dimension below 1024 the result is one of 64, 128, 256, 512, 1024 and is not
smaller than the dimension. -/
theorem GetNextPowerOf2_least (v : Nat) (hv : v ≤ 2 ^ 31) :
    ((∃ k, GetNextPowerOf2 v = 2 ^ k) ∧ v ≤ GetNextPowerOf2 v ∧ 64 ≤ GetNextPowerOf2 v ∧
      ∀ k, v ≤ 2 ^ k → 64 ≤ 2 ^ k → GetNextPowerOf2 v ≤ 2 ^ k) ∧
    GetNextPowerOf2 0 = 64 ∧
    (v < 1024 → GetNextPowerOf2 v ∈ [64, 128, 256, 512, 1024] ∧ v ≤ GetNextPowerOf2 v) := by
  refine ⟨?_, by decide, fun h => ⟨(GetNextPowerOf2_small v h).2, (GetNextPowerOf2_small v h).1⟩⟩
  by_cases h0 : v = 0
  · subst h0
    have : GetNextPowerOf2 0 = 64 := by decide
    rw [this]
    exact ⟨⟨6, by norm_num⟩, by omega, le_refl _, fun k _ hk => hk⟩
  · obtain ⟨L, hL, hlo, hhi, heq⟩ := GetNextPowerOf2_core v (by omega) hv
    rw [heq]
    by_cases h64 : 2 ^ L ≥ 64
    · rw [if_pos h64]
      refine ⟨⟨L, rfl⟩, hhi, h64, ?_⟩
      intro k hk _
      rcases hlo with hz | hlt
      · subst hz
        exact Nat.one_le_two_pow
      · have hlt2 : 2 ^ (L - 1) < 2 ^ k := lt_of_lt_of_le hlt hk
        have hexp : L - 1 < k := (Nat.pow_lt_pow_iff_right (by decide)).1 hlt2
        exact Nat.pow_le_pow_right (by decide) (by omega)
    · rw [if_neg h64]
      exact ⟨⟨6, by norm_num⟩, by omega, le_refl _, fun k _ hk => hk⟩

/-- Witness for C13: `v = 1000`. -/
theorem GetNextPowerOf2_least_witness :
    1000 ≤ 2 ^ 31 ∧
    (((∃ k, GetNextPowerOf2 1000 = 2 ^ k) ∧ 1000 ≤ GetNextPowerOf2 1000 ∧
        64 ≤ GetNextPowerOf2 1000 ∧
        ∀ k, 1000 ≤ 2 ^ k → 64 ≤ 2 ^ k → GetNextPowerOf2 1000 ≤ 2 ^ k) ∧
      GetNextPowerOf2 0 = 64 ∧
      (1000 < 1024 → GetNextPowerOf2 1000 ∈ [64, 128, 256, 512, 1024] ∧
        1000 ≤ GetNextPowerOf2 1000)) :=
  ⟨by decide, GetNextPowerOf2_least 1000 (by decide)⟩

/-! ## Theorems on dispatch and allocation -/

/-- C14. When the file is read without error, `LoadImageFile` returns exactly
what the loader selected by `GetImageType path` returns (BMP, GIF, JPEG or PNG
loader), with the read's effects put in front of the loader's; for the types
WEBP and Other it returns false with the texture untouched and calls no
decoder. When the read fails it returns false, whatever the type, with the
texture untouched and no decoder called. -/
theorem LoadImageFile_dispatch (L : Libs) (p : FileScript) (path : List Char)
    (texture : C2D_Image) :
    ((ReadFile p).ret = 0 →
      (GetImageType L path = ImageType.ImageTypeBMP →
        LoadImageFile L p path texture =
          some { LoadImageBMP L p.data p.size texture with
            effects := (ReadFile p).effects ++ (LoadImageBMP L p.data p.size texture).effects }) ∧
      (GetImageType L path = ImageType.ImageTypeGIF →
        LoadImageFile L p path texture =
          (LoadImageGIF L p.data p.size texture).map
            (fun t => { t with effects := (ReadFile p).effects ++ t.effects })) ∧
      (GetImageType L path = ImageType.ImageTypeJPEG →
        LoadImageFile L p path texture =
          some { LoadImageJPEG L p.data p.size texture with
            effects := (ReadFile p).effects ++ (LoadImageJPEG L p.data p.size texture).effects }) ∧
      (GetImageType L path = ImageType.ImageTypePNG →
        LoadImageFile L p path texture =
          some { LoadImagePNG L p.data p.size texture with
            effects := (ReadFile p).effects ++ (LoadImagePNG L p.data p.size texture).effects }) ∧
      ((GetImageType L path = ImageType.ImageTypeWEBP ∨
          GetImageType L path = ImageType.ImageTypeOther) →
        LoadImageFile L p path texture =
            some { ret := false, texture := texture, effects := (ReadFile p).effects } ∧
          ∀ c, Effect.Lib c ∉ (ReadFile p).effects)) ∧
    ((ReadFile p).ret ≠ 0 →
      LoadImageFile L p path texture =
          some { ret := false, texture := texture, effects := (ReadFile p).effects } ∧
        ∀ c, Effect.Lib c ∉ (ReadFile p).effects) := by
  constructor
  · intro h
    rw [LoadImageFile_of_read L p path texture h]
    refine ⟨?_, ?_, ?_, ?_, ?_⟩
    · intro ht; rw [ht]; rfl
    · intro ht; rw [ht]; rfl
    · intro ht; rw [ht]; rfl
    · intro ht; rw [ht]; rfl
    · intro ht
      refine ⟨?_, ReadFile_no_Lib p⟩
      rcases ht with ht | ht <;> rw [ht] <;> simp [dispatch]
  · intro hne
    refine ⟨?_, ReadFile_no_Lib p⟩
    have hlt : (ReadFile p).ret < 0 := lt_of_le_of_ne (ReadFile_ret_nonpos p) hne
    unfold LoadImageFile
    simp [R_FAILED, hlt]

/-- C19. For non-negative 32-bit `width` and `height`, `BMP::bitmap_create` and
`GIF::bitmap_create` return null exactly when the product `width * height`
(exact in 64 bits) exceeds `MAX_IMAGE_BYTES / 4 = 12582912`; otherwise they ask
`calloc` for `width * height` zeroed elements of 4 bytes, i.e. exactly
`width * height * 4` bytes, and the 32-bit product `width * height` does not
overflow. -/
theorem bitmap_create_cap (width height : Int) (state : Nat)
    (hw0 : 0 ≤ width) (hw : width < 2 ^ 31) (hh0 : 0 ≤ height) (hh : height < 2 ^ 31) :
    MAX_IMAGE_BYTES / 4 = 12582912 ∧
    width * height < 2 ^ 63 ∧
    (BMP.bitmap_create width height state = none ↔ width * height > 12582912) ∧
    (GIF.bitmap_create width height = none ↔ width * height > 12582912) ∧
    (width * height ≤ 12582912 →
      BMP.bitmap_create width height state =
          some { nmemb := (width * height).toNat, size := 4 } ∧
        GIF.bitmap_create width height =
          some { nmemb := (width * height).toNat, size := 4 } ∧
        (width * height).toNat * 4 = (width.toNat * height.toNat * 4) ∧
        width * height < 2 ^ 31) := by
  have hcap : ((MAX_IMAGE_BYTES / BYTES_PER_PIXEL : Nat) : Int) = 12582912 := by decide
  have hprod0 : 0 ≤ width * height := mul_nonneg hw0 hh0
  have hprod : width * height < 2 ^ 63 := by
    have h1 : width * height ≤ (2 ^ 31 - 1) * (2 ^ 31 - 1) :=
      mul_le_mul (by omega) (by omega) hh0 (by norm_num)
    have h2 : ((2 : Int) ^ 31 - 1) * (2 ^ 31 - 1) < 2 ^ 63 := by norm_num
    omega
  refine ⟨by decide, hprod, ?_, ?_, ?_⟩
  · unfold BMP.bitmap_create
    rw [hcap]
    by_cases hc : width * height > 12582912 <;> simp [hc]
  · unfold GIF.bitmap_create
    rw [hcap]
    by_cases hc : width * height > 12582912 <;> simp [hc]
  · intro hle
    have hmod : (width * height) % 2 ^ 32 = width * height :=
      Int.emod_eq_of_lt hprod0 (by omega)
    have hnot : ¬ (width * height > 12582912) := by omega
    refine ⟨?_, ?_, ?_, by omega⟩
    · unfold BMP.bitmap_create
      rw [hcap, if_neg hnot, hmod]
      rfl
    · unfold GIF.bitmap_create
      rw [hcap, if_neg hnot, hmod]
      rfl
    · obtain ⟨a, rfl⟩ := Int.eq_ofNat_of_zero_le hw0
      obtain ⟨b, rfl⟩ := Int.eq_ofNat_of_zero_le hh0
      have e : ((a : Int) * (b : Int)).toNat = a * b := by
        rw [← Nat.cast_mul]
        exact Int.toNat_natCast _
      simp only [Int.toNat_natCast, e]

/-- Witness for C19: a 4096 x 3072 bitmap, which is exactly at the cap. -/
theorem bitmap_create_cap_witness :
    (0 : Int) ≤ 4096 ∧ (4096 : Int) < 2 ^ 31 ∧ (0 : Int) ≤ 3072 ∧ (3072 : Int) < 2 ^ 31 ∧
    (MAX_IMAGE_BYTES / 4 = 12582912 ∧
      (4096 : Int) * 3072 < 2 ^ 63 ∧
      (BMP.bitmap_create 4096 3072 0 = none ↔ (4096 : Int) * 3072 > 12582912) ∧
      (GIF.bitmap_create 4096 3072 = none ↔ (4096 : Int) * 3072 > 12582912) ∧
      ((4096 : Int) * 3072 ≤ 12582912 →
        BMP.bitmap_create 4096 3072 0 =
            some { nmemb := ((4096 : Int) * 3072).toNat, size := 4 } ∧
          GIF.bitmap_create 4096 3072 =
            some { nmemb := ((4096 : Int) * 3072).toNat, size := 4 } ∧
          ((4096 : Int) * 3072).toNat * 4 = ((4096 : Int).toNat * (3072 : Int).toNat * 4) ∧
          (4096 : Int) * 3072 < 2 ^ 31)) :=
  ⟨by decide, by decide, by decide, by decide,
    bitmap_create_cap 4096 3072 0 (by decide) (by decide) (by decide) (by decide)⟩

/-! ## Theorems on failed and repeated listings -/

/-- C16. When a directory read fails after the reads `pre` (which all succeeded
and yielded an entry), `updateList` returns the failing code and leaves the
store partially filled: the list is the synthesized `..` entry (if `cwd` is not
the root) followed by the visible entries among `pre`, in enumeration order,
`fileCount` is the length of that list, and `position` is as before the call.
When opening the directory fails, the list is empty, `fileCount` is 0 and
`position` is as before the call. -/
theorem updateList_partial_fill (env : Env) (p : DirScript) (clearindex : Int) (g : Globals) :
    (∀ pre s post, p.reads = pre ++ s :: post → 0 ≤ p.openRet →
      (∀ r ∈ pre, 0 ≤ r.ret ∧ r.entriesRead ≠ 0) → s.ret < 0 →
      ∃ out, updateList env p clearindex g = some out ∧ out.ret = s.ret ∧
        out.g.files =
          (if g.cwd ≠ env.ROOT_PATH then [dotdot] else []) ++
            ((pre.map (fun r => r.entries)).filter
              (visible env g.isHiddenEnabled)).map (entryOf env) ∧
        out.g.fileCount = (out.g.files.length : Int) ∧
        out.g.position = g.position) ∧
    (p.openRet < 0 →
      ∃ out, updateList env p clearindex g = some out ∧ out.ret = p.openRet ∧
        out.g.files = [] ∧ out.g.fileCount = 0 ∧ out.g.position = g.position) := by
  constructor
  · intro pre s post hsplit ho hpre hs
    have hrun : ∀ r ∈ pre, running r = true := by
      intro r hr
      have := hpre r hr
      simp [running, R_SUCCEEDED, this.1, this.2]
    have hstop : running s = false := by
      have : ¬ (0 ≤ s.ret) := by omega
      simp [running, R_SUCCEEDED, this]
    obtain ⟨htake, hdrop⟩ := split_unique p.reads pre s post hsplit hrun hstop
    rw [updateList_eq]
    simp only [hdrop, htake, not_lt.2 ho, hs, if_false, if_true]
    exact ⟨_, rfl, rfl, rfl, rfl, rfl⟩
  · intro ho
    rw [updateList_eq]
    simp only [ho, if_true]
    exact ⟨_, rfl, rfl, rfl, rfl, rfl⟩

/-- An instance of C16: the sample directory with a read failing with `-5` after
the item `a`; the selection stays on row 5 although the list has 2 rows. -/
theorem updateList_partial_fill_example :
    (updateList sampleEnv failingScript 0 sampleGlobals).map
        (fun o => (o.ret, o.g.files, o.g.fileCount, o.g.position)) =
      some (-5, [dotdot, sampleFile 'a' 0 0], 2, 5) := by
  decide

/-- C17, counterexample. Listing the empty root with `clearindex = 0` and the
selection on row 0 leaves `position = -1`; listing the root again with
`clearindex = 0` once it holds two visible items succeeds with `fileCount = 2`
and `position` still `-1`. -/
theorem updateList_position_negative :
    (updateList sampleEnv emptyScript 0 rootGlobals).map
        (fun o => (o.ret, o.g.position, o.g.fileCount)) = some (0, -1, 0) ∧
    ((updateList sampleEnv emptyScript 0 rootGlobals).bind
        (fun o => updateList sampleEnv sampleScript 0 o.g)).map
        (fun o => (o.ret, o.g.position, o.g.fileCount, o.g.files.length)) =
      some (0, -1, 2, 2) := by
  decide

/-- C17, amended. After a successful `updateList` that leaves a non-empty list:
when `clearindex` is non-zero or the prior `position` is not negative,
`0 <= position < fileCount`; a negative prior `position` with `clearindex`
zero is kept as it is. -/
theorem updateList_position_in_range (env : Env) (p : DirScript) (clearindex : Int)
    (g : Globals) (out : Outcome)
    (h : updateList env p clearindex g = some out) (h0 : out.ret = 0)
    (hne : out.g.files ≠ []) :
    ((clearindex ≠ 0 ∨ 0 ≤ g.position) →
      0 ≤ out.g.position ∧ out.g.position < out.g.fileCount) ∧
    (clearindex = 0 → g.position < 0 → out.g.position = g.position) := by
  obtain ⟨s, t, _, _, _, _, hout⟩ := updateList_success env p clearindex g out h h0
  subst hout
  simp only at hne ⊢
  have hlen : 0 < ((listing env g.cwd g.isHiddenEnabled (enumerated p.reads)).length : Int) := by
    have := List.length_pos.2 hne
    omega
  unfold clampPosition
  constructor
  · intro hc
    by_cases hci : clearindex = 0
    · have hp : 0 ≤ g.position := by
        rcases hc with hc | hc
        · exact absurd hci hc
        · exact hc
      simp only [hci, ne_eq, not_true_eq_false, if_false]
      split <;> omega
    · simp only [ne_eq, hci, not_false_eq_true, if_true]
      omega
  · intro hci hneg
    simp only [hci, ne_eq, not_true_eq_false, if_false]
    rw [if_pos (by omega)]

/-- Witness for C17 (amended): the sample directory, selection on row 5 before. -/
theorem updateList_position_in_range_witness :
    updateList sampleEnv sampleScript 0 sampleGlobals = some sampleOutcome ∧
    sampleOutcome.ret = 0 ∧ sampleOutcome.g.files ≠ [] ∧
    ((((0 : Int) ≠ 0 ∨ 0 ≤ sampleGlobals.position) →
        0 ≤ sampleOutcome.g.position ∧
          sampleOutcome.g.position < sampleOutcome.g.fileCount) ∧
      ((0 : Int) = 0 → sampleGlobals.position < 0 →
        sampleOutcome.g.position = sampleGlobals.position)) :=
  ⟨by decide, by decide, by decide,
    updateList_position_in_range sampleEnv sampleScript 0 sampleGlobals sampleOutcome
      (by decide) (by decide) (by decide)⟩

/-! ## Theorems on tile offsets: injectivity and bounds -/

theorem tile_index_inj (q a b c d : Nat) (hb : b < q) (hd : d < q)
    (h : a * q + b = c * q + d) : a = c ∧ b = d := by
  have hq : 0 < q := by omega
  have h1 : (a * q + b) / q = a := by
    rw [Nat.add_comm, Nat.add_mul_div_right _ _ hq, Nat.div_eq_of_lt hb, Nat.zero_add]
  have h2 : (c * q + d) / q = c := by
    rw [Nat.add_comm, Nat.add_mul_div_right _ _ hq, Nat.div_eq_of_lt hd, Nat.zero_add]
  have hac : a = c := by rw [← h1, ← h2, h]
  subst hac
  exact ⟨rfl, by omega⟩

theorem morton_decode_small : ∀ a, a < 8 → ∀ b, b < 8 →
    a = morton a b % 2 + 2 * (morton a b / 4 % 2) + 4 * (morton a b / 16 % 2) ∧
      b = morton a b / 2 % 2 + 2 * (morton a b / 8 % 2) + 4 * (morton a b / 32 % 2) := by
  decide

theorem morton_decode (x y : Nat) :
    x % 8 = morton x y % 2 + 2 * (morton x y / 4 % 2) + 4 * (morton x y / 16 % 2) ∧
      y % 8 = morton x y / 2 % 2 + 2 * (morton x y / 8 % 2) + 4 * (morton x y / 32 % 2) := by
  rw [morton_mod]
  exact morton_decode_small _ (Nat.mod_lt _ (by decide)) _ (Nat.mod_lt _ (by decide))

theorem morton_inj (x1 y1 x2 y2 : Nat) (h : morton x1 y1 = morton x2 y2) :
    x1 % 8 = x2 % 8 ∧ y1 % 8 = y2 % 8 := by
  have h1 := morton_decode x1 y1
  have h2 := morton_decode x2 y2
  rw [h] at h1
  exact ⟨h1.1.trans h2.1.symm, h1.2.trans h2.2.symm⟩

/-- Distinct coordinates get distinct offsets, for a padded width that is a
multiple of 8 and columns inside it. -/
theorem dstPos_inj (W x1 y1 x2 y2 : Nat) (hW : W % 8 = 0) (hx1 : x1 < W) (hx2 : x2 < W)
    (h : dstPos W x1 y1 = dstPos W x2 y2) : x1 = x2 ∧ y1 = y2 := by
  rw [dstPos_eq, dstPos_eq] at h
  have hm1 := morton_lt x1 y1
  have hm2 := morton_lt x2 y2
  have hidx : (y1 / 8) * (W / 8) + x1 / 8 = (y2 / 8) * (W / 8) + x2 / 8 := by omega
  have hmor : morton x1 y1 = morton x2 y2 := by omega
  obtain ⟨hy8, hx8⟩ := tile_index_inj (W / 8) _ _ _ _ (by omega) (by omega) hidx
  obtain ⟨hxm, hym⟩ := morton_inj x1 y1 x2 y2 hmor
  constructor <;> omega

theorem dstPos_bound (W H x y : Nat) (hW : W % 8 = 0) (hH : H % 8 = 0) (hx : x < W)
    (hy : y < H) : dstPos W x y + 4 ≤ 4 * W * H := by
  rw [dstPos_eq]
  have hm := morton_lt x y
  have ha : y / 8 + 1 ≤ H / 8 := by omega
  have hb : x / 8 + 1 ≤ W / 8 := by omega
  have h1 : (y / 8 + 1) * (W / 8) ≤ (H / 8) * (W / 8) := Nat.mul_le_mul_right _ ha
  have h2 : (y / 8) * (W / 8) + x / 8 + 1 ≤ (H / 8) * (W / 8) := by
    have : (y / 8 + 1) * (W / 8) = (y / 8) * (W / 8) + W / 8 := by ring
    omega
  have hWH : W * H = 64 * ((H / 8) * (W / 8)) := by
    have e1 : W = 8 * (W / 8) := by omega
    have e2 : H = 8 * (H / 8) := by omega
    conv_lhs => rw [e1, e2]
    ring
  have : 4 * W * H = 4 * (W * H) := by ring
  rw [this, hWH]
  omega

theorem GetNextPowerOf2_mod8 (w : Nat) (hw : w < 1024) : GetNextPowerOf2 w % 8 = 0 := by
  have h := (GetNextPowerOf2_small w hw).2
  simp only [List.mem_cons, List.mem_singleton, List.not_mem_nil, or_false] at h
  omega

theorem GetNextPowerOf2_le (w : Nat) (hw : w < 1024) : GetNextPowerOf2 w ≤ 1024 := by
  have h := (GetNextPowerOf2_small w hw).2
  simp only [List.mem_cons, List.mem_singleton, List.not_mem_nil, or_false] at h
  omega

theorem srcPos_bound (w h x y : Nat) (hx : x < w) (hy : y < h) :
    srcPos w x y + 3 < 4 * w * h := by
  unfold srcPos BYTES_PER_PIXEL
  have h1 : (y + 1) * w ≤ h * w := Nat.mul_le_mul_right _ (by omega)
  have h2 : (y + 1) * w = y * w + w := by ring
  have h3 : 4 * w * h = 4 * (h * w) := by ring
  rw [h3]
  omega

/-- C18. For every width `w < 1024` with padded width `W = GetNextPowerOf2 w`,
two distinct coordinates `(x1, y1)` and `(x2, y2)` with `x1, x2 < w` get
destination offsets that differ by at least 4 bytes. -/
theorem dstPos_no_collision (w x1 y1 x2 y2 : Nat) (hw : w < 1024)
    (hx1 : x1 < w) (hx2 : x2 < w) (hne : (x1, y1) ≠ (x2, y2)) :
    dstPos (GetNextPowerOf2 w) x1 y1 + 4 ≤ dstPos (GetNextPowerOf2 w) x2 y2 ∨
      dstPos (GetNextPowerOf2 w) x2 y2 + 4 ≤ dstPos (GetNextPowerOf2 w) x1 y1 := by
  have hle := (GetNextPowerOf2_small w hw).1
  have hdiff : dstPos (GetNextPowerOf2 w) x1 y1 ≠ dstPos (GetNextPowerOf2 w) x2 y2 := by
    intro h
    obtain ⟨hx, hy⟩ := dstPos_inj _ x1 y1 x2 y2 (GetNextPowerOf2_mod8 w hw) (by omega)
      (by omega) h
    exact hne (by rw [hx, hy])
  rw [dstPos_eq, dstPos_eq] at hdiff ⊢
  omega

/-- Witness for C18: two neighbouring pixels of a 100-pixel-wide image. -/
theorem dstPos_no_collision_witness :
    100 < 1024 ∧ 7 < 100 ∧ 8 < 100 ∧ ((7, 3) : Nat × Nat) ≠ (8, 3) ∧
    (dstPos (GetNextPowerOf2 100) 7 3 + 4 ≤ dstPos (GetNextPowerOf2 100) 8 3 ∨
      dstPos (GetNextPowerOf2 100) 8 3 + 4 ≤ dstPos (GetNextPowerOf2 100) 7 3) :=
  ⟨by decide, by decide, by decide, by decide,
    dstPos_no_collision 100 7 3 8 3 (by decide) (by decide) (by decide) (by decide)⟩

/-- C20. For `w < 1024`, `h < 1024` and a pixel `(x, y)` with `x < w` and
`y < h`, the 4-byte write of the tiling loop lies inside the padded texture
buffer, `dst_pos + 4 <= 4 * P(w) * P(h)`, and the last byte read from the source,
`src_pos + 3`, is below `4 * w * h`. The buffer size is at most `2^22`, so the
`u32` index arithmetic does not wrap. -/
theorem tile_access_in_bounds (w h x y : Nat) (hw : w < 1024) (hh : h < 1024)
    (hx : x < w) (hy : y < h) :
    dstPos (GetNextPowerOf2 w) x y + 4 ≤ 4 * GetNextPowerOf2 w * GetNextPowerOf2 h ∧
    (y * w + x) * 4 + 3 < 4 * w * h ∧
    srcPos w x y = (y * w + x) * 4 ∧
    4 * GetNextPowerOf2 w * GetNextPowerOf2 h ≤ 2 ^ 22 := by
  have hlw := (GetNextPowerOf2_small w hw).1
  have hlh := (GetNextPowerOf2_small h hh).1
  refine ⟨?_, srcPos_bound w h x y hx hy, rfl, ?_⟩
  · exact dstPos_bound _ _ x y (GetNextPowerOf2_mod8 w hw) (GetNextPowerOf2_mod8 h hh)
      (by omega) (by omega)
  · have h1 := GetNextPowerOf2_le w hw
    have h2 := GetNextPowerOf2_le h hh
    have : GetNextPowerOf2 w * GetNextPowerOf2 h ≤ 1024 * 1024 := Nat.mul_le_mul h1 h2
    have e : 4 * GetNextPowerOf2 w * GetNextPowerOf2 h =
        4 * (GetNextPowerOf2 w * GetNextPowerOf2 h) := by ring
    rw [e]
    norm_num
    omega

/-- Witness for C20: the last pixel of a 100 x 70 image. -/
theorem tile_access_in_bounds_witness :
    100 < 1024 ∧ 70 < 1024 ∧ 99 < 100 ∧ 69 < 70 ∧
    (dstPos (GetNextPowerOf2 100) 99 69 + 4 ≤ 4 * GetNextPowerOf2 100 * GetNextPowerOf2 70 ∧
      (69 * 100 + 99) * 4 + 3 < 4 * 100 * 70 ∧
      srcPos 100 99 69 = (69 * 100 + 99) * 4 ∧
      4 * GetNextPowerOf2 100 * GetNextPowerOf2 70 ≤ 2 ^ 22) :=
  ⟨by decide, by decide, by decide, by decide,
    tile_access_in_bounds 100 70 99 69 (by decide) (by decide) (by decide) (by decide)⟩

/-! ## Theorems on the pixel loops -/

theorem foldl_product {α β γ : Type} (g : γ → α → β → γ) (l1 : List α) (l2 : List β) (d : γ) :
    l1.foldl (fun b x => l2.foldl (fun b1 y => g b1 x y) b) d =
      (l1.product l2).foldl (fun b p => g b p.1 p.2) d := by
  induction l1 generalizing d with
  | nil => rfl
  | cons a l ih =>
    rw [List.foldl_cons, ih]
    have : List.product (a :: l) l2 = l2.map (fun b => (a, b)) ++ List.product l l2 :=
      List.product_cons a l l2
    rw [this, List.foldl_append, List.foldl_map]

theorem foldl_length {α : Type} (upd : List Nat → α → List Nat)
    (hlen : ∀ b a, (upd b a).length = b.length) (ps : List α) (b : List Nat) :
    (ps.foldl upd b).length = b.length := by
  induction ps generalizing b with
  | nil => rfl
  | cons a l ih => rw [List.foldl_cons, ih, hlen]

/-- Bytes outside every 4-byte block written by a fold are unchanged. -/
theorem foldl_frame {α : Type} (upd : List Nat → α → List Nat) (off : α → Nat)
    (hupd : ∀ b a i, (∀ k, k < 4 → i ≠ off a + k) → (upd b a)[i]? = b[i]?)
    (ps : List α) (b : List Nat) (i : Nat)
    (h : ∀ a ∈ ps, ∀ k, k < 4 → i ≠ off a + k) :
    (ps.foldl upd b)[i]? = b[i]? := by
  induction ps generalizing b with
  | nil => rfl
  | cons a l ih =>
    rw [List.foldl_cons, ih _ (fun c hc => h c (List.mem_cons_of_mem _ hc)),
      hupd _ _ _ (h a (List.mem_cons_self _ _))]

theorem memcpy4_length (d src : List Nat) (dp sp : Nat) :
    (memcpy4 d src dp sp).length = d.length := by
  simp [memcpy4]

theorem memcpy4_frame (d src : List Nat) (dp sp i : Nat) (h : ∀ k, k < 4 → i ≠ dp + k) :
    (memcpy4 d src dp sp)[i]? = d[i]? := by
  have h0 := h 0 (by omega)
  have h1 := h 1 (by omega)
  have h2 := h 2 (by omega)
  have h3 := h 3 (by omega)
  unfold memcpy4
  rw [List.getElem?_set_ne (by omega), List.getElem?_set_ne (by omega),
    List.getElem?_set_ne (by omega), List.getElem?_set_ne (by omega)]

theorem memcpy4_written (d src : List Nat) (dp sp k : Nat) (hk : k < 4)
    (hin : dp + 4 ≤ d.length) :
    (memcpy4 d src dp sp)[dp + k]? = some (src.getD (sp + k) 0) := by
  unfold memcpy4
  interval_cases k <;> simp [List.getElem?_set] <;> omega

theorem swapPixel_length (b : List Nat) (z : Nat) : (swapPixel b z).length = b.length := by
  simp [swapPixel]

theorem swapPixel_frame (b : List Nat) (z i : Nat) (h : ∀ k, k < 4 → i ≠ z + k) :
    (swapPixel b z)[i]? = b[i]? := by
  have h0 := h 0 (by omega)
  have h1 := h 1 (by omega)
  have h2 := h 2 (by omega)
  have h3 := h 3 (by omega)
  unfold swapPixel
  simp only
  rw [List.getElem?_set_ne (by omega), List.getElem?_set_ne (by omega),
    List.getElem?_set_ne (by omega), List.getElem?_set_ne (by omega)]

theorem getD_of_lt (b : List Nat) (i : Nat) (h : i < b.length) : b[i]? = some (b.getD i 0) := by
  rw [List.getD_eq_getElem?_getD, List.getElem?_eq_getElem h]
  rfl

theorem swapPixel_written (b : List Nat) (z k : Nat) (hk : k < 4) (hin : z + 4 ≤ b.length) :
    (swapPixel b z)[z + k]? = b[z + (3 - k)]? := by
  rw [getD_of_lt b (z + (3 - k)) (by omega)]
  unfold swapPixel
  interval_cases k <;> simp [List.getElem?_set] <;> omega

/-- A fold of `memcpy4` over pairwise disjoint, in-bounds destination blocks
leaves in each block the four source bytes copied to it. -/
theorem foldl_memcpy4_written {α : Type} (src : List Nat) (D S : α → Nat) (ps : List α)
    (d : List Nat)
    (hpw : ps.Pairwise (fun a b => D a + 4 ≤ D b ∨ D b + 4 ≤ D a))
    (hin : ∀ a ∈ ps, D a + 4 ≤ d.length) (a : α) (ha : a ∈ ps) (k : Nat) (hk : k < 4) :
    (ps.foldl (fun b c => memcpy4 b src (D c) (S c)) d)[D a + k]? =
      some (src.getD (S a + k) 0) := by
  induction ps generalizing d with
  | nil => simp at ha
  | cons c l ih =>
    rw [List.pairwise_cons] at hpw
    rw [List.foldl_cons]
    rcases List.mem_cons.1 ha with hac | hal
    · subst hac
      rw [foldl_frame (fun b c => memcpy4 b src (D c) (S c)) D
        (fun b c i h => memcpy4_frame b src (D c) (S c) i h)]
      · exact memcpy4_written d src (D a) (S a) k hk (hin a (List.mem_cons_self _ _))
      · intro e he j hj
        have := hpw.1 e he
        omega
    · apply ih _ hpw.2 _ hal
      intro e he
      rw [memcpy4_length]
      exact hin e (List.mem_cons_of_mem _ he)

/-- A fold of `swapPixel` over pairwise disjoint, in-bounds blocks leaves each
block reversed. -/
theorem foldl_swapPixel_written {α : Type} (Z : α → Nat) (ps : List α) (b : List Nat)
    (hpw : ps.Pairwise (fun a c => Z a + 4 ≤ Z c ∨ Z c + 4 ≤ Z a))
    (hin : ∀ a ∈ ps, Z a + 4 ≤ b.length) (a : α) (ha : a ∈ ps) (k : Nat) (hk : k < 4) :
    (ps.foldl (fun b1 c => swapPixel b1 (Z c)) b)[Z a + k]? = b[Z a + (3 - k)]? := by
  induction ps generalizing b with
  | nil => simp at ha
  | cons c l ih =>
    rw [List.pairwise_cons] at hpw
    rw [List.foldl_cons]
    rcases List.mem_cons.1 ha with hac | hal
    · subst hac
      rw [foldl_frame (fun b1 c => swapPixel b1 (Z c)) Z
        (fun b1 c i h => swapPixel_frame b1 (Z c) i h)]
      · exact swapPixel_written b (Z a) k hk (hin a (List.mem_cons_self _ _))
      · intro e he j hj
        have := hpw.1 e he
        omega
    · rw [ih _ hpw.2 _ hal]
      · apply swapPixel_frame
        intro j hj
        have := hpw.1 a hal
        omega
      · intro e he
        rw [swapPixel_length]
        exact hin e (List.mem_cons_of_mem _ he)

theorem swapLoop_eq (w h : Nat) (buf : List Nat) :
    swapLoop w h buf =
      ((List.range w).product (List.range h)).foldl
        (fun b p => swapPixel b ((p.1 + p.2 * w) * BYTES_PER_PIXEL)) buf :=
  foldl_product (fun b x y => swapPixel b ((x + y * w) * BYTES_PER_PIXEL)) _ _ _

theorem tileLoop_eq (w h W : Nat) (buf data : List Nat) :
    tileLoop w h W buf data =
      ((List.range w).product (List.range h)).foldl
        (fun d p => memcpy4 d buf (dstPos W p.1 p.2) (srcPos w p.1 p.2)) data :=
  foldl_product (fun d x y => memcpy4 d buf (dstPos W x y) (srcPos w x y)) _ _ _

theorem mem_pixels (w h : Nat) (p : Nat × Nat) :
    p ∈ (List.range w).product (List.range h) ↔ p.1 < w ∧ p.2 < h := by
  obtain ⟨x, y⟩ := p
  have : (x, y) ∈ (List.range w).product (List.range h) ↔
      x ∈ List.range w ∧ y ∈ List.range h := List.mem_product
  rw [this, List.mem_range, List.mem_range]

theorem pixels_pairwise (w h : Nat) (off : Nat × Nat → Nat)
    (hoff : ∀ p q : Nat × Nat, p.1 < w → q.1 < w → p ≠ q →
      off p + 4 ≤ off q ∨ off q + 4 ≤ off p) :
    ((List.range w).product (List.range h)).Pairwise
      (fun a c => off a + 4 ≤ off c ∨ off c + 4 ≤ off a) := by
  have hnd : ((List.range w).product (List.range h)).Nodup :=
    List.Nodup.product (List.nodup_range w) (List.nodup_range h)
  refine List.Pairwise.imp_of_mem ?_ hnd
  intro a c ha hc hne
  exact hoff a c ((mem_pixels w h a).1 ha).1 ((mem_pixels w h c).1 hc).1 hne

theorem srcBlocks_disjoint (w : Nat) (p q : Nat × Nat) (hp : p.1 < w) (hq : q.1 < w)
    (hne : p ≠ q) :
    (p.1 + p.2 * w) * BYTES_PER_PIXEL + 4 ≤ (q.1 + q.2 * w) * BYTES_PER_PIXEL ∨
      (q.1 + q.2 * w) * BYTES_PER_PIXEL + 4 ≤ (p.1 + p.2 * w) * BYTES_PER_PIXEL := by
  have hd : p.1 + p.2 * w ≠ q.1 + q.2 * w := by
    intro he
    have he2 : p.2 * w + p.1 = q.2 * w + q.1 := by omega
    obtain ⟨h2, h1⟩ := tile_index_inj w _ _ _ _ hp hq he2
    exact hne (Prod.ext h1 h2)
  unfold BYTES_PER_PIXEL
  omega

theorem dstBlocks_disjoint (W w : Nat) (hW : W % 8 = 0) (hle : w ≤ W) (p q : Nat × Nat)
    (hp : p.1 < w) (hq : q.1 < w) (hne : p ≠ q) :
    dstPos W p.1 p.2 + 4 ≤ dstPos W q.1 q.2 ∨ dstPos W q.1 q.2 + 4 ≤ dstPos W p.1 p.2 := by
  have hd : dstPos W p.1 p.2 ≠ dstPos W q.1 q.2 := by
    intro he
    obtain ⟨h1, h2⟩ := dstPos_inj W _ _ _ _ hW (by omega) (by omega) he
    exact hne (Prod.ext h1 h2)
  rw [dstPos_eq, dstPos_eq] at hd ⊢
  omega

/-- What `swapLoop` leaves in a full `w * h * 4`-byte buffer: every pixel's four
bytes reversed. -/
theorem swapLoop_written (w h : Nat) (buf : List Nat) (hlen : buf.length = 4 * w * h)
    (x y k : Nat) (hx : x < w) (hy : y < h) (hk : k < 4) :
    (swapLoop w h buf)[srcPos w x y + k]? = buf[srcPos w x y + (3 - k)]? := by
  have hs : srcPos w x y = (fun p : Nat × Nat => (p.1 + p.2 * w) * BYTES_PER_PIXEL) (x, y) := by
    simp only [srcPos]
    ring
  rw [hs, swapLoop_eq]
  apply foldl_swapPixel_written (fun p : Nat × Nat => (p.1 + p.2 * w) * BYTES_PER_PIXEL)
  · exact pixels_pairwise w h _ (fun p q hp hq hne => srcBlocks_disjoint w p q hp hq hne)
  · intro a ha
    obtain ⟨ha1, ha2⟩ := (mem_pixels w h a).1 ha
    have := srcPos_bound w h a.1 a.2 ha1 ha2
    have e : srcPos w a.1 a.2 = (a.1 + a.2 * w) * BYTES_PER_PIXEL := by
      simp only [srcPos]
      ring
    show (a.1 + a.2 * w) * BYTES_PER_PIXEL + 4 ≤ buf.length
    omega
  · exact (mem_pixels w h (x, y)).2 ⟨hx, hy⟩
  · exact hk

theorem swapLoop_length (w h : Nat) (buf : List Nat) :
    (swapLoop w h buf).length = buf.length := by
  rw [swapLoop_eq]
  exact foldl_length _ (fun b a => swapPixel_length b _) _ _

theorem tileLoop_length (w h W : Nat) (buf data : List Nat) :
    (tileLoop w h W buf data).length = data.length := by
  rw [tileLoop_eq]
  exact foldl_length _ (fun b a => memcpy4_length b _ _ _) _ _

theorem tileLoop_written (w h W : Nat) (buf data : List Nat) (hW8 : W % 8 = 0) (hwW : w ≤ W)
    (hin : ∀ x y, x < w → y < h → dstPos W x y + 4 ≤ data.length)
    (x y k : Nat) (hx : x < w) (hy : y < h) (hk : k < 4) :
    (tileLoop w h W buf data)[dstPos W x y + k]? = some (buf.getD (srcPos w x y + k) 0) := by
  rw [tileLoop_eq]
  exact foldl_memcpy4_written buf (fun p : Nat × Nat => dstPos W p.1 p.2)
    (fun p : Nat × Nat => srcPos w p.1 p.2) _ data
    (pixels_pairwise w h _ (fun p q hp hq hne => dstBlocks_disjoint W w hW8 hwW p q hp hq hne))
    (fun a ha => hin a.1 a.2 ((mem_pixels w h a).1 ha).1 ((mem_pixels w h a).1 ha).2)
    (x, y) ((mem_pixels w h (x, y)).2 ⟨hx, hy⟩) k hk

theorem tileLoop_frame (w h W : Nat) (buf data : List Nat) (i : Nat)
    (hout : ∀ x y k, x < w → y < h → k < 4 → i ≠ dstPos W x y + k) :
    (tileLoop w h W buf data)[i]? = data[i]? := by
  rw [tileLoop_eq]
  exact foldl_frame (fun d (p : Nat × Nat) => memcpy4 d buf (dstPos W p.1 p.2) (srcPos w p.1 p.2))
    (fun p : Nat × Nat => dstPos W p.1 p.2)
    (fun b c j hj => memcpy4_frame b _ _ _ j hj) _ data i
    (fun a ha k hk => hout a.1 a.2 k ((mem_pixels w h a).1 ha).1 ((mem_pixels w h a).1 ha).2 hk)

/-- The texture `C3DTexToC2DImage` hands back when the guard passes. -/
theorem C3DTexToC2DImage_tex (texture : C2D_Image) (w h : Nat) (buf : List Nat)
    (hw : w < 1024) (hh : h < 1024) :
    (C3DTexToC2DImage texture w h buf).texture.tex =
      some { width := GetNextPowerOf2 w, height := GetNextPowerOf2 h
             data := tileLoop w h (GetNextPowerOf2 w) (swapLoop w h buf)
               (List.replicate (GetNextPowerOf2 w * GetNextPowerOf2 h * BYTES_PER_PIXEL) 0)
             border := TRANSPARENT_COLOR } := by
  have hg : ¬ (w ≥ 1024 ∨ h ≥ 1024) := by omega
  have hwm : w % 2 ^ 16 = w := Nat.mod_eq_of_lt (by omega)
  have hhm : h % 2 ^ 16 = h := Nat.mod_eq_of_lt (by omega)
  have hWle := GetNextPowerOf2_le w hw
  have hHle := GetNextPowerOf2_le h hh
  have hWm : GetNextPowerOf2 w % 2 ^ 16 = GetNextPowerOf2 w := Nat.mod_eq_of_lt (by omega)
  have hHm : GetNextPowerOf2 h % 2 ^ 16 = GetNextPowerOf2 h := Nat.mod_eq_of_lt (by omega)
  unfold C3DTexToC2DImage
  simp only [hg, if_false, hwm, hhm, hWm, hHm]

/-- C12. For a source RGBA buffer of `w * h` pixels with `w < 1024` and
`h < 1024`, `C3DTexToC2DImage` leaves a texture of `4 * P(w) * P(h)` bytes in
which, for every pixel `(x, y)` with `x < w`, `y < h` and every `k` in `0..3`,
the byte at the tiled offset of `(x, y)` plus `k` is the original source byte at
`4 * (y * w + x) + (3 - k)` (R, G, B, A stored as A, B, G, R), and every byte not
at such an offset is 0. -/
theorem C3DTexToC2DImage_pixels (texture : C2D_Image) (w h : Nat) (buf : List Nat)
    (hw : w < 1024) (hh : h < 1024) (hlen : buf.length = 4 * w * h) :
    ∃ tex, (C3DTexToC2DImage texture w h buf).texture.tex = some tex ∧
      tex.width = GetNextPowerOf2 w ∧ tex.height = GetNextPowerOf2 h ∧
      tex.data.length = 4 * GetNextPowerOf2 w * GetNextPowerOf2 h ∧
      (∀ x y k, x < w → y < h → k < 4 →
        ∃ v, buf[4 * (y * w + x) + (3 - k)]? = some v ∧
          tex.data[tiledOffset (GetNextPowerOf2 w) x y + k]? = some v ∧
          tiledOffset (GetNextPowerOf2 w) x y = dstPos (GetNextPowerOf2 w) x y) ∧
      (∀ i, i < tex.data.length →
        (∀ x y k, x < w → y < h → k < 4 → i ≠ tiledOffset (GetNextPowerOf2 w) x y + k) →
        tex.data[i]? = some 0) := by
  have hW8 := GetNextPowerOf2_mod8 w hw
  have hH8 := GetNextPowerOf2_mod8 h hh
  have hwW := (GetNextPowerOf2_small w hw).1
  have hhH := (GetNextPowerOf2_small h hh).1
  have hdlen : (tileLoop w h (GetNextPowerOf2 w) (swapLoop w h buf)
      (List.replicate (GetNextPowerOf2 w * GetNextPowerOf2 h * BYTES_PER_PIXEL) 0)).length =
      4 * GetNextPowerOf2 w * GetNextPowerOf2 h := by
    rw [tileLoop_length, List.length_replicate, BYTES_PER_PIXEL]
    ring
  refine ⟨_, C3DTexToC2DImage_tex texture w h buf hw hh, rfl, rfl, hdlen, ?_, ?_⟩
  · intro x y k hx hy hk
    have hsb := srcPos_bound w h x y hx hy
    have hsrc : srcPos w x y = 4 * (y * w + x) := by
      simp only [srcPos, BYTES_PER_PIXEL]
      ring
    have hte : tiledOffset (GetNextPowerOf2 w) x y = dstPos (GetNextPowerOf2 w) x y :=
      (dstPos_eq _ x y).symm
    refine ⟨buf.getD (4 * (y * w + x) + (3 - k)) 0, getD_of_lt _ _ (by omega), ?_, hte⟩
    rw [hte]
    show (tileLoop w h (GetNextPowerOf2 w) (swapLoop w h buf) _)[_]? = _
    rw [tileLoop_written w h _ _ _ hW8 hwW _ x y k hx hy hk]
    · congr 1
      have hsw := swapLoop_written w h buf hlen x y k hx hy hk
      rw [List.getD_eq_getElem?_getD, hsw, ← List.getD_eq_getElem?_getD, hsrc]
    · intro a b ha hb
      have := dstPos_bound (GetNextPowerOf2 w) (GetNextPowerOf2 h) a b hW8 hH8
        (by omega) (by omega)
      rw [List.length_replicate, BYTES_PER_PIXEL]
      have e : GetNextPowerOf2 w * GetNextPowerOf2 h * 4 =
          4 * GetNextPowerOf2 w * GetNextPowerOf2 h := by ring
      omega
  · intro i hi hout
    rw [hdlen] at hi
    show (tileLoop w h (GetNextPowerOf2 w) (swapLoop w h buf) _)[_]? = _
    rw [tileLoop_frame]
    · apply List.getElem?_replicate_of_lt
      rw [BYTES_PER_PIXEL]
      have e : GetNextPowerOf2 w * GetNextPowerOf2 h * 4 =
          4 * GetNextPowerOf2 w * GetNextPowerOf2 h := by ring
      omega
    · intro x y k hx hy hk
      have := hout x y k hx hy hk
      rw [dstPos_eq]
      exact this

/-- Witness for C12: a 2 x 1 image with pixels `1 2 3 4` and `5 6 7 8`. -/
theorem C3DTexToC2DImage_pixels_witness :
    2 < 1024 ∧ 1 < 1024 ∧ [1, 2, 3, 4, 5, 6, 7, 8].length = 4 * 2 * 1 ∧
    ∃ tex, (C3DTexToC2DImage noTexture 2 1 [1, 2, 3, 4, 5, 6, 7, 8]).texture.tex = some tex ∧
      tex.width = GetNextPowerOf2 2 ∧ tex.height = GetNextPowerOf2 1 ∧
      tex.data.length = 4 * GetNextPowerOf2 2 * GetNextPowerOf2 1 ∧
      (∀ x y k, x < 2 → y < 1 → k < 4 →
        ∃ v, [1, 2, 3, 4, 5, 6, 7, 8][4 * (y * 2 + x) + (3 - k)]? = some v ∧
          tex.data[tiledOffset (GetNextPowerOf2 2) x y + k]? = some v ∧
          tiledOffset (GetNextPowerOf2 2) x y = dstPos (GetNextPowerOf2 2) x y) ∧
      (∀ i, i < tex.data.length →
        (∀ x y k, x < 2 → y < 1 → k < 4 → i ≠ tiledOffset (GetNextPowerOf2 2) x y + k) →
        tex.data[i]? = some 0) :=
  ⟨by decide, by decide, by decide,
    C3DTexToC2DImage_pixels noTexture 2 1 [1, 2, 3, 4, 5, 6, 7, 8]
      (by decide) (by decide) (by decide)⟩

/-- The first bytes of the texture of the 2 x 1 image of the witness. -/
theorem C3DTexToC2DImage_pixels_example :
    (C3DTexToC2DImage noTexture 2 1 [1, 2, 3, 4, 5, 6, 7, 8]).texture.tex.map
        (fun t => t.data.take 10) = some [4, 3, 2, 1, 8, 7, 6, 5, 0, 0] := by
  decide

/-! ## Theorems on the delete confirmation dialog -/

theorem deleteAttempts_append (a b : List DialogEvent) :
    deleteAttempts (a ++ b) = deleteAttempts a + deleteAttempts b := by
  simp [deleteAttempts, List.filter_append]

theorem deleteAttempts_frameEvents (E : DialogEnv) (f : Frame) :
    deleteAttempts (frameEvents E f) = 0 := by
  unfold frameEvents
  split <;> rfl

theorem dialogLoop_closed (E : DialogEnv) (env : Env) (deleteRet : Int) (dir : DirScript)
    (frames : List Frame) (s : DialogGlobals) (ev : List DialogEvent)
    (hs : s.deleteDialog = false) :
    dialogLoop E env deleteRet dir frames s ev = some (s, ev) := by
  cases frames <;> simp [dialogLoop, hs]

/-- What the dialog loop does when the dialog is open, in terms of the first
frame that carries confirm or cancel input. -/
theorem dialogLoop_open (E : DialogEnv) (env : Env) (deleteRet : Int) (dir : DirScript)
    (frames : List Frame) (s : DialogGlobals) (ev : List DialogEvent)
    (hs : s.deleteDialog = true) :
    (frames.dropWhile (undecided E) = [] →
      dialogLoop E env deleteRet dir frames s ev = none) ∧
    (∀ f post, frames.dropWhile (undecided E) = f :: post →
      ∃ ev0, deleteAttempts ev0 = deleteAttempts ev ∧
        dialogLoop E env deleteRet dir frames s ev =
          if confirmInput E f = true then
            if R_SUCCEEDED deleteRet = true then
              (updateList env dir E.CLEAR s.g).map (fun out =>
                ({ s with g := out.g },
                  ev0 ++ [DialogEvent.Delete deleteRet, DialogEvent.UpdateList out.ret,
                    DialogEvent.DisplayFiles]))
            else some (s, ev0 ++ [DialogEvent.Delete deleteRet])
          else some (s, ev0)) := by
  induction frames generalizing ev with
  | nil =>
    constructor
    · intro _
      simp [dialogLoop, hs]
    · intro f post h
      simp at h
  | cons f0 rest ih =>
    by_cases hu : undecided E f0 = true
    · have hc : confirmInput E f0 = false := by
        simp only [undecided, Bool.and_eq_true, Bool.not_eq_true'] at hu
        exact hu.1
      have hk : cancelInput E f0 = false := by
        simp only [undecided, Bool.and_eq_true, Bool.not_eq_true'] at hu
        exact hu.2
      have hstep : dialogLoop E env deleteRet dir (f0 :: rest) s ev =
          dialogLoop E env deleteRet dir rest s (ev ++ frameEvents E f0) := by
        rw [dialogLoop]
        simp [hs, hc, hk]
      rw [hstep]
      simp only [List.dropWhile_cons, hu, if_true]
      obtain ⟨ih1, ih2⟩ := ih (ev ++ frameEvents E f0)
      refine ⟨ih1, ?_⟩
      intro f post h
      obtain ⟨ev0, he, hl⟩ := ih2 f post h
      refine ⟨ev0, ?_, hl⟩
      rw [he, deleteAttempts_append, deleteAttempts_frameEvents, Nat.add_zero]
    · have hu' : undecided E f0 = false := by simpa using hu
      simp only [List.dropWhile_cons, hu']
      constructor
      · intro h
        simp at h
      · intro f post h
        simp only [Bool.false_eq_true, if_false, List.cons.injEq] at h
        obtain ⟨hf, _⟩ := h
        subst hf
        refine ⟨ev ++ frameEvents E f0, ?_, ?_⟩
        · rw [deleteAttempts_append, deleteAttempts_frameEvents, Nat.add_zero]
        · rw [dialogLoop]
          by_cases hc : confirmInput E f0 = true
          · by_cases hd : R_SUCCEEDED deleteRet = true
            · simp only [hs, hc, hd, if_true]
              cases updateList env dir E.CLEAR s.g <;> rfl
            · simp [hs, hc, hd]
          · have hc' : confirmInput E f0 = false := by simpa using hc
            have hk : cancelInput E f0 = true := by
              simp only [undecided, hc', Bool.not_false, Bool.true_and,
                Bool.not_eq_false'] at hu'
              exact hu'
            simp [hs, hc', hk]

theorem dropWhile_of_split {α : Type} (p : α → Bool) (l pre : List α) (f : α) (post : List α)
    (h : l = pre ++ f :: post) (hpre : ∀ a ∈ pre, p a = true) (hf : p f = false) :
    l.dropWhile p = f :: post := by
  subst h
  rw [List.dropWhile_append_of_pos hpre]
  simp [List.dropWhile_cons, hf]

/-- C15. Whenever `drawDeletionDialog` returns, it returns 0 with `deleteDialog`
false and `selectionX`, `selectionY`, `copyF`, `cutF` reset to 0 / false, and
`delete()` has been called at most once. If it was called, the dialog was open
and the frame that ended the loop, the first one with confirm or cancel input,
carried confirm input (A pressed, or a touch press inside the confirm region).
If that frame carried cancel input and no confirm input, `delete()` was not
called. The function returns when the dialog is not open, and when the first
frame with confirm or cancel input exists and is a cancel, a confirm whose
delete fails, or a confirm whose `updateList` returns. -/
theorem drawDeletionDialog_spec (E : DialogEnv) (env : Env) (sc : DialogScript)
    (s : DialogGlobals) :
    (∀ out, drawDeletionDialog E env sc s = some out →
      out.ret = 0 ∧ out.s.deleteDialog = false ∧ out.s.selectionX = 0 ∧
      out.s.selectionY = 0 ∧ out.s.copyF = false ∧ out.s.cutF = false ∧
      deleteAttempts out.events ≤ 1 ∧
      (deleteAttempts out.events = 1 →
        s.deleteDialog = true ∧
        ∃ pre f post, sc.frames = pre ++ f :: post ∧
          (∀ f1 ∈ pre, confirmInput E f1 = false ∧ cancelInput E f1 = false) ∧
          confirmInput E f = true) ∧
      (∀ pre f post, sc.frames = pre ++ f :: post →
        (∀ f1 ∈ pre, confirmInput E f1 = false ∧ cancelInput E f1 = false) →
        confirmInput E f = false → cancelInput E f = true →
        deleteAttempts out.events = 0)) ∧
    (s.deleteDialog = false → ∃ out, drawDeletionDialog E env sc s = some out) ∧
    (∀ pre f post, sc.frames = pre ++ f :: post →
      (∀ f1 ∈ pre, confirmInput E f1 = false ∧ cancelInput E f1 = false) →
      (confirmInput E f = true ∨ cancelInput E f = true) →
      (confirmInput E f = false ∨ sc.deleteRet < 0 ∨
        (updateList env sc.dir E.CLEAR s.g).isSome = true) →
      ∃ out, drawDeletionDialog E env sc s = some out) := by
  have hund : ∀ pre : List Frame,
      (∀ f1 ∈ pre, confirmInput E f1 = false ∧ cancelInput E f1 = false) →
      ∀ a ∈ pre, undecided E a = true := by
    intro pre h a ha
    simp [undecided, (h a ha).1, (h a ha).2]
  refine ⟨?_, ?_, ?_⟩
  · intro out h
    unfold drawDeletionDialog at h
    by_cases hs : s.deleteDialog = true
    · obtain ⟨hnil, hcons⟩ := dialogLoop_open E env sc.deleteRet sc.dir sc.frames s [] hs
      cases hd : sc.frames.dropWhile (undecided E) with
      | nil =>
        rw [hnil hd] at h
        simp at h
      | cons f post =>
        obtain ⟨ev0, he, hl⟩ := hcons f post hd
        have he0 : deleteAttempts ev0 = 0 := by rw [he]; rfl
        have hfn : undecided E f = false := by
          have := List.head_dropWhile_not (undecided E) sc.frames (by simp [hd])
          simpa [hd] using this
        have hsplit : sc.frames = sc.frames.takeWhile (undecided E) ++ f :: post := by
          have := List.takeWhile_append_dropWhile (undecided E) sc.frames
          rw [hd] at this
          exact this.symm
        have hpre : ∀ f1 ∈ sc.frames.takeWhile (undecided E),
            confirmInput E f1 = false ∧ cancelInput E f1 = false := by
          intro f1 hf1
          have := List.mem_takeWhile_imp hf1
          simpa [undecided] using this
        rw [hl] at h
        -- the number of delete attempts, by the kind of the deciding frame
        have key : out.ret = 0 ∧ out.s.deleteDialog = false ∧ out.s.selectionX = 0 ∧
            out.s.selectionY = 0 ∧ out.s.copyF = false ∧ out.s.cutF = false ∧
            deleteAttempts out.events = (if confirmInput E f = true then 1 else 0) := by
          by_cases hc : confirmInput E f = true
          · by_cases hr : R_SUCCEEDED sc.deleteRet = true
            · simp only [hc, hr, if_true] at h
              cases hu : updateList env sc.dir E.CLEAR s.g with
              | none => simp [hu] at h
              | some o =>
                simp only [hu, Option.map_some', Option.some.injEq] at h
                subst h
                refine ⟨rfl, rfl, rfl, rfl, rfl, rfl, ?_⟩
                show deleteAttempts (ev0 ++ _) = _
                rw [deleteAttempts_append, he0, if_pos hc]
                rfl
            · have hr' : R_SUCCEEDED sc.deleteRet = false := by simpa using hr
              simp only [hc, hr', if_true, Bool.false_eq_true, if_false,
                Option.some.injEq] at h
              subst h
              refine ⟨rfl, rfl, rfl, rfl, rfl, rfl, ?_⟩
              show deleteAttempts (ev0 ++ _) = _
              rw [deleteAttempts_append, he0, if_pos hc]
              rfl
          · have hc' : confirmInput E f = false := by simpa using hc
            simp only [hc', Bool.false_eq_true, if_false, Option.some.injEq] at h
            subst h
            refine ⟨rfl, rfl, rfl, rfl, rfl, rfl, ?_⟩
            show deleteAttempts ev0 = _
            rw [he0, if_neg hc]
        obtain ⟨k1, k2, k3, k4, k5, k6, k7⟩ := key
        refine ⟨k1, k2, k3, k4, k5, k6, ?_, ?_, ?_⟩
        · rw [k7]; split <;> omega
        · intro h1
          refine ⟨hs, _, f, post, hsplit, hpre, ?_⟩
          by_contra hc
          rw [k7, if_neg hc] at h1
          exact absurd h1 (by decide)
        · intro pre f' post' hsp hp hcf hcc
          have hf' : undecided E f' = false := by simp [undecided, hcf, hcc]
          have := dropWhile_of_split (undecided E) sc.frames pre f' post' hsp (hund pre hp) hf'
          rw [hd] at this
          have hff : f = f' := (List.cons.inj this).1
          rw [k7, hff, hcf]
          rfl
    · have hs' : s.deleteDialog = false := by simpa using hs
      rw [dialogLoop_closed E env sc.deleteRet sc.dir sc.frames s [] hs'] at h
      simp only [Option.some.injEq] at h
      subst h
      refine ⟨rfl, rfl, rfl, rfl, rfl, rfl, by simp [deleteAttempts], ?_, ?_⟩
      · intro h1
        simp [deleteAttempts] at h1
      · intro _ _ _ _ _ _ _
        rfl
  · intro hs
    unfold drawDeletionDialog
    rw [dialogLoop_closed E env sc.deleteRet sc.dir sc.frames s [] hs]
    exact ⟨_, rfl⟩
  · intro pre f post hsp hp hdec hret
    unfold drawDeletionDialog
    by_cases hs : s.deleteDialog = true
    · have hf : undecided E f = false := by
        rcases hdec with h | h <;> simp [undecided, h]
      have hd := dropWhile_of_split (undecided E) sc.frames pre f post hsp (hund pre hp) hf
      obtain ⟨ev0, _, hl⟩ :=
        (dialogLoop_open E env sc.deleteRet sc.dir sc.frames s [] hs).2 f post hd
      rw [hl]
      by_cases hc : confirmInput E f = true
      · by_cases hr : R_SUCCEEDED sc.deleteRet = true
        · have hnn : ¬ sc.deleteRet < 0 := by
            simp only [R_SUCCEEDED, decide_eq_true_eq] at hr
            omega
          have hsome : (updateList env sc.dir E.CLEAR s.g).isSome = true := by
            rcases hret with h | h | h
            · rw [hc] at h; exact absurd h (by decide)
            · exact absurd h hnn
            · exact h
          obtain ⟨o, ho⟩ := Option.isSome_iff_exists.1 hsome
          simp only [hc, hr, if_true, ho, Option.map_some']
          exact ⟨_, rfl⟩
        · have hr' : R_SUCCEEDED sc.deleteRet = false := by simpa using hr
          simp only [hc, hr', if_true, Bool.false_eq_true, if_false]
          exact ⟨_, rfl⟩
      · have hc' : confirmInput E f = false := by simpa using hc
        simp only [hc', Bool.false_eq_true, if_false]
        exact ⟨_, rfl⟩
    · have hs' : s.deleteDialog = false := by simpa using hs
      rw [dialogLoop_closed E env sc.deleteRet sc.dir sc.frames s [] hs']
      exact ⟨_, rfl⟩

/-- Two runs of the dialog from `openDialog`: confirming with A on the second
frame calls `delete()` once and relists; cancelling with B calls nothing. Both
return 0 with the dialog closed and the selection state reset. -/
theorem drawDeletionDialog_example :
    (drawDeletionDialog sampleDialogEnv sampleEnv confirmScript openDialog).map
        (fun o => (o.ret, o.s.deleteDialog, o.s.selectionX, o.s.selectionY, o.s.copyF,
          o.s.cutF, deleteAttempts o.events)) = some (0, false, 0, 0, false, false, 1) ∧
    (drawDeletionDialog sampleDialogEnv sampleEnv cancelScript openDialog).map
        (fun o => (o.ret, o.s.deleteDialog, o.s.selectionX, o.s.selectionY, o.s.copyF,
          o.s.cutF, deleteAttempts o.events)) = some (0, false, 0, 0, false, false, 0) :=
  ⟨rfl, rfl⟩

/-! ## Theorems on the listing invariant -/

theorem listing_dotted (env : Env) (cwd : List Char) (hid : Bool)
    (items : List FS_DirectoryEntry) (i : Nat) (f : File)
    (hf : (listing env cwd hid items)[i]? = some f) (hdot : f.name.head? = some '.') :
    i = 0 ∧ f = dotdot ∧ cwd ≠ env.ROOT_PATH := by
  have hvis : ∀ e ∈ (items.filter (visible env hid)).map (entryOf env),
      e.name.head? ≠ some '.' := by
    intro e he
    obtain ⟨a, ha, rfl⟩ := List.mem_map.1 he
    have hv := (List.mem_filter.1 ha).2
    simp only [visible, Bool.and_eq_true, bne_iff_ne, ne_eq] at hv
    exact hv.1.2
  unfold listing at hf
  by_cases hc : cwd = env.ROOT_PATH
  · simp only [hc, ne_eq, not_true_eq_false, if_false, List.nil_append] at hf
    exact absurd hdot (hvis f (List.getElem?_mem hf))
  · simp only [ne_eq, hc, not_false_eq_true, if_true, List.singleton_append] at hf
    cases i with
    | zero =>
      simp only [List.getElem?_cons_zero, Option.some.injEq] at hf
      exact ⟨rfl, hf.symm, hc⟩
    | succ k =>
      simp only [List.getElem?_cons_succ] at hf
      exact absurd hdot (hvis f (List.getElem?_mem hf))

/-- C21. At every return of `updateList`, whether it succeeds or fails at the
open, at a read or at the close, `fileCount` is the number of entries in the
list, and an entry whose name begins with `.` can only be the synthesized `..`
entry at the head of the list, which is there only when `cwd` is not the root. -/
theorem updateList_invariant (env : Env) (p : DirScript) (clearindex : Int) (g : Globals)
    (out : Outcome) (h : updateList env p clearindex g = some out) :
    out.g.fileCount = (out.g.files.length : Int) ∧
    (∀ i f, out.g.files[i]? = some f → f.name.head? = some '.' →
      i = 0 ∧ f = dotdot ∧ g.cwd ≠ env.ROOT_PATH) := by
  rw [updateList_eq] at h
  by_cases ho : p.openRet < 0
  · simp only [ho, if_true, Option.some.injEq] at h
    subst h
    refine ⟨rfl, ?_⟩
    intro i f hf
    simp at hf
  · simp only [ho, if_false] at h
    cases hd : p.reads.dropWhile running with
    | nil => simp [hd] at h
    | cons s t =>
      simp only [hd] at h
      by_cases hsr : s.ret < 0
      · simp only [hsr, if_true, Option.some.injEq] at h
        subst h
        exact ⟨rfl, fun i f hf hdot => listing_dotted env _ _ _ i f hf hdot⟩
      · simp only [hsr, if_false] at h
        by_cases hcl : p.closeRet < 0
        · simp only [hcl, if_true, Option.some.injEq] at h
          subst h
          exact ⟨rfl, fun i f hf hdot => listing_dotted env _ _ _ i f hf hdot⟩
        · simp only [hcl, if_false, Option.some.injEq] at h
          subst h
          exact ⟨rfl, fun i f hf hdot => listing_dotted env _ _ _ i f hf hdot⟩

/-- Witness for C21: the sample directory, which holds the dotted item `.b`. -/
theorem updateList_invariant_witness :
    updateList sampleEnv sampleScript 0 sampleGlobals = some sampleOutcome ∧
    (sampleOutcome.g.fileCount = (sampleOutcome.g.files.length : Int) ∧
      (∀ i f, sampleOutcome.g.files[i]? = some f → f.name.head? = some '.' →
        i = 0 ∧ f = dotdot ∧ sampleGlobals.cwd ≠ sampleEnv.ROOT_PATH)) :=
  ⟨by decide,
    updateList_invariant sampleEnv sampleScript 0 sampleGlobals sampleOutcome (by decide)⟩

/-! ## Theorems on navigate -/

theorem findSlash_back (c n r : List Char) (hend : c.getLast? = some '/') (hns : '/' ∉ n)
    (k : Nat) (hk : k ≤ n.length) :
    findSlash (c ++ n ++ r) (c.length + k) = some (c.length - 1) := by
  have hc : c ≠ [] := by
    intro h
    rw [h] at hend
    simp at hend
  have hlen : 0 < c.length := List.length_pos.2 hc
  induction k with
  | zero =>
    obtain ⟨m, hm⟩ : ∃ m, c.length = m + 1 := ⟨c.length - 1, by omega⟩
    have hget : (c ++ n ++ r)[m]? = some '/' := by
      rw [List.append_assoc, List.getElem?_append_left (by omega)]
      rw [List.getLast?_eq_getElem?, hm] at hend
      simpa using hend
    rw [Nat.add_zero, hm, findSlash, if_pos hget]
    rfl
  | succ j ih =>
    have hj : j < n.length := by omega
    have hget : (c ++ n ++ r)[c.length + j]? = some (n[j]) := by
      rw [List.append_assoc, List.getElem?_append_right (by omega)]
      rw [show c.length + j - c.length = j by omega]
      rw [List.getElem?_append_left hj, List.getElem?_eq_getElem hj]
    have hne : n[j] ≠ '/' := by
      intro h
      exact hns (h ▸ List.getElem_mem hj)
    have hstep : findSlash (c ++ n ++ r) (c.length + (j + 1)) =
        findSlash (c ++ n ++ r) (c.length + j) := by
      rw [show c.length + (j + 1) = (c.length + j) + 1 by omega, findSlash, hget]
      simp [hne]
    rw [hstep]
    exact ih (by omega)

/-- Going up from `c ++ n ++ "/"`, where `c` ends with `/` and `n` has no `/`,
cuts the working directory back to `c`. -/
theorem navigate_up (browseNand : Bool) (case2 : Int) (g2 : Globals) (f2 : File)
    (c n : List Char) (hcwd : g2.cwd = c ++ n ++ ['/'])
    (hend : c.getLast? = some '/') (hns : '/' ∉ n)
    (hsel : getFileIndex g2.files g2.position = some f2) (hdir : f2.isDir ≠ 0)
    (hup : case2 = -1 ∨ f2.name.take 2 = ['.', '.']) :
    navigate browseNand case2 g2 =
      some { ret := 0, g := { g2 with cwd := c }
             saved := if browseNand then [] else [c] } := by
  have hc : c ≠ [] := by
    intro h
    rw [h] at hend
    simp at hend
  have hlen : 0 < c.length := List.length_pos.2 hc
  have hstart : g2.cwd.length - 1 = c.length + n.length := by
    rw [hcwd]
    simp
  have hfind : findSlash g2.cwd (g2.cwd.length - 1) = some (c.length - 1) := by
    rw [hstart, hcwd]
    exact findSlash_back c n ['/'] hend hns n.length (le_refl _)
  have htake : g2.cwd.take (c.length - 1 + 1) = c := by
    rw [Nat.sub_add_cancel hlen, hcwd, List.append_assoc, List.take_left]
  unfold navigate
  simp only [hsel, hdir, if_false, hup, if_true, hfind, htake]

/-- C22, amended. With a directory entry selected whose name does not begin with
`..`, and `_case` not the special value -1, `navigate` appends the name and a `/`
to `cwd` and returns 0. If moreover `cwd` ended with `/` and the name holds no `/`, a
following `navigate` with a directory entry selected that is a `..` entry, or
with `_case = -1`, returns 0 and puts `cwd` back to exactly its original value.
When the selected entry is missing or is not a directory, `navigate` returns -1
and leaves `cwd` (and everything else) unchanged. -/
theorem navigate_round_trip (browseNand : Bool) ( _case : Int) (g : Globals) (file : File)
    (hsel : getFileIndex g.files g.position = some file) (hdir : file.isDir ≠ 0)
    (hcase : _case ≠ -1) (hname : file.name.take 2 ≠ ['.', '.'])
    (hend : g.cwd.getLast? = some '/') (hns : '/' ∉ file.name) :
    navigate browseNand _case g =
        some { ret := 0, g := { g with cwd := g.cwd ++ file.name ++ ['/'] }
               saved := if browseNand then [] else [g.cwd ++ file.name ++ ['/']] } ∧
    (∀ (nand2 : Bool) (case2 : Int) (g2 : Globals) (f2 : File),
      g2.cwd = g.cwd ++ file.name ++ ['/'] →
      getFileIndex g2.files g2.position = some f2 → f2.isDir ≠ 0 →
      (case2 = -1 ∨ f2.name.take 2 = ['.', '.']) →
      navigate nand2 case2 g2 =
        some { ret := 0, g := { g2 with cwd := g.cwd }
               saved := if nand2 then [] else [g.cwd] }) ∧
    (∀ (nand3 : Bool) (case3 : Int) (g3 : Globals),
      (getFileIndex g3.files g3.position = none ∨
        ∃ f3, getFileIndex g3.files g3.position = some f3 ∧ f3.isDir = 0) →
      navigate nand3 case3 g3 = some { ret := -1, g := g3, saved := [] }) := by
  refine ⟨?_, ?_, ?_⟩
  · unfold navigate
    have hno : ¬ (_case = -1 ∨ file.name.take 2 = ['.', '.']) := by
      intro h
      rcases h with h | h
      · exact hcase h
      · exact hname h
    simp only [hsel, hdir, if_false, hno]
  · intro nand2 case2 g2 f2 hcwd hsel2 hdir2 hup
    exact navigate_up nand2 case2 g2 f2 g.cwd file.name hcwd hend hns hsel2 hdir2 hup
  · intro nand3 case3 g3 h
    unfold navigate
    rcases h with h | ⟨f3, h, hz⟩
    · simp only [h]
    · simp only [h, hz, if_true]

/-- Witness for C22: entering the directory `d` from `/x/`. -/
theorem navigate_round_trip_witness :
    getFileIndex browseGlobals.files browseGlobals.position = some (sampleFile 'd' 1 0) ∧
    (sampleFile 'd' 1 0).isDir ≠ 0 ∧ (0 : Int) ≠ -1 ∧
    (sampleFile 'd' 1 0).name.take 2 ≠ ['.', '.'] ∧
    browseGlobals.cwd.getLast? = some '/' ∧ '/' ∉ (sampleFile 'd' 1 0).name ∧
    (navigate false 0 browseGlobals =
        some { ret := 0
               g := { browseGlobals with
                      cwd := browseGlobals.cwd ++ (sampleFile 'd' 1 0).name ++ ['/'] }
               saved := if false then []
                 else [browseGlobals.cwd ++ (sampleFile 'd' 1 0).name ++ ['/']] } ∧
      (∀ (nand2 : Bool) (case2 : Int) (g2 : Globals) (f2 : File),
        g2.cwd = browseGlobals.cwd ++ (sampleFile 'd' 1 0).name ++ ['/'] →
        getFileIndex g2.files g2.position = some f2 → f2.isDir ≠ 0 →
        (case2 = -1 ∨ f2.name.take 2 = ['.', '.']) →
        navigate nand2 case2 g2 =
          some { ret := 0, g := { g2 with cwd := browseGlobals.cwd }
                 saved := if nand2 then [] else [browseGlobals.cwd] }) ∧
      (∀ (nand3 : Bool) (case3 : Int) (g3 : Globals),
        (getFileIndex g3.files g3.position = none ∨
          ∃ f3, getFileIndex g3.files g3.position = some f3 ∧ f3.isDir = 0) →
        navigate nand3 case3 g3 = some { ret := -1, g := g3, saved := [] })) :=
  ⟨by decide, by decide, by decide, by decide, by decide, by decide,
    navigate_round_trip false 0 browseGlobals (sampleFile 'd' 1 0)
      (by decide) (by decide) (by decide) (by decide) (by decide) (by decide)⟩

/-- The round trip of the witness, evaluated: `/x/` to `/x/d/` and, with the `..`
entry of the new listing selected, back to `/x/`. -/
theorem navigate_example :
    (navigate false 0 browseGlobals).map (fun o => (o.ret, o.g.cwd)) =
      some (0, ['/', 'x', '/', 'd', '/']) ∧
    (navigate false 0 enteredGlobals).map (fun o => (o.ret, o.g.cwd)) =
      some (0, ['/', 'x', '/']) := by
  decide

/-! ## Theorems on the list loop of displayFiles -/

/-- While the selection is past the first page and the counter has not reached
the window, the loop skips entries without drawing. -/
theorem displayLoop_skip (F pos : Int) (hF : 1 ≤ F) (hge : ¬ pos < F) (k : Nat) :
    ∀ (l : List File) (i : Int), k ≤ l.length → i + k ≤ pos - F + 1 →
      displayLoop F pos l i 0 = displayLoop F pos (l.drop k) (i + k) 0 := by
  induction k with
  | zero =>
    intro l i _ _
    simp
  | succ j ih =>
    intro l i hk hi
    cases l with
    | nil => simp at hk
    | cons f rest =>
      have h0 : ¬ ((0 : Int) = F) := by omega
      have hcond : ¬ (pos < F ∨ i > pos - F) := by
        intro h
        rcases h with h | h
        · exact hge h
        · omega
      rw [displayLoop, if_neg h0, if_neg hcond]
      rw [ih rest (i + 1) (by simpa using hk) (by omega)]
      simp only [List.drop_succ_cons]
      congr 1
      push_cast
      ring

/-- Once the window is reached the loop draws entries in order until the page is
full or the list ends. -/
theorem displayLoop_print (F pos : Int) (l : List File) :
    ∀ (i printed : Int), (pos < F ∨ i > pos - F) → printed ≤ F →
      (displayLoop F pos l i printed).map (fun r => r.file) = l.take (F - printed).toNat ∧
      (∀ (k : Nat) (f : File), l[k]? = some f → (k : Int) < F - printed →
        (displayLoop F pos l i printed)[k]? =
          some ({ row := printed + k, index := i + k, file := f
                  selector := decide (i + k = pos) } : DrawnRow)) := by
  induction l with
  | nil =>
    intro i printed _ _
    constructor
    · simp [displayLoop]
    · intro k f hf
      simp at hf
  | cons a rest ih =>
    intro i printed hcond hp
    by_cases hfull : printed = F
    · constructor
      · rw [displayLoop, if_pos hfull]
        have : (F - printed).toNat = 0 := by omega
        rw [this]
        rfl
      · intro k f _ hk
        omega
    · have hcond1 : pos < F ∨ i + 1 > pos - F := by
        rcases hcond with h | h
        · exact Or.inl h
        · exact Or.inr (by omega)
      obtain ⟨ih1, ih2⟩ := ih (i + 1) (printed + 1) hcond1 (by omega)
      have hstep : displayLoop F pos (a :: rest) i printed =
          { row := printed, index := i, file := a, selector := decide (i = pos) } ::
            displayLoop F pos rest (i + 1) (printed + 1) := by
        rw [displayLoop, if_neg hfull, if_pos hcond]
      rw [hstep]
      constructor
      · have : (F - printed).toNat = (F - (printed + 1)).toNat + 1 := by omega
        rw [this, List.map_cons, List.take_succ_cons, ih1]
      · intro k f hf hk
        cases k with
        | zero =>
          simp only [List.getElem?_cons_zero, Option.some.injEq] at hf
          subst hf
          simp
        | succ j =>
          simp only [List.getElem?_cons_succ] at hf
          have := ih2 j f hf (by push_cast at hk ⊢; omega)
          simp only [List.getElem?_cons_succ, this]
          congr 2
          · push_cast; ring
          · push_cast; ring
          · have e : i + 1 + (j : Int) = i + ((j + 1 : Nat) : Int) := by push_cast; ring
            rw [e]

/-- Entries past the selection never carry the selector. -/
theorem displayLoop_no_selector (F pos : Int) (l : List File) :
    ∀ (i printed : Int), pos < i →
      (displayLoop F pos l i printed).filter (fun r => r.selector) = [] := by
  induction l with
  | nil =>
    intro i printed _
    simp [displayLoop]
  | cons a rest ih =>
    intro i printed hi
    rw [displayLoop]
    split
    · rfl
    · split
      · have hne : ¬ (i = pos) := by omega
        rw [List.filter_cons]
        simp only [hne, decide_False, Bool.false_eq_true, if_false]
        exact ih (i + 1) (printed + 1) (by omega)
      · exact ih (i + 1) printed (by omega)

/-- When the selection lies inside what the loop still draws, the selector is
drawn once, on the entry with index `pos`. -/
theorem displayLoop_selector (F pos : Int) (l : List File) :
    ∀ (i printed : Int), (pos < F ∨ i > pos - F) → i ≤ pos → pos - i < l.length →
      pos - i < F - printed →
      ((displayLoop F pos l i printed).filter (fun r => r.selector)).map (fun r => r.index) =
        [pos] := by
  induction l with
  | nil =>
    intro i printed _ hi hl _
    simp at hl
    omega
  | cons a rest ih =>
    intro i printed hcond hi hl hp
    have hfull : ¬ (printed = F) := by omega
    rw [displayLoop, if_neg hfull, if_pos hcond, List.filter_cons]
    by_cases he : i = pos
    · simp only [he, decide_True, if_true, List.map_cons]
      rw [← he, displayLoop_no_selector F i rest (i + 1) (printed + 1) (by omega)]
      rfl
    · simp only [he, decide_False, Bool.false_eq_true, if_false]
      have hcond1 : pos < F ∨ i + 1 > pos - F := by
        rcases hcond with h | h
        · exact Or.inl h
        · exact Or.inr (by omega)
      apply ih (i + 1) (printed + 1) hcond1 (by omega)
      · simp only [List.length_cons] at hl
        push_cast at hl
        omega
      · omega

/-- The list loop of `displayFiles` is the drawing loop started at the window. -/
theorem displayFiles_eq (F : Int) (g : Globals) (hF : 1 ≤ F) (h0 : 0 ≤ g.position)
    (hlt : g.position < g.files.length) :
    displayFiles F g =
        displayLoop F g.position (g.files.drop (windowStart F g.position))
          (windowStart F g.position) 0 ∧
      (g.position < F ∨ (windowStart F g.position : Int) > g.position - F) ∧
      (windowStart F g.position : Int) ≤ g.position ∧
      g.position - windowStart F g.position < F := by
  unfold displayFiles windowStart
  by_cases hp : g.position < F
  · simp only [hp, if_true, List.drop_zero, Nat.cast_zero, true_or, true_and]
    exact ⟨h0, by omega⟩
  · simp only [hp, if_false, false_or]
    refine ⟨?_, by omega, by omega, by omega⟩
    have := displayLoop_skip F g.position hF hp (g.position - F + 1).toNat g.files 0
      (by omega) (by omega)
    rw [this]
    congr 1
    omega

/-- C23. For a selection with `0 <= position < fileCount` (`fileCount` being the
length of the list) and `FILES_PER_PAGE >= 1`, the list loop of `displayFiles`
draws a contiguous window of at most `FILES_PER_PAGE` entries, in list order on
rows 0, 1, 2, ...: the entries from index `start` on, where `start` is 0 when
`position < FILES_PER_PAGE` and `position - FILES_PER_PAGE + 1` otherwise. The
window contains the selected entry, and the selector is drawn exactly once, on
the row of the entry at index `position`. -/
theorem displayFiles_window (F : Int) (g : Globals) (hF : 1 ≤ F) (h0 : 0 ≤ g.position)
    (hcount : g.fileCount = (g.files.length : Int)) (hlt : g.position < g.fileCount) :
    (g.position < F → windowStart F g.position = 0) ∧
    (¬ g.position < F → (windowStart F g.position : Int) = g.position - F + 1) ∧
    (displayFiles F g).map (fun r => r.file) =
      (g.files.drop (windowStart F g.position)).take F.toNat ∧
    ((displayFiles F g).length : Int) ≤ F ∧
    (∀ (k : Nat) (f : File), g.files[windowStart F g.position + k]? = some f → (k : Int) < F →
      (displayFiles F g)[k]? =
        some ({ row := k, index := windowStart F g.position + k, file := f
                selector := decide ((windowStart F g.position : Int) + k = g.position) } :
          DrawnRow)) ∧
    ((windowStart F g.position : Int) ≤ g.position ∧
      g.position - windowStart F g.position < (displayFiles F g).length) ∧
    (∃ f, g.files[g.position.toNat]? = some f ∧
      (displayFiles F g)[(g.position - windowStart F g.position).toNat]? =
        some ({ row := g.position - windowStart F g.position, index := g.position, file := f
                selector := true } : DrawnRow)) ∧
    ((displayFiles F g).filter (fun r => r.selector)).map (fun r => r.index) =
      [g.position] := by
  have hlen : g.position < g.files.length := by omega
  obtain ⟨heq, hcond, hsp, hpf⟩ := displayFiles_eq F g hF h0 hlen
  obtain ⟨hmap, hidx⟩ := displayLoop_print F g.position
    (g.files.drop (windowStart F g.position)) (windowStart F g.position) 0 hcond (by omega)
  rw [← heq] at hmap hidx
  have hrowlen : (displayFiles F g).length =
      min F.toNat (g.files.length - windowStart F g.position) := by
    have := congrArg List.length hmap
    rw [List.length_map, List.length_take, List.length_drop] at this
    simpa using this
  have hstart0 : g.position < F → windowStart F g.position = 0 := by
    intro hp
    simp [windowStart, hp]
  have hstart1 : ¬ g.position < F → (windowStart F g.position : Int) = g.position - F + 1 := by
    intro hp
    simp only [windowStart, hp, if_false]
    omega
  have hidx' : ∀ (k : Nat) (f : File), g.files[windowStart F g.position + k]? = some f →
      (k : Int) < F →
      (displayFiles F g)[k]? =
        some ({ row := k, index := windowStart F g.position + k, file := f
                selector := decide ((windowStart F g.position : Int) + k = g.position) } :
          DrawnRow) := by
    intro k f hf hk
    have := hidx k f (by rw [List.getElem?_drop]; exact hf) (by omega)
    rw [this]
    simp
  refine ⟨hstart0, hstart1, ?_, ?_, hidx', ⟨hsp, ?_⟩, ?_, ?_⟩
  · simpa using hmap
  · rw [hrowlen]
    omega
  · rw [hrowlen]
    omega
  · have hp : g.position.toNat < g.files.length := by omega
    refine ⟨g.files[g.position.toNat], List.getElem?_eq_getElem hp, ?_⟩
    have hk : windowStart F g.position + (g.position - windowStart F g.position).toNat =
        g.position.toNat := by omega
    have := hidx' (g.position - windowStart F g.position).toNat (g.files[g.position.toNat])
      (by rw [hk]; exact List.getElem?_eq_getElem hp) (by omega)
    rw [this]
    have e1 : (((g.position - windowStart F g.position).toNat : Nat) : Int) =
        g.position - windowStart F g.position := by omega
    simp only [e1]
    congr 2
    · omega
    · simp
  · rw [heq]
    apply displayLoop_selector F g.position _ _ 0 hcond hsp
    · rw [List.length_drop]
      omega
    · omega

/-- Witness for C23: five files, three per page, the fourth entry selected. -/
theorem displayFiles_window_witness :
    (1 : Int) ≤ 3 ∧ (0 : Int) ≤ pageGlobals.position ∧
    pageGlobals.fileCount = (pageGlobals.files.length : Int) ∧
    pageGlobals.position < pageGlobals.fileCount ∧
    ((pageGlobals.position < 3 → windowStart 3 pageGlobals.position = 0) ∧
      (¬ pageGlobals.position < 3 →
        (windowStart 3 pageGlobals.position : Int) = pageGlobals.position - 3 + 1) ∧
      (displayFiles 3 pageGlobals).map (fun r => r.file) =
        (pageGlobals.files.drop (windowStart 3 pageGlobals.position)).take (3 : Int).toNat ∧
      ((displayFiles 3 pageGlobals).length : Int) ≤ 3 ∧
      (∀ (k : Nat) (f : File),
        pageGlobals.files[windowStart 3 pageGlobals.position + k]? = some f → (k : Int) < 3 →
        (displayFiles 3 pageGlobals)[k]? =
          some ({ row := k, index := windowStart 3 pageGlobals.position + k, file := f
                  selector :=
                    decide ((windowStart 3 pageGlobals.position : Int) + k =
                      pageGlobals.position) } : DrawnRow)) ∧
      ((windowStart 3 pageGlobals.position : Int) ≤ pageGlobals.position ∧
        pageGlobals.position - windowStart 3 pageGlobals.position <
          (displayFiles 3 pageGlobals).length) ∧
      (∃ f, pageGlobals.files[pageGlobals.position.toNat]? = some f ∧
        (displayFiles 3 pageGlobals)[(pageGlobals.position -
            windowStart 3 pageGlobals.position).toNat]? =
          some ({ row := pageGlobals.position - windowStart 3 pageGlobals.position
                  index := pageGlobals.position, file := f, selector := true } : DrawnRow)) ∧
      ((displayFiles 3 pageGlobals).filter (fun r => r.selector)).map (fun r => r.index) =
        [pageGlobals.position]) :=
  ⟨by decide, by decide, by decide, by decide,
    displayFiles_window 3 pageGlobals (by decide) (by decide) (by decide) (by decide)⟩

/-- The rows of the witness, evaluated: rows 0 to 2 show the entries 1 to 3 and
the selector is on row 2; on the first page (entry 1 selected) rows 0 to 2 show
the entries 0 to 2 and the selector is on row 1. -/
theorem displayFiles_example :
    (displayFiles 3 pageGlobals).map (fun r => (r.row, r.index, r.file.name, r.selector)) =
      [(0, 1, ['b'], false), (1, 2, ['c'], false), (2, 3, ['d'], true)] ∧
    (displayFiles 3 { pageGlobals with position := 1 }).map
        (fun r => (r.row, r.index, r.file.name, r.selector)) =
      [(0, 0, ['a'], false), (1, 1, ['b'], true), (2, 2, ['c'], false)] := by
  decide

/-! ## Decoder errors: what is refused and what is converted -/

theorem C3DTexToC2DImage_accepts (texture : C2D_Image) (w h : Nat) (buf : List Nat)
    (hw : w < 1024) (hh : h < 1024) :
    (C3DTexToC2DImage texture w h buf).ret = true ∧
      (C3DTexToC2DImage texture w h buf).texture.tex.isSome = true ∧
      (C3DTexToC2DImage texture w h buf).texture.subtex.isSome = true := by
  have hg : ¬ (w ≥ 1024 ∨ h ≥ 1024) := by omega
  unfold C3DTexToC2DImage
  simp only [hg, if_false, Option.isSome_some, and_self]

/-- A BMP that analyses without error and whose decode ends with `BMP_OK`, or
with `BMP_INSUFFICIENT_DATA` / `BMP_DATA_ERROR` on at most 200000 pixels, is
handed to `C3DTexToC2DImage`. -/
theorem LoadImageFile_bmp_converted (L : Libs) (p : FileScript) (path : List Char)
    (texture : C2D_Image) (hread : (ReadFile p).ret = 0)
    (hty : GetImageType L path = ImageType.ImageTypeBMP)
    (ha : (L.bmp_analyse p.size p.data).1 = bmp_result.BMP_OK)
    (hd : (L.bmp_decode p.size p.data).1 = bmp_result.BMP_OK ∨
      (((L.bmp_decode p.size p.data).1 = bmp_result.BMP_INSUFFICIENT_DATA ∨
          (L.bmp_decode p.size p.data).1 = bmp_result.BMP_DATA_ERROR) ∧
        ((L.bmp_analyse p.size p.data).2.1 * (L.bmp_analyse p.size p.data).2.2) % 2 ^ 32 ≤
          200000)) :
    LoadImageFile L p path texture =
      some { ret := (C3DTexToC2DImage texture (L.bmp_analyse p.size p.data).2.1
                      (L.bmp_analyse p.size p.data).2.2 (L.bmp_decode p.size p.data).2).ret
             texture := (C3DTexToC2DImage texture (L.bmp_analyse p.size p.data).2.1
                      (L.bmp_analyse p.size p.data).2.2 (L.bmp_decode p.size p.data).2).texture
             effects := (ReadFile p).effects ++
               ([Effect.Lib LibCall.bmp_analyse, Effect.Lib LibCall.bmp_decode] ++
                 (C3DTexToC2DImage texture (L.bmp_analyse p.size p.data).2.1
                   (L.bmp_analyse p.size p.data).2.2 (L.bmp_decode p.size p.data).2).effects) } := by
  rw [LoadImageFile_of_read L p path texture hread, hty]
  simp only [dispatch, LoadImageBMP, Option.map_some']
  have ha' : ¬ ((L.bmp_analyse p.size p.data).1 ≠ bmp_result.BMP_OK) := by simp [ha]
  rw [if_neg ha']
  rcases hd with hok | ⟨hcode, hsmall⟩
  · have h1 : ¬ ((L.bmp_decode p.size p.data).1 ≠ bmp_result.BMP_OK ∧
        ((L.bmp_decode p.size p.data).1 ≠ bmp_result.BMP_INSUFFICIENT_DATA ∧
          (L.bmp_decode p.size p.data).1 ≠ bmp_result.BMP_DATA_ERROR)) := by simp [hok]
    have h2 : ¬ ((L.bmp_decode p.size p.data).1 ≠ bmp_result.BMP_OK ∧
        ((L.bmp_analyse p.size p.data).2.1 * (L.bmp_analyse p.size p.data).2.2) % 2 ^ 32 >
          200000) := by simp [hok]
    rw [if_neg h1, if_neg h2]
  · have h1 : ¬ ((L.bmp_decode p.size p.data).1 ≠ bmp_result.BMP_OK ∧
        ((L.bmp_decode p.size p.data).1 ≠ bmp_result.BMP_INSUFFICIENT_DATA ∧
          (L.bmp_decode p.size p.data).1 ≠ bmp_result.BMP_DATA_ERROR)) := by
      rintro ⟨_, h3, h4⟩
      rcases hcode with h | h
      · exact h3 h
      · exact h4 h
    have h2 : ¬ ((L.bmp_decode p.size p.data).1 ≠ bmp_result.BMP_OK ∧
        ((L.bmp_analyse p.size p.data).2.1 * (L.bmp_analyse p.size p.data).2.2) % 2 ^ 32 >
          200000) := by
      rintro ⟨_, h3⟩
      omega
    rw [if_neg h1, if_neg h2]

/-- C9, amended. For a file that was read without error: (1) when its type is
BMP, GIF or PNG and the decoder reports an error that the loader acts on
(`decoderRejects`), `LoadImageFile` returns false, leaves the caller's texture as
it was and creates no texture; (2) a BMP that analyses without error and whose
decode reports `BMP_INSUFFICIENT_DATA` or `BMP_DATA_ERROR` on an image of at most
200000 pixels (`u32` product) is converted exactly like one whose decode reports
`BMP_OK`: the result is that of `C3DTexToC2DImage` on the analysed extents and
the decoded bitmap, which is true with the caller's texture set when both
extents are below 1024. -/
theorem LoadImageFile_decoder_error (L : Libs) (p : FileScript) (path : List Char)
    (texture : C2D_Image) (hread : (ReadFile p).ret = 0) :
    (decoderRejects L (GetImageType L path) p.data p.size →
      ∃ out, LoadImageFile L p path texture = some out ∧ out.ret = false ∧
        out.texture = texture ∧ ∀ w h, Effect.TexInit w h ∉ out.effects) ∧
    (GetImageType L path = ImageType.ImageTypeBMP →
      (L.bmp_analyse p.size p.data).1 = bmp_result.BMP_OK →
      ((L.bmp_decode p.size p.data).1 = bmp_result.BMP_OK ∨
        (((L.bmp_decode p.size p.data).1 = bmp_result.BMP_INSUFFICIENT_DATA ∨
            (L.bmp_decode p.size p.data).1 = bmp_result.BMP_DATA_ERROR) ∧
          ((L.bmp_analyse p.size p.data).2.1 * (L.bmp_analyse p.size p.data).2.2) % 2 ^ 32 ≤
            200000)) →
      ∃ out, LoadImageFile L p path texture = some out ∧
        out.ret = (C3DTexToC2DImage texture (L.bmp_analyse p.size p.data).2.1
          (L.bmp_analyse p.size p.data).2.2 (L.bmp_decode p.size p.data).2).ret ∧
        out.texture = (C3DTexToC2DImage texture (L.bmp_analyse p.size p.data).2.1
          (L.bmp_analyse p.size p.data).2.2 (L.bmp_decode p.size p.data).2).texture ∧
        out.effects = (ReadFile p).effects ++
          ([Effect.Lib LibCall.bmp_analyse, Effect.Lib LibCall.bmp_decode] ++
            (C3DTexToC2DImage texture (L.bmp_analyse p.size p.data).2.1
              (L.bmp_analyse p.size p.data).2.2 (L.bmp_decode p.size p.data).2).effects) ∧
        ((L.bmp_analyse p.size p.data).2.1 < 1024 → (L.bmp_analyse p.size p.data).2.2 < 1024 →
          out.ret = true ∧ out.texture.tex.isSome = true ∧
            out.texture.subtex.isSome = true)) := by
  constructor
  · intro hrej
    exact LoadImageFile_rejects L p path texture hread hrej
  · intro hty ha hd
    refine ⟨_, LoadImageFile_bmp_converted L p path texture hread hty ha hd, rfl, rfl, rfl, ?_⟩
    intro hw hh
    exact C3DTexToC2DImage_accepts texture _ _ _ hw hh

/-- Witness for C9: a BMP whose decode reports `BMP_DATA_ERROR` on a 1 x 1 image
(part 2 applies, and the image is converted). -/
theorem LoadImageFile_decoder_error_witness :
    (ReadFile smallFile).ret = 0 ∧
    ((decoderRejects sampleLibs (GetImageType sampleLibs ['a', '.', 'b', 'm', 'p'])
          smallFile.data smallFile.size →
        ∃ out, LoadImageFile sampleLibs smallFile ['a', '.', 'b', 'm', 'p'] noTexture = some out ∧
          out.ret = false ∧ out.texture = noTexture ∧
          ∀ w h, Effect.TexInit w h ∉ out.effects) ∧
      (GetImageType sampleLibs ['a', '.', 'b', 'm', 'p'] = ImageType.ImageTypeBMP →
        (sampleLibs.bmp_analyse smallFile.size smallFile.data).1 = bmp_result.BMP_OK →
        ((sampleLibs.bmp_decode smallFile.size smallFile.data).1 = bmp_result.BMP_OK ∨
          (((sampleLibs.bmp_decode smallFile.size smallFile.data).1 =
                bmp_result.BMP_INSUFFICIENT_DATA ∨
              (sampleLibs.bmp_decode smallFile.size smallFile.data).1 =
                bmp_result.BMP_DATA_ERROR) ∧
            ((sampleLibs.bmp_analyse smallFile.size smallFile.data).2.1 *
                (sampleLibs.bmp_analyse smallFile.size smallFile.data).2.2) % 2 ^ 32 ≤
              200000)) →
        ∃ out, LoadImageFile sampleLibs smallFile ['a', '.', 'b', 'm', 'p'] noTexture = some out ∧
          out.ret = (C3DTexToC2DImage noTexture
            (sampleLibs.bmp_analyse smallFile.size smallFile.data).2.1
            (sampleLibs.bmp_analyse smallFile.size smallFile.data).2.2
            (sampleLibs.bmp_decode smallFile.size smallFile.data).2).ret ∧
          out.texture = (C3DTexToC2DImage noTexture
            (sampleLibs.bmp_analyse smallFile.size smallFile.data).2.1
            (sampleLibs.bmp_analyse smallFile.size smallFile.data).2.2
            (sampleLibs.bmp_decode smallFile.size smallFile.data).2).texture ∧
          out.effects = (ReadFile smallFile).effects ++
            ([Effect.Lib LibCall.bmp_analyse, Effect.Lib LibCall.bmp_decode] ++
              (C3DTexToC2DImage noTexture
                (sampleLibs.bmp_analyse smallFile.size smallFile.data).2.1
                (sampleLibs.bmp_analyse smallFile.size smallFile.data).2.2
                (sampleLibs.bmp_decode smallFile.size smallFile.data).2).effects) ∧
          ((sampleLibs.bmp_analyse smallFile.size smallFile.data).2.1 < 1024 →
            (sampleLibs.bmp_analyse smallFile.size smallFile.data).2.2 < 1024 →
            out.ret = true ∧ out.texture.tex.isSome = true ∧
              out.texture.subtex.isSome = true))) :=
  ⟨by decide,
    LoadImageFile_decoder_error sampleLibs smallFile ['a', '.', 'b', 'm', 'p'] noTexture
      (by decide)⟩

/-- Refusal and conversion at concrete inputs: a PNG whose header read
returns 0 is refused with the texture left unset and no texture created; the
hypotheses of the conversion part hold for the BMP of the witness, which is
converted. -/
theorem LoadImageFile_refused_and_converted :
    (rejectingLibs.png_image_begin_read_from_memory smallFile.size smallFile.data).1 = 0 ∧
    (LoadImageFile rejectingLibs smallFile ['a', '.', 'p', 'n', 'g'] noTexture).map
        (fun o => (o.ret, o.texture, o.effects)) =
      some (false, noTexture,
        [Effect.OpenFile 0, Effect.GetSize 0, Effect.NewBuffer 4, Effect.FileRead 0 4,
          Effect.CloseFile, Effect.Lib LibCall.png_image_begin_read_from_memory]) ∧
    GetImageType sampleLibs ['a', '.', 'b', 'm', 'p'] = ImageType.ImageTypeBMP ∧
    (sampleLibs.bmp_analyse smallFile.size smallFile.data).1 = bmp_result.BMP_OK ∧
    (sampleLibs.bmp_decode smallFile.size smallFile.data).1 = bmp_result.BMP_DATA_ERROR ∧
    ((sampleLibs.bmp_analyse smallFile.size smallFile.data).2.1 *
        (sampleLibs.bmp_analyse smallFile.size smallFile.data).2.2) % 2 ^ 32 ≤ 200000 ∧
    (LoadImageFile sampleLibs smallFile ['a', '.', 'b', 'm', 'p'] noTexture).map
        (fun o => (o.ret, o.effects)) =
      some (true,
        [Effect.OpenFile 0, Effect.GetSize 0, Effect.NewBuffer 4, Effect.FileRead 0 4,
          Effect.CloseFile, Effect.Lib LibCall.bmp_analyse, Effect.Lib LibCall.bmp_decode,
          Effect.TexInit 64 64]) := by
  decide

/-! ## navigate: the inputs on which the round trip does not happen -/

/-- C22, counterexample. (1) From `/x/` with the directory `d` selected,
`navigate(-1)` returns 0 with `cwd = /`: it goes up instead of setting `cwd` to
`/x/d/`. (2) After `navigate(0)` has entered `/x/d/`, a following `navigate(-1)`
with a regular file selected returns -1 and leaves `cwd` at `/x/d/` instead of
restoring `/x/`. -/
theorem navigate_case_minus_one :
    (getFileIndex browseGlobals.files browseGlobals.position = some (sampleFile 'd' 1 0) ∧
      (navigate false (-1) browseGlobals).map (fun o => (o.ret, o.g.cwd)) =
        some (0, ['/'])) ∧
    ((navigate false 0 browseGlobals).map (fun o => (o.ret, o.g.cwd)) =
        some (0, enteredFileGlobals.cwd) ∧
      getFileIndex enteredFileGlobals.files enteredFileGlobals.position =
        some (sampleFile 'a' 0 0) ∧
      (navigate false (-1) enteredFileGlobals).map (fun o => (o.ret, o.g.cwd)) =
        some (-1, ['/', 'x', '/', 'd', '/'])) := by
  decide

end Shell
